import Mathlib

/-!
Verification development for the MiniLang compiler front-end
(lexer / parser AST / semantic analyzer / quadruple generator).

The definitions below are a shallow embedding of the Python sources:

* `Lexical_analyzer.py` — `Lexer.get_next_token` and the `lex` driver
  from `Parser.py`;
* `Parser.py` — only the shape of the ASTs it produces (the `Expr`,
  `Stmt`, `Element`, … inductives below; the parser's node dicts carry a
  string tag, which becomes the constructor);
* `semantic_analyzer.py` — `SemanticAnalyzer` (scope stack, type
  inference, borrow flags);
* `InterCodeGenerator.py` — `QuadrupleGenerator`.

Python dictionaries tagged with a `type` string become closed inductive
types whose constructors are exactly the tags the parser can produce.
Python `None` used as a *type value* becomes the constructor
`Ty.pyNone`; exceptions become `Except`; in-place mutation of the
analyzer's `Symbol` objects becomes functional update of the innermost
binding of the scope stack (each `Symbol` object lives in exactly one
scope frame, and no code path replaces a binding while holding a
reference to the old symbol, so the translation is faithful).
-/

namespace MiniLang

/-! ## Types as values

In the Python sources a "type" is a plain value: the string `"i32"`,
`None`, or a dict whose `type` field is `"ReferenceType"`, `"ArrayType"`,
`"TupleType"` (produced by `Parser.parse_type`) or `"Tuple"` (produced by
`SemanticAnalyzer.infer_expr_type` for tuple literals).  Note that the
parser's tag `TupleType` and the analyzer's tag `Tuple` are *different*
values, hence the two distinct constructors `tupT` and `tup` below;
Python `==` on these values is structural equality, which `DecidableEq`
mirrors. -/

inductive Ty where
  /-- Python `None` used where a type is expected (missing annotation,
  missing return type, shadowing redeclaration of unknown type). -/
  | pyNone : Ty
  /-- The string `"i32"`. -/
  | i32 : Ty
  /-- Dict tag `"ReferenceType"` with fields `mut`, `inner`. -/
  | ref (m : Bool) (inner : Ty) : Ty
  /-- Dict tag `"ArrayType"` with fields `inner`, `size`. -/
  | arr (inner : Ty) (size : Nat) : Ty
  /-- Dict tag `"TupleType"` (parser type annotations). -/
  | tupT (elems : List Ty) : Ty
  /-- Dict tag `"Tuple"` (analyzer-inferred tuple literal types). -/
  | tup (elems : List Ty) : Ty

mutual

def Ty.beq : Ty → Ty → Bool
  | .pyNone, .pyNone => true
  | .i32, .i32 => true
  | .ref m1 i1, .ref m2 i2 => m1 == m2 && Ty.beq i1 i2
  | .arr i1 n1, .arr i2 n2 => Ty.beq i1 i2 && n1 == n2
  | .tupT l1, .tupT l2 => Ty.beqL l1 l2
  | .tup l1, .tup l2 => Ty.beqL l1 l2
  | _, _ => false

def Ty.beqL : List Ty → List Ty → Bool
  | [], [] => true
  | a :: as, b :: bs => Ty.beq a b && Ty.beqL as bs
  | _, _ => false

end

mutual

def Ty.beq_eq : ∀ a b : Ty, Ty.beq a b = true → a = b
  | .pyNone, .pyNone, _ => rfl
  | .i32, .i32, _ => rfl
  | .ref m1 i1, .ref m2 i2, h => by
    simp only [Ty.beq, Bool.and_eq_true, beq_iff_eq] at h
    exact congrArg₂ Ty.ref h.1 (Ty.beq_eq i1 i2 h.2)
  | .arr i1 n1, .arr i2 n2, h => by
    simp only [Ty.beq, Bool.and_eq_true, beq_iff_eq] at h
    exact congrArg₂ Ty.arr (Ty.beq_eq i1 i2 h.1) h.2
  | .tupT l1, .tupT l2, h => congrArg Ty.tupT (Ty.beqL_eq l1 l2 h)
  | .tup l1, .tup l2, h => congrArg Ty.tup (Ty.beqL_eq l1 l2 h)

def Ty.beqL_eq : ∀ a b : List Ty, Ty.beqL a b = true → a = b
  | [], [], _ => rfl
  | a :: as, b :: bs, h => by
    simp only [Ty.beqL, Bool.and_eq_true] at h
    exact congrArg₂ List.cons (Ty.beq_eq a b h.1) (Ty.beqL_eq as bs h.2)

end

mutual

def Ty.beq_refl : ∀ a : Ty, Ty.beq a a = true
  | .pyNone => rfl
  | .i32 => rfl
  | .ref m i => by simp [Ty.beq, Ty.beq_refl i]
  | .arr i n => by simp [Ty.beq, Ty.beq_refl i]
  | .tupT l => Ty.beqL_refl l
  | .tup l => Ty.beqL_refl l

def Ty.beqL_refl : ∀ a : List Ty, Ty.beqL a a = true
  | [] => rfl
  | a :: as => by simp only [Ty.beqL, Bool.and_eq_true]
                  exact ⟨Ty.beq_refl a, Ty.beqL_refl as⟩

end

instance : DecidableEq Ty := fun a b =>
  if h : Ty.beq a b = true then isTrue (Ty.beq_eq a b h)
  else isFalse (fun he => h (he ▸ Ty.beq_refl a))

/-! ## The AST

Closed set of node shapes produced by `Parser.py`.  A `FunctionExprBlock`
element is either a statement (from `parse_statement`) or a bare
expression (a block expression or an unterminated trailing expression),
hence `Element`.  `parse_if` produces `else` arms that are either a
`Block` or a nested `IfStmt`, hence `ElseArm`.  A tuple-access index is
an integer literal or (tentatively accepted by the parser) an
identifier, hence `TupIdx`. -/

inductive TupIdx where
  | num (n : Nat)
  | name (s : String)
deriving DecidableEq

mutual

inductive Expr where
  | lit (value : Nat)
  | ident (name : String)
  | bin (op : String) (left right : Expr)
  | call (callee : String) (args : List Expr)
  | ifE (cond : Expr) (thn els : FuncBlock)
  | loopE (body : FuncBlock)
  | refE (m : Bool) (operand : Expr)
  | deref (operand : Expr)
  | indexE (target index : Expr)
  | tupleAccess (target : Expr) (index : TupIdx)
  | arrayLit (elems : List Expr)
  | tupleLit (elems : List Expr)
  /-- A `FunctionExprBlock` node used in expression position. -/
  | block (b : FuncBlock)

inductive Stmt where
  | varDecl (m : Bool) (name : String) (varType : Ty) (init : Option Expr)
  | assign (target value : Expr)
  | exprStmt (e : Expr)
  | ifS (cond : Expr) (thn : BlockS) (els : Option ElseArm)
  | whileS (cond : Expr) (body : BlockS)
  | forS (m : Bool) (var : String) (varType : Ty) (start stop : Expr) (body : BlockS)
  | loopS (body : BlockS)
  | ret (e : Option Expr)
  | brk (e : Option Expr)
  | cont
  | empty

/-- A `Block` node: `{ statements: [...] }` (bodies of `if`/`while`/`for`/`loop`). -/
inductive BlockS where
  | mk (stmts : List Stmt)

inductive ElseArm where
  | blk (b : BlockS)
  | elifS (cond : Expr) (thn : BlockS) (els : Option ElseArm)

/-- A `FunctionExprBlock` node: `{ elements: [...] }`. -/
inductive FuncBlock where
  | mk (elements : List Element)

inductive Element where
  | stmt (s : Stmt)
  | expr (e : Expr)

end

def BlockS.stmts : BlockS → List Stmt
  | .mk l => l

def FuncBlock.elements : FuncBlock → List Element
  | .mk l => l

/-- A function parameter: `{ mut, name, type }`. -/
structure Param where
  m : Bool
  name : String
  type : Ty

/-- A `FunctionDecl` node. `returnType` is `Ty.pyNone` when the arrow
clause is absent. -/
structure FuncDecl where
  name : String
  params : List Param
  returnType : Ty
  body : FuncBlock

/-- A `Program` node: the parser only ever places `FunctionDecl`s in
`declarations`. -/
structure Program where
  decls : List FuncDecl

/-! ## Quadruples

A quad is a Python 4-tuple whose fields are `None`, a string, an int, or
(in `declare` quads) a raw type value.  `Ty.i32`'s Python value *is* the
string `"i32"` and `Ty.pyNone`'s is `None`, so `tyArg` folds those two
cases into `Arg.str` / `Arg.none`. -/

inductive Arg where
  | none
  | str (s : String)
  | int (n : Nat)
  | ty (t : Ty)
deriving DecidableEq

/-- Embed a Python type value into a quad field. -/
def tyArg : Ty → Arg
  | .pyNone => .none
  | .i32 => .str "i32"
  | t => .ty t

/-- Embed `_process_expr`'s return value (a string or `None`) into a quad
field. -/
def valArg : Option String → Arg
  | Option.none => .none
  | some s => .str s

structure Quad where
  op : String
  a1 : Arg
  a2 : Arg
  res : Arg
deriving DecidableEq

/-! ## The quadruple generator (`InterCodeGenerator.py`)

State of a `QuadrupleGenerator` instance.  `_process_break_stmt` /
`_process_continue_stmt` raise `ValueError` on an empty loop stack;
everything else is total, so statement-level processing returns
`Except GenErr`. -/

structure LoopCtx where
  startLabel : String
  endLabel : String
  resultTemp : Option String
deriving DecidableEq

structure GState where
  quadruples : List Quad
  tempCounter : Nat
  labelCounter : Nat
  loopStack : List LoopCtx
  currentFunction : Option String

inductive GenErr where
  /-- `ValueError("break statement outside of loop")`. -/
  | breakOutsideLoop
  /-- `ValueError("continue statement outside of loop")`. -/
  | continueOutsideLoop
deriving DecidableEq

def GState.emit (s : GState) (q : Quad) : GState :=
  { s with quadruples := s.quadruples ++ [q] }

/-- `new_temp`. -/
def GState.newTemp (s : GState) : String × GState :=
  ("t" ++ toString s.tempCounter, { s with tempCounter := s.tempCounter + 1 })

/-- `new_label`. -/
def GState.newLabel (s : GState) : String × GState :=
  ("L" ++ toString s.labelCounter, { s with labelCounter := s.labelCounter + 1 })

/-- Label quad `(f"{label}:", None, None, None)`. -/
def labelQuad (label : String) : Quad :=
  ⟨label ++ ":", .none, .none, .none⟩

mutual

/-- `_process_expr`: returns the value name (`None` for node types the
dispatch does not handle, in particular `FunctionExprBlock`). -/
def processExpr : Expr → GState → Option String × GState
  | .bin op l r, s =>
    let (lv, s1) := processExpr l s
    let (rv, s2) := processExpr r s1
    let (t, s3) := s2.newTemp
    (some t, s3.emit ⟨op, valArg lv, valArg rv, .str t⟩)
  | .call callee args, s =>
    let s1 := processCallArgs args s
    let (t, s2) := s1.newTemp
    (some t, s2.emit ⟨"call", .str callee, .int args.length, .str t⟩)
  | .ident name, s => (some name, s)
  | .lit v, s => (some (toString v), s)
  | .ifE cond thn els, s =>
    let (cv, s1) := processExpr cond s
    let (elseL, s2) := s1.newLabel
    let (endL, s3) := s2.newLabel
    let (t, s4) := s3.newTemp
    let s5 := s4.emit ⟨"ifz", valArg cv, .none, .str elseL⟩
    -- `_process_expr(then_expr)` with a `FunctionExprBlock` argument
    -- falls through the dispatch: value `None`, no quads emitted.
    let thenV : Option String := Option.none
    let s6 := s5.emit ⟨"=", valArg thenV, .none, .str t⟩
    let s7 := s6.emit ⟨"goto", .none, .none, .str endL⟩
    let s8 := s7.emit (labelQuad elseL)
    let elseV : Option String := Option.none
    let s9 := s8.emit ⟨"=", valArg elseV, .none, .str t⟩
    let s10 := s9.emit (labelQuad endL)
    let _ := thn
    let _ := els
    (some t, s10)
  | .loopE body, s =>
    let (startL, s1) := s.newLabel
    let (endL, s2) := s1.newLabel
    let (t, s3) := s2.newTemp
    let s4 := { s3 with loopStack := s3.loopStack ++ [LoopCtx.mk startL endL (some t)] }
    let s5 := s4.emit (labelQuad startL)
    -- `_process_expr(body)` with a `FunctionExprBlock` argument falls
    -- through the dispatch: no quads emitted.
    let _ := body
    let s6 := s5.emit ⟨"goto", .none, .none, .str startL⟩
    let s7 := s6.emit (labelQuad endL)
    let s8 := { s7 with loopStack := s7.loopStack.dropLast }
    (some t, s8)
  | .deref operand, s =>
    let (v, s1) := processExpr operand s
    let (t, s2) := s1.newTemp
    (some t, s2.emit ⟨"*", valArg v, .none, .str t⟩)
  | .refE m operand, s =>
    let (v, s1) := processExpr operand s
    let (t, s2) := s1.newTemp
    (some t, s2.emit ⟨"&", valArg v, .str (if m then "mut" else "const"), .str t⟩)
  | .indexE target index, s =>
    let (tv, s1) := processExpr target s
    let (iv, s2) := processExpr index s1
    let (t, s3) := s2.newTemp
    (some t, s3.emit ⟨"[]", valArg tv, valArg iv, .str t⟩)
  | .tupleAccess target index, s =>
    let (tv, s1) := processExpr target s
    let (t, s2) := s1.newTemp
    let idxArg : Arg := match index with
      | .num n => .int n
      | .name str => .str str
    (some t, s2.emit ⟨"tuple[]", valArg tv, idxArg, .str t⟩)
  | .arrayLit elems, s =>
    let (t, s1) := s.newTemp
    let s2 := s1.emit ⟨"new_array", .int elems.length, .none, .str t⟩
    let s3 := processContainerElems "[]=" t 0 elems s2
    (some t, s3)
  | .tupleLit elems, s =>
    let (t, s1) := s.newTemp
    let s2 := s1.emit ⟨"new_tuple", .int elems.length, .none, .str t⟩
    let s3 := processContainerElems "tuple[]=" t 0 elems s2
    (some t, s3)
  | .block _, s =>
    -- `FunctionExprBlock` matches no branch of `_process_expr`: the
    -- fall-through returns `None` and emits nothing.
    (Option.none, s)

/-- Argument loop of `_process_call_expr`: per argument a `param` quad. -/
def processCallArgs : List Expr → GState → GState
  | [], s => s
  | a :: rest, s =>
    let (v, s1) := processExpr a s
    let s2 := s1.emit ⟨"param", valArg v, .none, .none⟩
    processCallArgs rest s2

/-- Element loops of `_process_array_literal` / `_process_tuple_literal`:
per element one store quad with the running index. -/
def processContainerElems (storeOp : String) (tmp : String) (i : Nat) :
    List Expr → GState → GState
  | [], s => s
  | e :: rest, s =>
    let (v, s1) := processExpr e s
    let s2 := s1.emit ⟨storeOp, .str tmp, .int i, valArg v⟩
    processContainerElems storeOp tmp (i + 1) rest s2

end

/-! Statement-level processing.  `_process_statement` and
`_process_elements` dispatch on the node's `type` tag; for every tag our
parser-closed `Stmt` type can carry, the two dispatches agree
(`_process_elements` checks the tag `VariableDecl`, which the parser
never produces — its `VarDecl` nodes match *no* branch in either
function and are silently skipped). -/

/-- `_process_assignment` (total: no branch raises).  Note the value is
processed *before* the target's subexpressions. -/
def processAssignment (target value : Expr) (s : GState) : GState :=
  let (v, s1) := processExpr value s
  match target with
  | .ident name => s1.emit ⟨"=", valArg v, .none, .str name⟩
  | .indexE t i =>
    let (av, s2) := processExpr t s1
    let (iv, s3) := processExpr i s2
    s3.emit ⟨"[]=", valArg av, valArg iv, valArg v⟩
  | .tupleAccess t idx =>
    let (tv, s2) := processExpr t s1
    let idxArg : Arg := match idx with
      | .num n => .int n
      | .name str => .str str
    s2.emit ⟨"tuple[]=", valArg tv, idxArg, valArg v⟩
  | .deref operand =>
    let (pv, s2) := processExpr operand s1
    s2.emit ⟨"*=", valArg pv, .none, valArg v⟩
  | _ => s1

/-- `_process_return_stmt`. -/
def processReturnStmt (e : Option Expr) (s : GState) : GState :=
  match e with
  | some ex =>
    let (v, s1) := processExpr ex s
    s1.emit ⟨"return", valArg v, .none, .none⟩
  | Option.none => s.emit ⟨"return", .none, .none, .none⟩

mutual

/-- `_process_statement` / `_process_elements` statement dispatch.  The
control-flow branches inline `_process_if_stmt`, `_process_while_stmt`,
`_process_for_stmt` and `_process_loop_stmt`. -/
def processStmt : Stmt → GState → Except GenErr GState
  | .empty, s => .ok s
  | .varDecl _ _ _ _, s =>
    -- Neither `_process_statement` nor `_process_elements` has a branch
    -- for the parser's tag `VarDecl` (`_process_elements` tests for
    -- `VariableDecl`), so the node is skipped without emitting quads.
    .ok s
  | .exprStmt e, s =>
    let (_, s1) := processExpr e s
    .ok s1
  | .assign target value, s => .ok (processAssignment target value s)
  | .ifS cond (BlockS.mk thnStmts) els, s => do
    -- `_process_if_stmt`
    let (cv, s1) := processExpr cond s
    let (elseL, s2) := s1.newLabel
    let (endL, s3) := s2.newLabel
    let s4 := s3.emit ⟨"ifz", valArg cv, .none, .str elseL⟩
    let s5 ← processBlockStmts thnStmts s4
    let s6 := s5.emit ⟨"goto", .none, .none, .str endL⟩
    let s7 := s6.emit (labelQuad elseL)
    let s8 ← match els with
      | Option.none => pure s7
      | some (.blk (BlockS.mk bs)) => processBlockStmts bs s7
      | some (.elifS _ _ _) =>
        -- `_process_block` dispatches only on `FunctionExprBlock` and
        -- `Block`; a nested `IfStmt` else-arm matches neither and is
        -- skipped without emitting quads.
        pure s7
    .ok (s8.emit (labelQuad endL))
  | .whileS cond (BlockS.mk bodyStmts), s => do
    -- `_process_while_stmt`
    let (startL, s1) := s.newLabel
    let (endL, s2) := s1.newLabel
    let s3 := { s2 with loopStack := s2.loopStack ++ [LoopCtx.mk startL endL Option.none] }
    let s4 := s3.emit (labelQuad startL)
    let (cv, s5) := processExpr cond s4
    let s6 := s5.emit ⟨"ifz", valArg cv, .none, .str endL⟩
    let s7 ← processBlockStmts bodyStmts s6
    let s8 := s7.emit ⟨"goto", .none, .none, .str startL⟩
    let s9 := s8.emit (labelQuad endL)
    .ok { s9 with loopStack := s9.loopStack.dropLast }
  | .forS m var varType start stop (BlockS.mk bodyStmts), s => do
    -- `_process_for_stmt`
    let (sv, s1) := processExpr start s
    let (ev, s2) := processExpr stop s1
    let (startL, s3) := s2.newLabel
    let (endL, s4) := s3.newLabel
    let s5 := { s4 with loopStack := s4.loopStack ++ [LoopCtx.mk startL endL Option.none] }
    let s6 := s5.emit ⟨"declare", .str var, .str (if m then "mut" else "const"), tyArg varType⟩
    let s7 := s6.emit ⟨"=", valArg sv, .none, .str var⟩
    let s8 := s7.emit (labelQuad startL)
    let (t, s9) := s8.newTemp
    let s10 := s9.emit ⟨"<", .str var, valArg ev, .str t⟩
    let s11 := s10.emit ⟨"ifz", .str t, .none, .str endL⟩
    let s12 ← processBlockStmts bodyStmts s11
    let (incT, s13) := s12.newTemp
    let s14 := s13.emit ⟨"+", .str var, .str "1", .str incT⟩
    let s15 := s14.emit ⟨"=", .str incT, .none, .str var⟩
    let s16 := s15.emit ⟨"goto", .none, .none, .str startL⟩
    let s17 := s16.emit (labelQuad endL)
    .ok { s17 with loopStack := s17.loopStack.dropLast }
  | .loopS (BlockS.mk bodyStmts), s => do
    -- `_process_loop_stmt`
    let (startL, s1) := s.newLabel
    let (endL, s2) := s1.newLabel
    let s3 := { s2 with loopStack := s2.loopStack ++ [LoopCtx.mk startL endL Option.none] }
    let s4 := s3.emit (labelQuad startL)
    let s5 ← processBlockStmts bodyStmts s4
    let s6 := s5.emit ⟨"goto", .none, .none, .str startL⟩
    let s7 := s6.emit (labelQuad endL)
    .ok { s7 with loopStack := s7.loopStack.dropLast }
  | .ret e, s => .ok (processReturnStmt e s)
  | .brk _, s =>
    -- `_process_break_stmt` (the break's expression is ignored)
    match s.loopStack.getLast? with
    | Option.none => .error .breakOutsideLoop
    | some ctx => .ok (s.emit ⟨"goto", .none, .none, .str ctx.endLabel⟩)
  | .cont, s =>
    -- `_process_continue_stmt`
    match s.loopStack.getLast? with
    | Option.none => .error .continueOutsideLoop
    | some ctx => .ok (s.emit ⟨"goto", .none, .none, .str ctx.startLabel⟩)

/-- Statement loop of `_process_block` for a `Block` node. -/
def processBlockStmts : List Stmt → GState → Except GenErr GState
  | [], s => .ok s
  | st :: rest, s => do
    let s1 ← processStmt st s
    processBlockStmts rest s1

end


/-- `_process_elements` on one element.  Statement tags dispatch exactly
as in `_process_statement` (see above); expression elements
(`FunctionExprBlock` nodes and bare trailing expressions) match no
branch and are skipped. -/
def processElement : Element → GState → Except GenErr GState
  | .stmt st, s => processStmt st s
  | .expr _, s => .ok s

/-- Element loop of `_process_block` for a `FunctionExprBlock` node. -/
def processElements : List Element → GState → Except GenErr GState
  | [], s => .ok s
  | e :: rest, s => do
    let s1 ← processElement e s
    processElements rest s1

/-- Parameter loop of `_process_function` (`_process_parameter`). -/
def processParams : List Param → GState → GState
  | [], s => s
  | p :: rest, s => processParams rest (s.emit ⟨"param", .str p.name, .none, .none⟩)

/-- `_process_function`.  Note that the default-return check
`any(quad[0] == 'return' for quad in self.quadruples)` scans the *entire*
quad list accumulated so far, not just the current function's portion. -/
def processFunction (f : FuncDecl) (s : GState) : Except GenErr GState := do
  let s0 := { s with currentFunction := some f.name }
  let s1 := s0.emit ⟨f.name ++ ":", .none, .none, .none⟩
  let s2 := processParams f.params s1
  let s3 ← processElements f.body.elements s2
  let s4 :=
    if s3.quadruples.any (fun q => q.op == "return") then s3
    else s3.emit ⟨"return", .none, .none, .none⟩
  .ok { s4 with currentFunction := Option.none }

/-- Declaration loop of `_process_program` (every parser declaration is a
`FunctionDecl`). -/
def processDecls : List FuncDecl → GState → Except GenErr GState
  | [], s => .ok s
  | d :: rest, s => do
    let s1 ← processFunction d s
    processDecls rest s1

/-- `_reset`: `generate` clears all five mutable fields before
traversing, so the post-reset state is independent of the prior state. -/
def GState.reset (s : GState) : GState :=
  { s with quadruples := [], tempCounter := 0, labelCounter := 0,
           loopStack := [], currentFunction := Option.none }

/-- `QuadrupleGenerator.generate`, threading the instance state: reset,
traverse, return the quad list. -/
def generate (ast : Program) (s : GState) : Except GenErr (List Quad) := do
  let s1 ← processDecls ast.decls s.reset
  .ok s1.quadruples

/-- The fresh-instance run `generate_quadruples(ast)`. -/
def generateQuadruples (ast : Program) : Except GenErr (List Quad) :=
  generate ast ⟨[], 0, 0, [], Option.none⟩

/-! ## The semantic analyzer (`semantic_analyzer.py`)

The scope stack `env_stack` is a Python list of dicts whose *last*
element is the innermost scope; we represent it innermost-first (`push`
is cons).  A dict maps names to mutable `Symbol` objects; mutating a
symbol found by `lookup_variable` becomes a functional update of the
innermost binding of that name (`updateVar`), which is the binding
`lookup_variable` returned — no analyzer code path replaces a binding
between looking a symbol up and mutating it. -/

structure Symbol where
  name : String
  type : Ty
  mutFlag : Bool
  initialized : Bool
  borrowedMut : Bool
  borrowedImmut : Bool
deriving DecidableEq

/-- `Symbol.__init__` starts with both borrow flags `False`. -/
def Symbol.make (name : String) (type : Ty) (mutFlag initialized : Bool) : Symbol :=
  ⟨name, type, mutFlag, initialized, false, false⟩

/-- One scope frame: a name-to-symbol dict. -/
abbrev Frame := List (String × Symbol)

/-- The scope stack, innermost frame first. -/
abbrev Env := List Frame

/-- Semantic-error taxonomy: the `SemanticError` subclasses, plus
`pyException` for paths where the Python code would crash with a
non-semantic `TypeError` / `IndexError` (string tuple index compared to
an int; `elements[-1]` of an empty block expression; array literal with
no elements). -/
inductive AErr where
  | undeclaredVariable
  | immutableAssignment
  | typeMismatch
  | returnTypeMismatch
  | invalidControlFlow
  | uninitializedVariable
  | borrowCheck
  | genericSemantic
  | pyException
deriving DecidableEq

/-- Dict assignment `env[name] = Symbol(...)` in the current (innermost)
frame: replace an existing binding or add one. -/
def Frame.insert (fr : Frame) (name : String) (sym : Symbol) : Frame :=
  match fr with
  | [] => [(name, sym)]
  | (n, s) :: rest =>
    if n = name then (n, sym) :: rest else (n, s) :: Frame.insert rest name sym

/-- Membership test `name in self.current_env()`. -/
def Frame.contains (fr : Frame) (name : String) : Bool :=
  match fr with
  | [] => false
  | (n, _) :: rest => n == name || Frame.contains rest name

def Frame.find (fr : Frame) (name : String) : Option Symbol :=
  match fr with
  | [] => Option.none
  | (n, s) :: rest => if n = name then some s else Frame.find rest name

/-- `declare_variable`: bind in the current scope. -/
def declareVar (env : Env) (name : String) (type : Ty) (mutFlag initialized : Bool) : Env :=
  match env with
  | [] => [Frame.insert [] name (Symbol.make name type mutFlag initialized)]
  | fr :: rest => Frame.insert fr name (Symbol.make name type mutFlag initialized) :: rest

/-- `lookup_variable`: innermost frame containing the name wins. -/
def lookupVar (env : Env) (name : String) : Option Symbol :=
  match env with
  | [] => Option.none
  | fr :: rest =>
    match Frame.find fr name with
    | some s => some s
    | Option.none => lookupVar rest name

/-- In-place mutation of the symbol `lookup_variable` found: update the
innermost binding of `name`. -/
def Frame.update (fr : Frame) (name : String) (f : Symbol → Symbol) : Frame :=
  match fr with
  | [] => []
  | (n, s) :: rest =>
    if n = name then (n, f s) :: rest else (n, s) :: Frame.update rest name f

def updateVar (env : Env) (name : String) (f : Symbol → Symbol) : Env :=
  match env with
  | [] => []
  | fr :: rest =>
    if fr.contains name then Frame.update fr name f :: rest
    else fr :: updateVar rest name f

/-- `push_env`. -/
def pushFrame (env : Env) : Env := ([] : Frame) :: env

/-- `pop_env`. -/
def popFrame (env : Env) : Env := env.tail

/-- Function-table lookup.  The first pass stores declarations in a dict
keyed by name, so a later declaration overwrites an earlier one: lookup
returns the last declaration with the given name. -/
def lookupFn (decls : List FuncDecl) (name : String) : Option FuncDecl :=
  decls.reverse.find? (fun d => d.name == name)

/-- Positivity of the derived size function, used for termination. -/
def Expr.sizeOf_pos : ∀ e : Expr, 0 < sizeOf e := fun e => by
  cases e <;> simp_arith

/-- Borrow bookkeeping of the `RefExpr` branch of `infer_expr_type`
(lines 249–261), for a reference to the symbol of an identifier
operand. -/
def borrowCheckStep (refMut : Bool) (sym : Symbol) : Except AErr Symbol :=
  if refMut && !sym.mutFlag then .error .borrowCheck
  else if refMut then
    if sym.borrowedMut || sym.borrowedImmut then .error .borrowCheck
    else .ok { sym with borrowedMut := true }
  else
    if sym.borrowedMut then .error .borrowCheck
    else .ok { sym with borrowedImmut := true }

mutual

/-- `infer_expr_type`.  Dispatch is on the node's `type` tag; the
`IndexAccess` branch of the source (lines 277–294) tests a tag the
parser never produces — parser `IndexExpr` nodes match *no* branch and
fall through to the final `return "i32"` without any checks.  Statement
tags reaching this function likewise fall through. -/
def inferExpr (fns : List FuncDecl) : Expr → Env → Except AErr (Ty × Env)
  | .lit _, env => .ok (.i32, env)
  | .ident name, env =>
    match lookupVar env name with
    | Option.none => .error .undeclaredVariable
    | some sym =>
      if sym.type = .pyNone then .error .typeMismatch
      else if !sym.initialized then .error .uninitializedVariable
      else .ok (sym.type, env)
  | .bin _ l r, env => do
    let (lt, env1) ← inferExpr fns l env
    let (rt, env2) ← inferExpr fns r env1
    if lt ≠ rt then .error .typeMismatch else .ok (.i32, env2)
  | .call callee args, env =>
    match lookupFn fns callee with
    | Option.none => .error .genericSemantic
    | some f =>
      if args.length ≠ f.params.length then .error .genericSemantic
      else do
        let env1 ← inferArgs fns args f.params env
        .ok (f.returnType, env1)
  | .tupleLit elems, env => do
    let (tys, env1) ← inferList fns elems env
    .ok (.tup tys, env1)
  | .arrayLit elems, env => do
    let (tys, env1) ← inferList fns elems env
    -- `len(set(map(str, types))) > 1` — `str` is injective on type
    -- values, so this is: some element type differs from the first.
    match tys with
    | [] => .error .pyException   -- `types[0]` raises IndexError
    | t0 :: rest =>
      if rest.all (fun t => t = t0) then .ok (.arr t0 tys.length, env1)
      else .error .typeMismatch
  | .refE m operand, env => do
    let (bt, env1) ← inferExpr fns operand env
    match operand with
    | .ident name =>
      (match lookupVar env1 name with
       | Option.none => .error .undeclaredVariable
       | some sym => do
         let sym2 ← borrowCheckStep m sym
         .ok (Ty.ref m bt, updateVar env1 name (fun _ => sym2)))
    | _ => .ok (Ty.ref m bt, env1)
  | .deref operand, env => do
    let (rt, env1) ← inferExpr fns operand env
    match rt with
    | .ref _ inner => .ok (inner, env1)
    | _ => .error .typeMismatch
  | .tupleAccess target idx, env => do
    let (tt, env1) ← inferExpr fns target env
    match tt with
    | .tup elems =>
      (match idx with
       | .name _ => .error .pyException  -- `idx >= len(...)` on a str: TypeError
       | .num n =>
         if n ≥ elems.length then .error .genericSemantic
         else .ok (elems.getD n .pyNone, env1))
    | _ => .error .typeMismatch   -- tag `Tuple` required; `TupleType` is rejected too
  | .indexE _ _, env =>
    -- Parser tag `IndexExpr` matches no branch (the source checks
    -- `IndexAccess`): fall through to `return "i32"`, no checks, and the
    -- subexpressions are not visited.
    .ok (.i32, env)
  | .ifE cond (FuncBlock.mk thnEls) (FuncBlock.mk elsEls), env => do
    let (ct, env1) ← inferExpr fns cond env
    if ct ≠ .i32 then .error .typeMismatch
    else do
      -- both branches are `FunctionExprBlock` nodes: the block branch of
      -- `infer_expr_type` opens a scope around the element walk
      let (tt, env2) ← inferFBElems fns thnEls (pushFrame env1)
      let env2p := popFrame env2
      let (et, env3) ← inferFBElems fns elsEls (pushFrame env2p)
      let env3p := popFrame env3
      if tt ≠ et then .error .typeMismatch else .ok (tt, env3p)
  | .loopE (FuncBlock.mk elems), env => inferLoopBreak fns elems env
  | .block (FuncBlock.mk elems), env => do
    let (t, env1) ← inferFBElems fns elems (pushFrame env)
    .ok (t, popFrame env1)

/-- Argument loop of the `CallExpression` branch (`zip`; lengths are
equal when this is reached). -/
def inferArgs (fns : List FuncDecl) : List Expr → List Param → Env → Except AErr Env
  | [], _, env => .ok env
  | _ :: _, [], env => .ok env
  | a :: as, p :: ps, env => do
    let (at', env1) ← inferExpr fns a env
    if at' ≠ p.type then .error .typeMismatch else inferArgs fns as ps env1

/-- Element-type loop of the `TupleLiteral` / `ArrayLiteral` branches. -/
def inferList (fns : List FuncDecl) : List Expr → Env → Except AErr (List Ty × Env)
  | [], env => .ok ([], env)
  | e :: rest, env => do
    let (t, env1) ← inferExpr fns e env
    let (ts, env2) ← inferList fns rest env1
    .ok (t :: ts, env2)

/-- The `LoopExpr` branch: return the inferred type of the expression of
the first *direct* `BreakStmt` element; a valueless break makes the
source call `infer_expr_type(None)` (a crash); no break at all raises a
plain `SemanticError`. -/
def inferLoopBreak (fns : List FuncDecl) : List Element → Env → Except AErr (Ty × Env)
  | [], _ => .error .genericSemantic
  | .stmt (.brk (some e)) :: _, env => inferExpr fns e env
  | .stmt (.brk Option.none) :: _, _ => .error .pyException
  | _ :: rest, env => inferLoopBreak fns rest env

/-- The `FunctionExprBlock` branch of `infer_expr_type`: process
`elements[:-1]` as statements, then type the last element (the caller
wraps this in a push/pop of one scope frame).  An empty `elements` list
makes `elements[-1]` raise IndexError. -/
def inferFBElems (fns : List FuncDecl) : List Element → Env → Except AErr (Ty × Env)
  | [], _ => .error .pyException
  | [.stmt (.exprStmt e)], env => inferExpr fns e env
  | [.expr e], env => inferExpr fns e env
  | [.stmt _], env =>
    -- `infer_expr_type(last)` on any other statement node falls through
    -- the dispatch and returns `"i32"` without visiting the statement.
    .ok (.i32, env)
  | e :: f :: rest, env => do
    let env1 ← inferFBElem fns e env
    inferFBElems fns (f :: rest) env1

/-- One element of `elements[:-1]` in the `FunctionExprBlock` branch. -/
def inferFBElem (fns : List FuncDecl) : Element → Env → Except AErr Env
  | .stmt (.varDecl m name varType init), env =>
    checkVarDecl fns (.varDecl m name varType init) env
  | .stmt (.assign target value), env =>
    checkAssignment fns (.assign target value) env
  | .stmt (.exprStmt e), env => do
    let (_, env1) ← inferExpr fns e env
    .ok env1
  | .expr e, env => do
    -- the trailing `else: self.infer_expr_type(elem)` on an expression
    let (_, env1) ← inferExpr fns e env
    .ok env1
  | .stmt _, env =>
    -- `infer_expr_type` on any other statement node falls through the
    -- dispatch: no checks, no state change.
    .ok env

/-- `check_var_decl` (applied to a `VarDecl` node; the catch-all equation
is never reached, the analyzer only calls this on `VarDecl`s). -/
def checkVarDecl (fns : List FuncDecl) : Stmt → Env → Except AErr Env
  | .varDecl m name varType init, env =>
  if varType ≠ .pyNone then
    -- declared first (`initialized = bool(init)`), then the initializer
    -- is type-checked against the annotation
    let env1 := declareVar env name varType m init.isSome
    match init with
    | Option.none => .ok env1
    | some e => do
      let (et, env2) ← inferExpr fns e env1
      if et ≠ varType then .error .typeMismatch else .ok env2
  else
    match init with
    | some e => do
      let (et, env1) ← inferExpr fns e env
      .ok (declareVar env1 name et m true)
    | Option.none =>
      match env with
      | fr :: _ =>
        if fr.contains name then .ok (declareVar env name .pyNone m false)
        else .error .typeMismatch
      | [] => .error .typeMismatch
  | _, env => .ok env

/-- `check_assignment`.  The `IndexAccess` branch of the source (lines
149–167) tests a tag the parser never produces, so `IndexExpr` targets
take the final `else` (infer both sides, no mutability or element-type
check). -/
def checkAssignment (fns : List FuncDecl) : Stmt → Env → Except AErr Env
  | .assign (.ident name) value, env =>
    (match lookupVar env name with
     | Option.none => .error .undeclaredVariable
     | some sym =>
       if !sym.mutFlag then .error .immutableAssignment
       else do
         let (rt, env1) ← inferExpr fns value env
         if rt ≠ sym.type then .error .typeMismatch
         else .ok (updateVar env1 name (fun s => { s with initialized := true })))
  | .assign (.tupleAccess tgt idx) value, env => do
    let (tt, env1) ← inferExpr fns tgt env
    match tt with
    | .tup elems => do
      -- mutability of the underlying identifier, if the target is one
      let env1b ← (match tgt with
        | .ident name =>
          (match lookupVar env1 name with
           | Option.none => .error .undeclaredVariable
           | some sym =>
             if !sym.mutFlag then .error .immutableAssignment else .ok env1)
        | _ => .ok env1)
      match idx with
      | .name _ => .error .pyException
      | .num n =>
        if n ≥ elems.length then .error .genericSemantic
        else do
          let (rt, env2) ← inferExpr fns value env1b
          if rt ≠ elems.getD n .pyNone then .error .typeMismatch else .ok env2
    | _ => .error .typeMismatch
  | .assign target value, env => do
    -- final `else`: infer both sides and discard
    let (_, env1) ← inferExpr fns target env
    let (_, env2) ← inferExpr fns value env1
    .ok env2
  | _, env => .ok env

end

/-- `check_return`.  Python truthiness of a type value: only `None` is
falsy. -/
def checkReturn (fns : List FuncDecl) (e : Option Expr) (expected : Ty) (env : Env) :
    Except AErr Env :=
  if expected = .pyNone && e.isSome then .error .returnTypeMismatch
  else if expected ≠ .pyNone && e.isNone then .error .returnTypeMismatch
  else
    match e with
    | Option.none => .ok env
    | some ex => do
      let (et, env1) ← inferExpr fns ex env
      if et ≠ expected then .error .returnTypeMismatch else .ok env1

/-! Statement walking: `visit_block` takes a list of nodes (the
function-body `elements`, or the `statements` of a `Block`) and the
expected return type; `self.loop_depth` is mutated by balanced
increment/decrement pairs, which we render as a parameter.  `visitStmt`
is the per-node dispatch of `visit_block`; `visitElements` handles the
element lists, whose non-statement entries take the final `else` branch
(infer and compare against the expected return type). -/

mutual

def visitStmt (fns : List FuncDecl) (depth : Nat) (expectedRet : Ty) :
    Stmt → Env → Except AErr Env
  | .empty, env => .ok env   -- "EmptyStmt" (and "Block") are skipped
  | .ret e, env => checkReturn fns e expectedRet env
  | .brk _, env =>
    if depth = 0 then .error .invalidControlFlow else .ok env
  | .cont, env =>
    if depth = 0 then .error .invalidControlFlow else .ok env
  | .varDecl m name varType init, env =>
    checkVarDecl fns (.varDecl m name varType init) env
  | .assign target value, env =>
    checkAssignment fns (.assign target value) env
  | .exprStmt e, env => do
    let (_, env1) ← inferExpr fns e env
    .ok env1
  | .ifS cond (BlockS.mk thnStmts) els, env => do
    -- `check_if`: condition must be i32, then-branch visited at the
    -- same loop depth, else-arm dispatched below
    let (ct, env1) ← inferExpr fns cond env
    if ct ≠ .i32 then .error .typeMismatch
    else do
      let env2 ← visitStmts fns depth expectedRet thnStmts env1
      visitElse fns depth expectedRet els env2
  | .whileS _ (BlockS.mk stmts), env =>
    -- the loop condition is *not* analyzed; only the body is visited at
    -- loop_depth + 1
    visitStmts fns (depth + 1) expectedRet stmts env
  | .forS m var _ _ _ (BlockS.mk stmts), env => do
    -- range expressions and the type annotation are not analyzed; the
    -- loop variable is declared as `"i32"` in a fresh scope
    let env1 := pushFrame env
    let env2 := declareVar env1 var .i32 m true
    let env3 ← visitStmts fns (depth + 1) expectedRet stmts env2
    .ok (popFrame env3)
  | .loopS (BlockS.mk stmts), env =>
    visitStmts fns (depth + 1) expectedRet stmts env

/-- The else-arm handling of `check_if`: a `Block` arm is visited, an
`IfStmt` arm re-enters `check_if` (condition, then-branch, nested
else). -/
def visitElse (fns : List FuncDecl) (depth : Nat) (expectedRet : Ty) :
    Option ElseArm → Env → Except AErr Env
  | Option.none, env => .ok env
  | some (.blk (BlockS.mk elseStmts)), env =>
    visitStmts fns depth expectedRet elseStmts env
  | some (.elifS c (BlockS.mk thnStmts) els), env => do
    let (ct, env1) ← inferExpr fns c env
    if ct ≠ .i32 then .error .typeMismatch
    else do
      let env2 ← visitStmts fns depth expectedRet thnStmts env1
      visitElse fns depth expectedRet els env2

def visitStmts (fns : List FuncDecl) (depth : Nat) (expectedRet : Ty) :
    List Stmt → Env → Except AErr Env
  | [], env => .ok env
  | st :: rest, env => do
    let env1 ← visitStmt fns depth expectedRet st env
    visitStmts fns depth expectedRet rest env1

end

/-- The `visit_block` walk over a function body's `elements`:
statement entries dispatch as in `visitStmt`, other entries take the
final `else` (infer the node; if a return type is expected and the
inferred type differs, raise `ReturnTypeError`). -/
def visitElements (fns : List FuncDecl) (depth : Nat) (expectedRet : Ty) :
    List Element → Env → Except AErr Env
  | [], env => .ok env
  | .stmt st :: rest, env => do
    let env1 ← visitStmt fns depth expectedRet st env
    visitElements fns depth expectedRet rest env1
  | .expr e :: rest, env => do
    let (it, env1) ← inferExpr fns e env
    if expectedRet ≠ .pyNone && it ≠ expectedRet then .error .returnTypeMismatch
    else visitElements fns depth expectedRet rest env1

/-- Parameter loop of `visit_function`: parameters are declared
initialized. -/
def declareParams (params : List Param) (env : Env) : Env :=
  match params with
  | [] => env
  | p :: rest => declareParams rest (declareVar env p.name p.type p.m true)

/-- `visit_function`: one scope per function; `loop_depth` is 0 on entry
(its increments are balanced). -/
def visitFunction (fns : List FuncDecl) (f : FuncDecl) (env : Env) : Except AErr Env := do
  let env1 := declareParams f.params (pushFrame env)
  let env2 ← visitElements fns 0 f.returnType f.body.elements env1
  .ok (popFrame env2)

/-- Second pass of `analyze`. -/
def visitDecls (fns : List FuncDecl) : List FuncDecl → Env → Except AErr Env
  | [], env => .ok env
  | d :: rest, env => do
    let env1 ← visitFunction fns d env
    visitDecls fns rest env1

/-- `SemanticAnalyzer.analyze`: first pass collects the declarations
into the function table, second pass checks each function; the scope
stack starts as one empty global frame.  Returns the final scope stack
(the Python method returns `None`; we expose the state for the
theorems). -/
def analyzeProgram (p : Program) : Except AErr Env :=
  visitDecls p.decls p.decls [[]]

/-! ## The lexer (`Lexical_analyzer.py`)

The lexer state is the text and a cursor; we carry the remaining
character list (`current_char` is the head, `peek` the second element).
`Lexer.__init__` appends the sentinel `\'#\'` to the text, and
`get_next_token` returns `EOF` when it *reads* a `\'#\'` — including one
that was part of the source.  Python's `isspace`/`isalpha`/`isdigit` are
rendered at their exact ASCII fragments (`isspace` is true on ASCII for
space, `\t`, `\n`, `\x0b`, `\x0c`, `\r` and the separators
`\x1c`-`\x1f`); Python additionally classifies some non-ASCII
characters as spaces, letters or digits, so the lexer theorems below are
stated for ASCII characters. -/

inductive TokType where
  | keyword | identifier | literal | operator | delimiter | separator
  | assign | arrow | dot | doubleDot | comment | eof
deriving DecidableEq

inductive TokVal where
  | none
  | str (s : String)
  | int (n : Nat)
deriving DecidableEq

structure Token where
  type : TokType
  value : TokVal
deriving DecidableEq

inductive LexErr where
  /-- `ValueError(f"Invalid character ...")`. -/
  | invalidChar (c : Char)
  /-- `ValueError("Unclosed block comment")`. -/
  | unclosedComment
  /-- `self.current_char + self.peek()` with `peek() is None`: a Python
  `TypeError`.  Unreachable on sentinel-terminated text. -/
  | pyTypeError
  /-- Bounded-iteration rendering of the driver's `while True` loop ran
  out of steps; never reached with the fuel `lexAll` supplies. -/
  | fuelExhausted
deriving DecidableEq

/-- `str.isspace` on the ASCII range: the six classic whitespace
characters plus the information separators `\x1c`-`\x1f` (Unicode
bidi class B), all of which CPython's `isspace` accepts and the lexer
therefore skips.  Non-ASCII Python whitespace (`\x85`, Unicode spaces)
lies outside this fragment. -/
def pyIsSpace (c : Char) : Bool :=
  c == ' ' || c == '\t' || c == '\n' || c == '\r' || c == '\x0b' || c == '\x0c' ||
  c == '\x1c' || c == '\x1d' || c == '\x1e' || c == '\x1f'

/-- `str.isalpha` on the ASCII range (Python also accepts non-ASCII
letters). -/
def pyIsAlpha (c : Char) : Bool :=
  ('a' ≤ c && c ≤ 'z') || ('A' ≤ c && c ≤ 'Z')

/-- `str.isdigit` on the ASCII range (Python also accepts non-ASCII
digit characters). -/
def pyIsDigit (c : Char) : Bool :=
  '0' ≤ c && c ≤ '9'

def pyIsAlnum (c : Char) : Bool :=
  pyIsAlpha c || pyIsDigit c

/-- `Lexer.KEYWORDS`. -/
def lexKeywords : List String :=
  ["i32", "let", "if", "else", "while", "return", "mut", "fn",
   "for", "in", "loop", "break", "continue"]

/-- `Lexer.OPERATORS` (both widths; membership is tested on two-character
candidates first). -/
def lexOperators : List String :=
  ["+", "-", "*", "/", "==", ">", ">=", "<", "<=", "!=", "&"]

/-- `Lexer.SINGLE_CHAR_OPS`. -/
def lexSingleCharOps : List Char := ['+', '-', '*', '/', '>', '<', '!', '&']

/-- `Lexer.DELIMITERS`. -/
def lexDelimiters : List Char := ['(', ')', '\x7b', '\x7d', '[', ']']

/-- `Lexer.SEPARATORS`. -/
def lexSeparators : List Char := [';', ':', ',']

/-- Decimal value of a digit span (`int("".join(buffer))`). -/
def digitsToNat (ds : List Char) : Nat :=
  ds.foldl (fun a c => a * 10 + (c.toNat - '0'.toNat)) 0

/-- `read_identifier`: span of alphanumerics/underscores, then the
keyword test. -/
def readIdentifier (cs : List Char) : Token × List Char :=
  let word := cs.takeWhile (fun c => pyIsAlnum c || c == '_')
  let rest := cs.dropWhile (fun c => pyIsAlnum c || c == '_')
  let w := String.mk word
  if lexKeywords.contains w then (⟨.keyword, .str w⟩, rest)
  else (⟨.identifier, .str w⟩, rest)

/-- `read_number`. -/
def readNumber (cs : List Char) : Token × List Char :=
  let ds := cs.takeWhile pyIsDigit
  let rest := cs.dropWhile pyIsDigit
  (⟨.literal, .int (digitsToNat ds)⟩, rest)

/-- `read_operator` on current char `c` and remaining text `cs`: the
two-character candidate `current + peek` is built *before* any test, so
an absent peek is a Python `TypeError`. -/
def readOperator (c : Char) (cs : List Char) :
    Except LexErr (Option (Token × List Char)) :=
  match cs with
  | [] => .error .pyTypeError
  | p :: rest =>
    if lexOperators.contains (String.mk [c, p]) then
      .ok (some (⟨.operator, .str (String.mk [c, p])⟩, rest))
    else if lexSingleCharOps.contains c then
      .ok (some (⟨.operator, .str (String.mk [c])⟩, p :: rest))
    else .ok Option.none

/-- `read_line_comment` (after the two slashes are consumed; the newline
is left in the stream). -/
def readLineComment (cs : List Char) : Token × List Char :=
  (⟨.comment, .str (String.mk (cs.takeWhile (· ≠ '\n')))⟩,
   cs.dropWhile (· ≠ '\n'))

/-- `read_block_comment` (after the opening `/*` is consumed). -/
def readBlockComment (acc : List Char) : List Char → Except LexErr (Token × List Char)
  | '*' :: '/' :: rest => .ok (⟨.comment, .str (String.mk acc)⟩, rest)
  | [] => .error .unclosedComment
  | c :: rest => readBlockComment (acc ++ [c]) rest

/-- Helper for the termination of `getNextToken`: skipping whitespace
never lengthens the stream. -/
def dropWhileLenLe (p : Char → Bool) : (l : List Char) → (l.dropWhile p).length ≤ l.length
  | [] => Nat.le_refl _
  | c :: rest => by
    simp only [List.dropWhile]
    cases h : p c
    · simp
    · exact Nat.le_trans (dropWhileLenLe p rest) (Nat.le_succ _)

/-- The dispatch of `get_next_token` once leading whitespace is gone
(the loop's `skip_whitespace; continue` hands a stream whose head is not
whitespace back to the same dispatch).  Branch order follows the
source: sentinel, identifier, number, comments, arrow, dots, operators,
separators, delimiters, assignment, invalid character. -/
def lexStep : List Char → Except LexErr (Token × List Char)
  | [] => .ok (⟨.eof, .none⟩, [])
  | c :: cs =>
    if c = '#' then .ok (⟨.eof, .none⟩, cs)
    else if pyIsAlpha c || c = '_' then .ok (readIdentifier (c :: cs))
    else if pyIsDigit c then .ok (readNumber (c :: cs))
    else if c = '/' && cs.head? == some '/' then .ok (readLineComment (cs.drop 1))
    else if c = '/' && cs.head? == some '*' then readBlockComment [] (cs.drop 1)
    else if c = '-' && cs.head? == some '>' then .ok (⟨.arrow, .str "->"⟩, cs.drop 1)
    else if c = '.' then
      if cs.head? == some '.' then .ok (⟨.doubleDot, .str ".."⟩, cs.drop 1)
      else .ok (⟨.dot, .str "."⟩, cs)
    else
      match readOperator c cs with
      | .error e => .error e
      | .ok (some r) => .ok r
      | .ok Option.none =>
        if lexSeparators.contains c then .ok (⟨.separator, .str (String.mk [c])⟩, cs)
        else if lexDelimiters.contains c then .ok (⟨.delimiter, .str (String.mk [c])⟩, cs)
        else if c = '=' then
          -- the `==` test here is dead: `read_operator` already took it
          if cs.head? == some '=' then .ok (⟨.operator, .str "=="⟩, cs.drop 1)
          else .ok (⟨.assign, .str "="⟩, cs)
        else .error (.invalidChar c)

/-- `get_next_token`: skip leading whitespace, then dispatch. -/
def getNextToken (cs : List Char) : Except LexErr (Token × List Char) :=
  lexStep (cs.dropWhile pyIsSpace)

/-- The token-collecting loop of `lex` in `Parser.py` (stop at `EOF`,
filter `COMMENT`), iterated on explicit fuel. -/
def lexLoop : Nat → List Char → List Token → Except LexErr (List Token)
  | 0, _, _ => .error .fuelExhausted
  | fuel + 1, cs, acc =>
    match getNextToken cs with
    | .error e => .error e
    | .ok (tok, rest) =>
      if tok.type = .eof then .ok acc
      else if tok.type = .comment then lexLoop fuel rest acc
      else lexLoop fuel rest (acc ++ [tok])

/-- `lex(source)`: append the sentinel, collect tokens. -/
def lexAll (src : String) : Except LexErr (List Token) :=
  let cs := src.data ++ ['#']
  lexLoop (cs.length + 1) cs []

/-- The claim's carve-out: characters that *start* some token class —
whitespace, identifier/keyword heads, digits, the comment opener, and
the recognized operator / delimiter / separator / assignment / dot /
arrow characters. -/
def startsTokenClass (c : Char) : Bool :=
  pyIsSpace c || pyIsAlpha c || c == '_' || pyIsDigit c ||
  lexSingleCharOps.contains c || lexDelimiters.contains c ||
  lexSeparators.contains c || c == '=' || c == '.'

/-! ## Label bookkeeping for the quad list -/

/-- The label string `new_label` produces for counter value `n`. -/
def mkLabel (n : Nat) : String := "L" ++ toString n

/-- Is this quad a `goto` or `ifz`? -/
def isJumpQuad (q : Quad) : Bool := q.op == "goto" || q.op == "ifz"

/-- The jump targets of a quad list (the `result` field of each
`goto`/`ifz`). -/
def jumpTargets (qs : List Quad) : List String :=
  qs.filterMap (fun q =>
    if isJumpQuad q then
      match q.res with
      | .str t => some t
      | _ => Option.none
    else Option.none)

/-- Number of occurrences of the label quad for `t`. -/
def countLabel (qs : List Quad) (t : String) : Nat :=
  qs.count (labelQuad t)

/-- Does a string have the shape of a generated label: `L` followed by
one or more decimal digits? -/
def isGenLabelName (s : String) : Bool :=
  match s.data with
  | 'L' :: rest => !rest.isEmpty && rest.all pyIsDigit
  | _ => false

/-! ## Concrete programs used by the claims

Each is the AST `Parser.parse` produces for the quoted source. -/

/-- `fn h(mut n: i32) { while n > 0 { n = n - 1; } }` -/
def astWhileDec : Program :=
  ⟨[⟨"h", [⟨true, "n", .i32⟩], .pyNone,
    .mk [.stmt (.whileS (.bin ">" (.ident "n") (.lit 0))
      (.mk [.assign (.ident "n") (.bin "-" (.ident "n") (.lit 1))]))]⟩]⟩

/-- `fn f() { return; } fn g() { }` -/
def astTwoFns : Program :=
  ⟨[⟨"f", [], .pyNone, .mk [.stmt (.ret Option.none)]⟩,
    ⟨"g", [], .pyNone, .mk []⟩]⟩

/-- `fn k() { let mut a = 1; }` -/
def astLetOne : Program :=
  ⟨[⟨"k", [], .pyNone, .mk [.stmt (.varDecl true "a" .pyNone (some (.lit 1)))]⟩]⟩

/-- `fn L0(mut c: i32) { if c > 0 { } else { } }` — a legal program whose
function name collides with the first generated label. -/
def astFnNamedL0 : Program :=
  ⟨[⟨"L0", [⟨true, "c", .i32⟩], .pyNone,
    .mk [.stmt (.ifS (.bin ">" (.ident "c") (.lit 0)) (.mk [])
      (some (.blk (.mk []))))]⟩]⟩

/-- `fn p(a: [i32; 3]) { a[0] = 1; }` — assignment through an index on a
non-`mut` array parameter. -/
def astIndexAssign : Program :=
  ⟨[⟨"p", [⟨false, "a", .arr .i32 3⟩], .pyNone,
    .mk [.stmt (.assign (.indexE (.ident "a") (.lit 0)) (.lit 1))]⟩]⟩

/-- `fn p2() { let mut a = [1, 2, 3]; let mut b = a[3]; }` — literal
index out of bounds. -/
def astIndexOOB : Program :=
  ⟨[⟨"p2", [], .pyNone, .mk [
    .stmt (.varDecl true "a" .pyNone (some (.arrayLit [.lit 1, .lit 2, .lit 3]))),
    .stmt (.varDecl true "b" .pyNone (some (.indexE (.ident "a") (.lit 3))))]⟩]⟩

/-- `fn q(mut a: (i32, i32)) { let mut b: i32 = a.0; }` — tuple access on
a variable declared with a tuple type (the repo's own test
`program_9_2__1` expects this to be accepted). -/
def astTupleAccessDecl : Program :=
  ⟨[⟨"q", [⟨true, "a", .tupT [.i32, .i32]⟩], .pyNone,
    .mk [.stmt (.varDecl true "b" .i32 (some (.tupleAccess (.ident "a") (.num 0))))]⟩]⟩

/-- `fn r() { let mut p: (i32, i32) = (1, 2); }` — tuple literal
initializing a declared tuple type. -/
def astTupleLitDecl : Program :=
  ⟨[⟨"r", [], .pyNone,
    .mk [.stmt (.varDecl true "p" (.tupT [.i32, .i32])
      (some (.tupleLit [.lit 1, .lit 2])))]⟩]⟩

/-- `fn f() { { break; } }` — a break nested in a block expression, with
no enclosing loop. -/
def astNestedBreak : Program :=
  ⟨[⟨"f", [], .pyNone, .mk [.expr (.block (.mk [.stmt (.brk Option.none)]))]⟩]⟩

/-! ## Predicates used by the theorems -/

/-- Well-formedness of the quads a *statement*-level processing step
appends, relative to the label counter before (`lo`) and after (`hi`)
and the loop stack `L` in effect: generated-label quads occur at most
once, only for counter values in `[lo, hi)`, and every jump target is
either such an internal label or a label of an enclosing loop context. -/
def SegS (δ : List Quad) (lo hi : Nat) (L : List LoopCtx) : Prop :=
  (∀ k, countLabel δ (mkLabel k) ≤ 1) ∧
  (∀ k, k < lo ∨ hi ≤ k → countLabel δ (mkLabel k) = 0) ∧
  (∀ t ∈ jumpTargets δ,
    (∃ k, t = mkLabel k ∧ 1 ≤ countLabel δ (mkLabel k)) ∨
    (∃ ctx ∈ L, t = ctx.startLabel ∨ t = ctx.endLabel))

/-- The expression-level variant: expressions never reference the loop
stack, so every jump target is internal. -/
def SegE (δ : List Quad) (lo hi : Nat) : Prop :=
  (∀ k, countLabel δ (mkLabel k) ≤ 1) ∧
  (∀ k, k < lo ∨ hi ≤ k → countLabel δ (mkLabel k) = 0) ∧
  (∀ t ∈ jumpTargets δ, ∃ k, t = mkLabel k ∧ 1 ≤ countLabel δ (mkLabel k))

/-- A symbol never carries both borrow flags. -/
def SymbolOK (sym : Symbol) : Prop :=
  ¬(sym.borrowedMut = true ∧ sym.borrowedImmut = true)

instance (sym : Symbol) : Decidable (SymbolOK sym) := by
  unfold SymbolOK; infer_instance

/-- Borrow invariant over the whole scope stack. -/
def EnvInv (env : Env) : Prop :=
  ∀ fr ∈ env, ∀ p ∈ fr, SymbolOK (Prod.snd p)

instance (env : Env) : Decidable (EnvInv env) := by
  unfold EnvInv
  have : DecidablePred (fun fr : Frame => ∀ p ∈ fr, SymbolOK (Prod.snd p)) := by
    intro fr
    exact List.decidableBAll _ fr
  exact List.decidableBAll _ env

/-- Is this statement a `BreakStmt` or `ContinueStmt`? -/
def isBreakOrCont : Stmt → Bool
  | .brk _ => true
  | .cont => true
  | _ => false

/-- The binary operator strings the parser can place in a
`BinaryExpression` node (`parse_comparison` / `parse_additive` /
`parse_term`). -/
def parserBinOps : List String :=
  ["<", "<=", ">", ">=", "==", "!=", "+", "-", "*", "/"]

/-! `opsOK`: every `BinaryExpression` operator in the tree is one the
parser produces.  The quad generator copies the operator string into the
`op` field of a quad, so this is what keeps expression-generated quads
distinguishable from `goto`/`ifz` jumps. -/

mutual

def Expr.opsOK : Expr → Bool
  | .lit _ => true
  | .ident _ => true
  | .bin op l r => parserBinOps.contains op && l.opsOK && r.opsOK
  | .call _ args => exprsOpsOK args
  | .ifE c (FuncBlock.mk t) (FuncBlock.mk e) => c.opsOK && elemsOpsOK t && elemsOpsOK e
  | .loopE (FuncBlock.mk b) => elemsOpsOK b
  | .refE _ e => e.opsOK
  | .deref e => e.opsOK
  | .indexE t i => t.opsOK && i.opsOK
  | .tupleAccess t _ => t.opsOK
  | .arrayLit es => exprsOpsOK es
  | .tupleLit es => exprsOpsOK es
  | .block (FuncBlock.mk b) => elemsOpsOK b

def exprsOpsOK : List Expr → Bool
  | [] => true
  | e :: rest => e.opsOK && exprsOpsOK rest

def Stmt.opsOK : Stmt → Bool
  | .varDecl _ _ _ Option.none => true
  | .varDecl _ _ _ (some e) => e.opsOK
  | .assign t v => t.opsOK && v.opsOK
  | .exprStmt e => e.opsOK
  | .ifS c (BlockS.mk t) els => c.opsOK && stmtsOpsOK t && elseOpsOK els
  | .whileS c (BlockS.mk b) => c.opsOK && stmtsOpsOK b
  | .forS _ _ _ st en (BlockS.mk b) => st.opsOK && en.opsOK && stmtsOpsOK b
  | .loopS (BlockS.mk b) => stmtsOpsOK b
  | .ret Option.none => true
  | .ret (some e) => e.opsOK
  | .brk Option.none => true
  | .brk (some e) => e.opsOK
  | .cont => true
  | .empty => true

def elseOpsOK : Option ElseArm → Bool
  | Option.none => true
  | some (.blk (BlockS.mk b)) => stmtsOpsOK b
  | some (.elifS c (BlockS.mk t) els) => c.opsOK && stmtsOpsOK t && elseOpsOK els

def stmtsOpsOK : List Stmt → Bool
  | [] => true
  | st :: rest => st.opsOK && stmtsOpsOK rest

def elemsOpsOK : List Element → Bool
  | [] => true
  | .stmt st :: rest => st.opsOK && elemsOpsOK rest
  | .expr e :: rest => e.opsOK && elemsOpsOK rest

end

/-- Parser-producible operator strings for a whole program. -/
def Program.opsOK (p : Program) : Bool :=
  p.decls.all (fun f => elemsOpsOK f.body.elements)

/-- The quad list the generator produces for `astFnNamedL0`. -/
def quadsFnNamedL0 : List Quad :=
  [⟨"L0:", .none, .none, .none⟩, ⟨"param", .str "c", .none, .none⟩,
   ⟨">", .str "c", .str "0", .str "t0"⟩, ⟨"ifz", .str "t0", .none, .str "L0"⟩,
   ⟨"goto", .none, .none, .str "L1"⟩, ⟨"L0:", .none, .none, .none⟩,
   ⟨"L1:", .none, .none, .none⟩, ⟨"return", .none, .none, .none⟩]


/-- One generated-label segment per function: consecutive half-open
label ranges chained across the list, each segment satisfying `SegS`
with an empty loop stack. -/
def SegsChain : List (List Quad) → Nat → Nat → Prop
  | [], lo, hi => lo = hi
  | seg :: rest, lo, hi => ∃ mid, lo ≤ mid ∧ SegS seg lo mid [] ∧ SegsChain rest mid hi

/-- The quad list `generate_quadruples` produces for `astWhileDec`. -/
def quadsWhileDec : List Quad :=
  [⟨"h:", .none, .none, .none⟩,
   ⟨"param", .str "n", .none, .none⟩,
   ⟨"L0:", .none, .none, .none⟩,
   ⟨">", .str "n", .str "0", .str "t0"⟩,
   ⟨"ifz", .str "t0", .none, .str "L1"⟩,
   ⟨"-", .str "n", .str "1", .str "t1"⟩,
   ⟨"=", .str "t1", .none, .str "n"⟩,
   ⟨"goto", .none, .none, .str "L0"⟩,
   ⟨"L1:", .none, .none, .none⟩,
   ⟨"return", .none, .none, .none⟩]

def demoWhileStmt : Stmt :=
  .whileS (.bin ">" (.ident "n") (.lit 0))
    (.mk [.assign (.ident "n") (.bin "-" (.ident "n") (.lit 1))])

def demoWhileOut : GState :=
  ⟨[⟨"L0:", .none, .none, .none⟩,
    ⟨">", .str "n", .str "0", .str "t0"⟩,
    ⟨"ifz", .str "t0", .none, .str "L1"⟩,
    ⟨"-", .str "n", .str "1", .str "t1"⟩,
    ⟨"=", .str "t1", .none, .str "n"⟩,
    ⟨"goto", .none, .none, .str "L0"⟩,
    ⟨"L1:", .none, .none, .none⟩], 2, 2, [], Option.none⟩

/-- A mutable, initialized `i32` symbol named `a` with clear borrow flags. -/
def demoSym : Symbol := ⟨"a", .i32, true, true, false, false⟩

def demoSymConst : Symbol := ⟨"c", .i32, false, true, false, false⟩

def demoEnv : Env := [[("a", demoSym)]]


/-! # Theorems

## Decimal rendering

`new_label` produces `f"L{n}"`; to reason about label distinctness we
prove that the decimal rendering (`Nat.toDigits`, the code path of
`toString`) is injective, via a round-trip through `digitsToNat`. -/

theorem digitChar_val : ∀ m, m < 10 → (Nat.digitChar m).toNat - '0'.toNat = m := by
  decide

theorem digitChar_isDigit : ∀ m, m < 10 → pyIsDigit (Nat.digitChar m) = true := by
  decide

theorem toDigitsCore_append (n : Nat) : ∀ f₁ f₂ (acc : List Char), n < f₁ → n < f₂ →
    Nat.toDigitsCore 10 f₁ n acc = Nat.toDigitsCore 10 f₂ n [] ++ acc := by
  induction n using Nat.strong_induction_on with
  | _ n ih =>
    intro f₁ f₂ acc h1 h2
    cases f₁ with
    | zero => omega
    | succ g₁ =>
      cases f₂ with
      | zero => omega
      | succ g₂ =>
        simp only [Nat.toDigitsCore]
        by_cases h : n / 10 = 0
        · simp [h]
        · have hn10 : 10 ≤ n := by
            by_contra hlt
            exact h (Nat.div_eq_of_lt (by omega))
          have hd : n / 10 < n := Nat.div_lt_self (by omega) (by omega)
          have hg₁ : n / 10 < g₁ := by omega
          have hg₂ : n / 10 < g₂ := by omega
          simp only [h, if_false]
          rw [ih (n / 10) hd g₁ (n / 10 + 1) _ hg₁ (Nat.lt_succ_self _),
              ih (n / 10) hd g₂ (n / 10 + 1) _ hg₂ (Nat.lt_succ_self _)]
          simp

theorem digitsToNat_append_one (l : List Char) (c : Char) :
    digitsToNat (l ++ [c]) = digitsToNat l * 10 + (c.toNat - '0'.toNat) := by
  simp [digitsToNat, List.foldl_append]

theorem digitsToNat_toDigits : ∀ n, digitsToNat (Nat.toDigits 10 n) = n := by
  intro n
  induction n using Nat.strong_induction_on with
  | _ n ih =>
    show digitsToNat (Nat.toDigitsCore 10 (n + 1) n []) = n
    simp only [Nat.toDigitsCore]
    by_cases h : n / 10 = 0
    · have hn : n < 10 := by
        by_contra hge
        have : 0 < n / 10 := Nat.div_pos (by omega) (by omega)
        omega
      simp only [h, if_true]
      rw [Nat.mod_eq_of_lt hn]
      simpa [digitsToNat] using digitChar_val n hn
    · have hn10 : 10 ≤ n := by
        by_contra hlt
        exact h (Nat.div_eq_of_lt (by omega))
      have hd : n / 10 < n := Nat.div_lt_self (by omega) (by omega)
      simp only [h, if_false]
      rw [toDigitsCore_append (n / 10) n (n / 10 + 1) _ (by omega) (Nat.lt_succ_self _)]
      rw [digitsToNat_append_one]
      have h1 : digitsToNat (Nat.toDigitsCore 10 (n / 10 + 1) (n / 10) []) = n / 10 := ih (n / 10) hd
      rw [h1, digitChar_val (n % 10) (Nat.mod_lt _ (by omega))]
      have := Nat.div_add_mod n 10
      omega

theorem toDigits_ne_nil (n : Nat) : Nat.toDigits 10 n ≠ [] := by
  show Nat.toDigitsCore 10 (n + 1) n [] ≠ []
  simp only [Nat.toDigitsCore]
  by_cases h : n / 10 = 0
  · simp [h]
  · have hn10 : 10 ≤ n := by
      by_contra hlt
      exact h (Nat.div_eq_of_lt (by omega))
    simp only [h, if_false]
    rw [toDigitsCore_append (n / 10) n (n / 10 + 1) _
      (Nat.div_lt_self (by omega) (by omega)) (Nat.lt_succ_self _)]
    simp

theorem toDigits_all_digits : ∀ n, (Nat.toDigits 10 n).all pyIsDigit = true := by
  intro n
  induction n using Nat.strong_induction_on with
  | _ n ih =>
    show (Nat.toDigitsCore 10 (n + 1) n []).all pyIsDigit = true
    simp only [Nat.toDigitsCore]
    by_cases h : n / 10 = 0
    · simp [h, digitChar_isDigit (n % 10) (Nat.mod_lt _ (by omega))]
    · have hn10 : 10 ≤ n := by
        by_contra hlt
        exact h (Nat.div_eq_of_lt (by omega))
      have hd : n / 10 < n := Nat.div_lt_self (by omega) (by omega)
      simp only [h, if_false]
      rw [toDigitsCore_append (n / 10) n (n / 10 + 1) _ (by omega) (Nat.lt_succ_self _)]
      simp only [List.all_append]
      have h1 := ih (n / 10) hd
      simp only [Nat.toDigits] at h1
      simp [h1, digitChar_isDigit (n % 10) (Nat.mod_lt _ (by omega))]

theorem toString_data (n : Nat) : (toString n).data = Nat.toDigits 10 n := rfl

theorem toString_nat_inj (m n : Nat) (h : toString m = toString n) : m = n := by
  have hd : Nat.toDigits 10 m = Nat.toDigits 10 n := by
    rw [← toString_data, ← toString_data, h]
  have := digitsToNat_toDigits m
  rw [hd, digitsToNat_toDigits n] at this
  omega

theorem mkLabel_inj (m n : Nat) (h : mkLabel m = mkLabel n) : m = n := by
  apply toString_nat_inj
  have := congrArg String.data h
  simp only [mkLabel, String.data_append] at this
  exact String.ext (by simpa using this)

theorem isGenLabelName_mkLabel (n : Nat) : isGenLabelName (mkLabel n) = true := by
  have hdata : (mkLabel n).data = 'L' :: Nat.toDigits 10 n := by
    simp [mkLabel, String.data_append, toString_data]
  simp only [isGenLabelName, hdata]
  cases hE : Nat.toDigits 10 n with
  | nil => exact absurd hE (toDigits_ne_nil n)
  | cons c cs =>
    have := toDigits_all_digits n
    rw [hE] at this
    simp [this]

/-! ## Label-quad bookkeeping lemmas -/

theorem string_append_colon_inj (t u : String) (h : t ++ ":" = u ++ ":") : t = u := by
  have := congrArg String.data h
  simp only [String.data_append] at this
  exact String.ext (List.append_cancel_right this)

theorem labelQuad_inj (t u : String) (h : labelQuad t = labelQuad u) : t = u := by
  simp only [labelQuad, Quad.mk.injEq] at h
  exact string_append_colon_inj t u h.1

theorem ne_labelQuad_of_a1 (q : Quad) (t : String) (h : q.a1 ≠ .none) :
    q ≠ labelQuad t := by
  intro he
  rw [he] at h
  simp [labelQuad] at h

theorem ne_labelQuad_of_res (q : Quad) (t : String) (h : q.res ≠ .none) :
    q ≠ labelQuad t := by
  intro he
  rw [he] at h
  simp [labelQuad] at h

theorem mkLabel_colon_data (k : Nat) :
    (mkLabel k ++ ":").data = 'L' :: ((toString k).data ++ [':']) := by
  simp [mkLabel, String.data_append]

theorem ne_labelQuad_mk_of_head (op : String) (a b c : Arg) (k : Nat)
    (h : op.data.head? ≠ some 'L') :
    (⟨op, a, b, c⟩ : Quad) ≠ labelQuad (mkLabel k) := by
  intro he
  simp only [labelQuad, Quad.mk.injEq] at he
  apply h
  rw [he.1, mkLabel_colon_data]
  rfl

theorem append_colon_ne_of_getLast (t w : String) (h : w.data.getLast? ≠ some ':') :
    t ++ ":" ≠ w := by
  intro he
  apply h
  rw [← he]
  simp only [String.data_append]
  exact List.getLast?_concat _

/-- A label quad is never a jump quad. -/
theorem labelQuad_not_jump (t : String) : isJumpQuad (labelQuad t) = false := by
  simp only [isJumpQuad, labelQuad, Bool.or_eq_false_iff, beq_eq_false_iff_ne]
  constructor
  · exact append_colon_ne_of_getLast t "goto" (by decide)
  · exact append_colon_ne_of_getLast t "ifz" (by decide)

theorem countLabel_append (l₁ l₂ : List Quad) (t : String) :
    countLabel (l₁ ++ l₂) t = countLabel l₁ t + countLabel l₂ t := by
  simp [countLabel, List.count_append]

theorem countLabel_nil (t : String) : countLabel [] t = 0 := rfl

theorem countLabel_label_self (t : String) : countLabel [labelQuad t] t = 1 := by
  simp [countLabel, List.count_singleton]

theorem countLabel_single_zero (q : Quad) (k : Nat)
    (h : q ≠ labelQuad (mkLabel k)) : countLabel [q] (mkLabel k) = 0 := by
  simp only [countLabel, List.count_singleton']
  rw [if_neg]
  intro he
  exact h he

theorem countLabel_label_singleton (t : String) (k : Nat) :
    countLabel [labelQuad t] (mkLabel k) = if mkLabel k = t then 1 else 0 := by
  by_cases h : mkLabel k = t
  · subst h
    simp [countLabel_label_self]
  · rw [if_neg h]
    apply countLabel_single_zero
    intro he
    exact h (labelQuad_inj _ _ he.symm)

theorem jumpTargets_append (l₁ l₂ : List Quad) :
    jumpTargets (l₁ ++ l₂) = jumpTargets l₁ ++ jumpTargets l₂ := by
  simp [jumpTargets, List.filterMap_append]

theorem jumpTargets_label (t : String) : jumpTargets [labelQuad t] = [] := by
  have := labelQuad_not_jump t
  simp [jumpTargets, List.filterMap, this]

theorem jumpTargets_single_not (q : Quad) (h : isJumpQuad q = false) :
    jumpTargets [q] = [] := by
  simp [jumpTargets, List.filterMap, h]

theorem jumpTargets_goto (a b : Arg) (t : String) :
    jumpTargets [⟨"goto", a, b, .str t⟩] = [t] := by
  simp [jumpTargets, List.filterMap, isJumpQuad]

theorem jumpTargets_ifz (a b : Arg) (t : String) :
    jumpTargets [⟨"ifz", a, b, .str t⟩] = [t] := by
  simp [jumpTargets, List.filterMap, isJumpQuad]

/-! ## Claim C10: `generate` resets all instance state -/

/-- C10: `QuadrupleGenerator.generate` resets the quad list, both
counters, the loop stack, and the current-function name before
traversing, so its result is independent of the instance state it starts
from: any two invocations on the same AST — in particular a second call
on the same instance — return equal results. -/
theorem c10_generate_deterministic :
    ∀ (ast : Program) (s1 s2 : GState), generate ast s1 = generate ast s2 :=
  fun _ _ _ => rfl

/-! ## Claim C1: default-return insertion scans the whole quad list -/

/-- C1 (code evaluated at the failing input): for
`fn f() { return; } fn g() { }` the generator emits no `return` quad for
`g` — its portion of the list is just the entry label — because the
check `any(quad[0] == 'return' for quad in self.quadruples)` sees the
`return` emitted for `f`.  The claim (= spec P4) says every function's
portion ends with a `return` quad. -/
theorem c1_code_eval :
    generateQuadruples astTwoFns =
      .ok [⟨"f:", .none, .none, .none⟩, ⟨"return", .none, .none, .none⟩,
           ⟨"g:", .none, .none, .none⟩] ∧
    ([(⟨"g:", .none, .none, .none⟩ : Quad)].all (fun q => q.op != "return")) = true :=
  ⟨rfl, rfl⟩

/-! ## Claim C4: body-level `VarDecl`s emit no quads -/

/-- C4 (code evaluated at the failing input): for
`fn k() { let mut a = 1; }` the generator emits neither a `declare` quad
nor a copy quad — `_process_elements` dispatches on the tag
`VariableDecl`, which the parser (tag `VarDecl`) never produces, so the
declaration is skipped entirely. -/
theorem c4_code_eval :
    generateQuadruples astLetOne =
      .ok [⟨"k:", .none, .none, .none⟩, ⟨"return", .none, .none, .none⟩] ∧
    ([(⟨"k:", .none, .none, .none⟩ : Quad), ⟨"return", .none, .none, .none⟩].all
      (fun q => q.op != "declare" && q.op != "=")) = true :=
  ⟨rfl, rfl⟩

/-! ## Claim C2: `IndexExpr` reaches no check in the analyzer -/

/-- C2 (code evaluated at the failing inputs): the analyzer accepts both
`fn p(a: [i32; 3]) { a[0] = 1; }` (assignment through an index on a
non-`mut` array — the claim says `ImmutableAssignment`) and
`fn p2() { let mut a = [1,2,3]; let mut b = a[3]; }` (literal index out
of bounds — the claim says it raises).  The index checks live under the
tag `IndexAccess`, which the parser (tag `IndexExpr`) never produces. -/
theorem c2_code_eval :
    analyzeProgram astIndexAssign = .ok [[]] ∧
    analyzeProgram astIndexOOB = .ok [[]] :=
  ⟨rfl, rfl⟩

/-! ## Claim C3: declared `TupleType` vs inferred `Tuple` -/

/-- C3 (code evaluated at the failing inputs): the analyzer rejects both
`fn q(mut a: (i32,i32)) { let mut b: i32 = a.0; }` (the repo's own test
`program_9_2__1` expects acceptance) and
`fn r() { let mut p: (i32,i32) = (1,2); }` with `TypeMismatch`, because
the parser tags tuple types `TupleType` while the analyzer infers and
matches the tag `Tuple`; the two tags are structurally unequal values. -/
theorem c3_code_eval :
    analyzeProgram astTupleAccessDecl = .error .typeMismatch ∧
    analyzeProgram astTupleLitDecl = .error .typeMismatch ∧
    Ty.tupT [.i32, .i32] ≠ Ty.tup [.i32, .i32] :=
  ⟨rfl, rfl, by decide⟩

/-! ## Claim C9: break/continue outside loops -/

/-- C9 (counterexample): `fn f() { { break; } }` contains a break
outside any loop, inside a block expression; the claim says the analyzer
rejects it with `InvalidControlFlow`, but the analysis succeeds — the
block expression is typed by `infer_expr_type`, whose dispatch has no
`BreakStmt` branch, so the break falls through unchecked. -/
theorem c9_counterexample :
    analyzeProgram astNestedBreak = .ok [[]] ∧
    analyzeProgram astNestedBreak ≠ .error .invalidControlFlow :=
  ⟨rfl, by simp [show analyzeProgram astNestedBreak = .ok [[]] from rfl]⟩

/-- C9 (amended): a `break`/`continue` that occurs as a *direct*
statement of a statement list visited by `visit_block` with
`loop_depth = 0` is rejected with `InvalidControlFlow` — so a successful
visit of such a list contains no direct break or continue.  Breaks
nested inside block expressions are not visited by this check (see
`c9_counterexample`). -/
theorem c9_amended :
    (∀ (fns : List FuncDecl) (ret : Ty) (env : Env) (e : Option Expr),
      visitStmt fns 0 ret (.brk e) env = .error .invalidControlFlow) ∧
    (∀ (fns : List FuncDecl) (ret : Ty) (env : Env),
      visitStmt fns 0 ret .cont env = .error .invalidControlFlow) ∧
    (∀ (fns : List FuncDecl) (ret : Ty) (stmts : List Stmt) (env env' : Env),
      visitStmts fns 0 ret stmts env = .ok env' →
      ∀ st ∈ stmts, isBreakOrCont st = false) := by
  refine ⟨fun _ _ _ _ => rfl, fun _ _ _ => rfl, ?_⟩
  intro fns ret stmts
  induction stmts with
  | nil => intro env env' _ st hst; cases hst
  | cons st rest ih =>
    intro env env' h hm hmem
    rw [show visitStmts fns 0 ret (st :: rest) env =
        (visitStmt fns 0 ret st env).bind (visitStmts fns 0 ret rest) from rfl] at h
    cases hst : visitStmt fns 0 ret st env with
    | error e => rw [hst] at h; cases h
    | ok env1 =>
      rw [hst] at h
      cases hmem with
      | head =>
        cases st with
        | brk e =>
          rw [show visitStmt fns 0 ret (.brk e) env = .error .invalidControlFlow from rfl] at hst
          cases hst
        | cont =>
          rw [show visitStmt fns 0 ret .cont env = .error .invalidControlFlow from rfl] at hst
          cases hst
        | varDecl a b c d => rfl
        | assign a b => rfl
        | exprStmt a => rfl
        | ifS a b c => rfl
        | whileS a b => rfl
        | forS a b c d e f => rfl
        | loopS a => rfl
        | ret a => rfl
        | empty => rfl
      | tail _ hmem2 => exact ih env1 env' h hm hmem2

/-- C9 (witness): the amended theorem applied at a concrete successful
visit. -/
theorem c9_amended_witness :
    ∀ st ∈ [Stmt.empty], isBreakOrCont st = false :=
  c9_amended.2.2 [] .pyNone [Stmt.empty] [[]] [[]] rfl

/-! ## Claim C8: unknown characters and the sentinel -/

theorem mkTwo_ne_len (c p : Char) (s : String) (h : s.data.length ≠ 2) :
    String.mk [c, p] ≠ s := by
  intro he
  apply h
  rw [← he]
  rfl

theorem mkTwo_ne_head (c p a b : Char) (s : String) (hs : s.data = [a, b])
    (h : c ≠ a) : String.mk [c, p] ≠ s := by
  intro he
  apply h
  have hd : [c, p] = [a, b] := by
    have hdd := congrArg String.data he
    rwa [hs] at hdd
  injection hd with h1 h2

/-- C8 (counterexample): the claim demands a lex-error for every source
character starting no token class, but `'#'` — which starts no token
class — is the lexer's own end-of-input sentinel: lexing `"a#b"`
*succeeds* with just the token for `a`, silently dropping `b`. -/
theorem c8_counterexample :
    startsTokenClass '#' = false ∧ '#' ∈ ("a#b" : String).data ∧
    lexAll "a#b" = .ok [⟨.identifier, .str "a"⟩] :=
  ⟨rfl, by decide, rfl⟩

/-- C8 (amended): an ASCII character that starts no token class *other
than* `'#'` makes `get_next_token` fail with the invalid-character error
when it becomes the current character (on sentinel-terminated text the
character is never last, hence the nonempty tail); a `'#'` instead
produces `EOF`, ending the stream early.  The ASCII bound is where the
rendered `isspace`/`isalpha`/`isdigit` fragments are exact: CPython
classifies some non-ASCII characters as whitespace or letters, which the
real lexer skips or reads as identifiers. -/
theorem c8_amended :
    (∀ (c p : Char) (rest : List Char), c.toNat < 128 →
      startsTokenClass c = false → c ≠ '#' →
      getNextToken (c :: p :: rest) = .error (.invalidChar c)) ∧
    (∀ cs : List Char, getNextToken ('#' :: cs) = .ok (⟨.eof, .none⟩, cs)) := by
  constructor
  · intro c p rest hascii hstc hhash
    simp only [startsTokenClass, Bool.or_eq_false_iff] at hstc
    obtain ⟨⟨⟨⟨⟨⟨⟨⟨hsp, hal⟩, hun⟩, hdg⟩, hop⟩, hdl⟩, hsep⟩, heq⟩, hdot⟩ := hstc
    simp only [lexSingleCharOps, List.contains_cons, List.contains_nil,
      Bool.or_eq_false_iff, beq_eq_false_iff_ne] at hop
    obtain ⟨hplus, hminus, hstar, hslash, hgt, hlt, hbang, hamp, -⟩ := hop
    simp only [lexSeparators, List.contains_cons, List.contains_nil,
      Bool.or_eq_false_iff, beq_eq_false_iff_ne] at hsep
    obtain ⟨hsemi, hcolon, hcomma, -⟩ := hsep
    simp only [lexDelimiters, List.contains_cons, List.contains_nil,
      Bool.or_eq_false_iff, beq_eq_false_iff_ne] at hdl
    obtain ⟨hd1, hd2, hd3, hd4, hd5, hd6, -⟩ := hdl
    rw [beq_eq_false_iff_ne] at hun heq hdot
    have hmem : lexOperators.contains (String.mk [c, p]) = false := by
      simp only [lexOperators, List.contains_cons, List.contains_nil,
        Bool.or_eq_false_iff, beq_eq_false_iff_ne]
      refine ⟨?_, ?_, ?_, ?_, ?_, ?_, ?_, ?_, ?_, ?_, ?_, trivial⟩
      · exact mkTwo_ne_len c p "+" (by decide)
      · exact mkTwo_ne_len c p "-" (by decide)
      · exact mkTwo_ne_len c p "*" (by decide)
      · exact mkTwo_ne_len c p "/" (by decide)
      · exact mkTwo_ne_head c p '=' '=' "==" rfl heq
      · exact mkTwo_ne_len c p ">" (by decide)
      · exact mkTwo_ne_head c p '>' '=' ">=" rfl hgt
      · exact mkTwo_ne_len c p "<" (by decide)
      · exact mkTwo_ne_head c p '<' '=' "<=" rfl hlt
      · exact mkTwo_ne_head c p '!' '=' "!=" rfl hbang
      · exact mkTwo_ne_len c p "&" (by decide)
    have hsingle : lexSingleCharOps.contains c = false := by
      simp only [lexSingleCharOps, List.contains_cons, List.contains_nil,
        Bool.or_eq_false_iff, beq_eq_false_iff_ne]
      exact ⟨hplus, hminus, hstar, hslash, hgt, hlt, hbang, hamp, trivial⟩
    have hseps : lexSeparators.contains c = false := by
      simp only [lexSeparators, List.contains_cons, List.contains_nil,
        Bool.or_eq_false_iff, beq_eq_false_iff_ne]
      exact ⟨hsemi, hcolon, hcomma, trivial⟩
    have hdels : lexDelimiters.contains c = false := by
      simp only [lexDelimiters, List.contains_cons, List.contains_nil,
        Bool.or_eq_false_iff, beq_eq_false_iff_ne]
      exact ⟨hd1, hd2, hd3, hd4, hd5, hd6, trivial⟩
    rw [getNextToken, List.dropWhile_cons, if_neg (by simp [hsp])]
    rw [lexStep]
    rw [if_neg hhash]
    rw [if_neg (by simp [hal, hun])]
    rw [if_neg (by simp [hdg])]
    rw [if_neg (by simp [hslash])]
    rw [if_neg (by simp [hslash])]
    rw [if_neg (by simp [hminus])]
    rw [if_neg (by simp [hdot])]
    rw [readOperator, if_neg (by simp only [hmem]; decide),
      if_neg (by simp only [hsingle]; decide)]
    rw [if_neg (by simp only [hseps]; decide), if_neg (by simp only [hdels]; decide),
      if_neg (by simp [heq])]
  · intro cs
    rw [getNextToken, List.dropWhile_cons, if_neg (by decide)]
    rfl

/-- C8 (witness): the amended theorem applied at the character `$` with
sentinel-terminated tail. -/
theorem c8_amended_witness :
    getNextToken ['$', '#'] = .error (.invalidChar '$') :=
  c8_amended.1 '$' '#' [] (by decide) (by decide) (by decide)

/-! ## Claim C6: counterexample -/

/-- C6 (counterexample): the legal program
`fn L0(mut c: i32) { if c > 0 { } else { } }` produces a quad list in
which the `ifz` target `L0` occurs **twice** as a label quad — once as
the function's entry label and once as the generated else-label — so a
`goto`/`ifz` target does *not* occur exactly once as a label quad. -/
theorem c6_counterexample :
    generateQuadruples astFnNamedL0 = .ok quadsFnNamedL0 ∧
    "L0" ∈ jumpTargets quadsFnNamedL0 ∧
    countLabel quadsFnNamedL0 "L0" = 2 :=
  ⟨rfl, by decide, rfl⟩

/-! ## Structural lemmas about the generator's emissions -/

theorem SegE_nil (lo hi : Nat) : SegE [] lo hi := by
  refine ⟨fun k => ?_, fun k _ => ?_, fun t ht => ?_⟩
  · simp [countLabel]
  · simp [countLabel]
  · simp [jumpTargets] at ht

theorem SegE_append {δ₁ δ₂ : List Quad} {lo mid hi : Nat}
    (h1 : SegE δ₁ lo mid) (h2 : SegE δ₂ mid hi)
    (hlm : lo ≤ mid) (hmh : mid ≤ hi) : SegE (δ₁ ++ δ₂) lo hi := by
  obtain ⟨c1, z1, t1⟩ := h1
  obtain ⟨c2, z2, t2⟩ := h2
  refine ⟨fun k => ?_, fun k hk => ?_, fun t ht => ?_⟩
  · rw [countLabel_append]
    by_cases hk1 : countLabel δ₁ (mkLabel k) = 0
    · have := c2 k; omega
    · have hin : lo ≤ k ∧ k < mid := by
        by_contra hout
        exact hk1 (z1 k (by omega))
      have : countLabel δ₂ (mkLabel k) = 0 := z2 k (by omega)
      have := c1 k
      omega
  · rw [countLabel_append]
    have h1z : countLabel δ₁ (mkLabel k) = 0 := z1 k (by omega)
    have h2z : countLabel δ₂ (mkLabel k) = 0 := z2 k (by omega)
    omega
  · rw [jumpTargets_append] at ht
    rcases List.mem_append.1 ht with hm | hm
    · obtain ⟨k, hk, hc⟩ := t1 t hm
      exact ⟨k, hk, by have := countLabel_append δ₁ δ₂ (mkLabel k); omega⟩
    · obtain ⟨k, hk, hc⟩ := t2 t hm
      exact ⟨k, hk, by have := countLabel_append δ₁ δ₂ (mkLabel k); omega⟩

theorem SegE_single_nonlabel (q : Quad) (lo hi : Nat)
    (h : ∀ k, q ≠ labelQuad (mkLabel k)) (hnj : isJumpQuad q = false) :
    SegE [q] lo hi := by
  refine ⟨fun k => ?_, fun k _ => ?_, fun t ht => ?_⟩
  · rw [countLabel_single_zero q k (h k)]; omega
  · exact countLabel_single_zero q k (h k)
  · rw [jumpTargets_single_not q hnj] at ht
    cases ht

theorem SegE_single_label (k lo hi : Nat) (h1 : lo ≤ k) (h2 : k < hi) :
    SegE [labelQuad (mkLabel k)] lo hi := by
  refine ⟨fun j => ?_, fun j hj => ?_, fun t ht => ?_⟩
  · rw [countLabel_label_singleton]
    split <;> omega
  · rw [countLabel_label_singleton]
    rw [if_neg]
    intro he
    have := mkLabel_inj j k he
    omega
  · rw [jumpTargets_label] at ht
    cases ht

theorem SegS_of_SegE {δ : List Quad} {lo hi : Nat} (L : List LoopCtx)
    (h : SegE δ lo hi) : SegS δ lo hi L :=
  ⟨h.1, h.2.1, fun t ht => .inl (h.2.2 t ht)⟩

theorem SegS_append {δ₁ δ₂ : List Quad} {lo mid hi : Nat} {L : List LoopCtx}
    (h1 : SegS δ₁ lo mid L) (h2 : SegS δ₂ mid hi L)
    (hlm : lo ≤ mid) (hmh : mid ≤ hi) : SegS (δ₁ ++ δ₂) lo hi L := by
  obtain ⟨c1, z1, t1⟩ := h1
  obtain ⟨c2, z2, t2⟩ := h2
  refine ⟨fun k => ?_, fun k hk => ?_, fun t ht => ?_⟩
  · rw [countLabel_append]
    by_cases hk1 : countLabel δ₁ (mkLabel k) = 0
    · have := c2 k; omega
    · have hin : lo ≤ k ∧ k < mid := by
        by_contra hout
        exact hk1 (z1 k (by omega))
      have : countLabel δ₂ (mkLabel k) = 0 := z2 k (by omega)
      have := c1 k
      omega
  · rw [countLabel_append]
    have h1z : countLabel δ₁ (mkLabel k) = 0 := z1 k (by omega)
    have h2z : countLabel δ₂ (mkLabel k) = 0 := z2 k (by omega)
    omega
  · rw [jumpTargets_append] at ht
    rcases List.mem_append.1 ht with hm | hm
    · rcases t1 t hm with ⟨k, hk, hc⟩ | hctx
      · exact .inl ⟨k, hk, by have := countLabel_append δ₁ δ₂ (mkLabel k); omega⟩
      · exact .inr hctx
    · rcases t2 t hm with ⟨k, hk, hc⟩ | hctx
      · exact .inl ⟨k, hk, by have := countLabel_append δ₁ δ₂ (mkLabel k); omega⟩
      · exact .inr hctx

theorem parserBinOps_not_jump (op : String) (h : parserBinOps.contains op = true)
    (a b c : Arg) : isJumpQuad ⟨op, a, b, c⟩ = false := by
  simp only [parserBinOps, List.contains_cons, List.contains_nil,
    Bool.or_eq_true, beq_iff_eq] at h
  rcases h with rfl|rfl|rfl|rfl|rfl|rfl|rfl|rfl|rfl|rfl|h
  all_goals try rfl
  exact absurd h (by decide)

theorem isJumpQuad_false_of_op (op : String) (a b c : Arg)
    (h1 : op ≠ "goto") (h2 : op ≠ "ifz") : isJumpQuad ⟨op, a, b, c⟩ = false := by
  simp [isJumpQuad, h1, h2]

/-! The expression-level emission spec: processing any
(parser-operator-clean) expression only appends quads, restores the loop
stack, advances the label counter, and the appended segment is
label-well-formed with all jump targets internal
(`_process_expr` and its argument/element loops). -/

mutual

theorem processExpr_spec : ∀ (e : Expr) (s : GState), e.opsOK = true →
    ∃ δ, (processExpr e s).2.quadruples = s.quadruples ++ δ ∧
      (processExpr e s).2.loopStack = s.loopStack ∧
      s.labelCounter ≤ (processExpr e s).2.labelCounter ∧
      SegE δ s.labelCounter (processExpr e s).2.labelCounter
  | .lit v, s, _ =>
    ⟨[], by simp [processExpr], by simp [processExpr], Nat.le_refl _, SegE_nil _ _⟩
  | .ident name, s, _ =>
    ⟨[], by simp [processExpr], by simp [processExpr], Nat.le_refl _, SegE_nil _ _⟩
  | .block b, s, _ =>
    ⟨[], by simp [processExpr], by simp [processExpr], Nat.le_refl _, SegE_nil _ _⟩
  | .deref operand, s, h => by
    simp only [Expr.opsOK] at h
    obtain ⟨δ₁, hq, hl, hc, hseg⟩ := processExpr_spec operand s h
    rcases hpe : processExpr operand s with ⟨v, s1⟩
    rw [hpe] at hq hl hc hseg
    dsimp only at hq hl hc hseg
    simp only [processExpr, hpe]
    refine ⟨δ₁ ++ [⟨"*", valArg v, .none, .str ("t" ++ toString s1.tempCounter)⟩],
      ?_, ?_, ?_, ?_⟩
    · simp [GState.emit, GState.newTemp, hq]
    · simp [GState.emit, GState.newTemp, hl]
    · simpa [GState.newTemp, GState.emit] using hc
    · simp only [GState.emit, GState.newTemp]
      exact SegE_append hseg
        (SegE_single_nonlabel _ _ _ (fun k => ne_labelQuad_of_res _ _ (by simp)) rfl)
        hc (Nat.le_refl _)
  | .refE m operand, s, h => by
    simp only [Expr.opsOK] at h
    obtain ⟨δ₁, hq, hl, hc, hseg⟩ := processExpr_spec operand s h
    rcases hpe : processExpr operand s with ⟨v, s1⟩
    rw [hpe] at hq hl hc hseg
    dsimp only at hq hl hc hseg
    simp only [processExpr, hpe]
    refine ⟨δ₁ ++ [⟨"&", valArg v, .str (if m then "mut" else "const"),
      .str ("t" ++ toString s1.tempCounter)⟩], ?_, ?_, ?_, ?_⟩
    · simp [GState.emit, GState.newTemp, hq]
    · simp [GState.emit, GState.newTemp, hl]
    · simpa [GState.newTemp, GState.emit] using hc
    · simp only [GState.emit, GState.newTemp]
      exact SegE_append hseg
        (SegE_single_nonlabel _ _ _ (fun k => ne_labelQuad_of_res _ _ (by simp)) rfl)
        hc (Nat.le_refl _)
  | .bin op l r, s, h => by
    simp only [Expr.opsOK, Bool.and_eq_true] at h
    obtain ⟨⟨hop, hl'⟩, hr'⟩ := h
    obtain ⟨δ₁, hq1, hl1, hc1, hseg1⟩ := processExpr_spec l s hl'
    rcases hpe1 : processExpr l s with ⟨lv, s1⟩
    rw [hpe1] at hq1 hl1 hc1 hseg1
    dsimp only at hq1 hl1 hc1 hseg1
    obtain ⟨δ₂, hq2, hl2, hc2, hseg2⟩ := processExpr_spec r s1 hr'
    rcases hpe2 : processExpr r s1 with ⟨rv, s2⟩
    rw [hpe2] at hq2 hl2 hc2 hseg2
    dsimp only at hq2 hl2 hc2 hseg2
    simp only [processExpr, hpe1, hpe2]
    refine ⟨δ₁ ++ (δ₂ ++ [⟨op, valArg lv, valArg rv, .str ("t" ++ toString s2.tempCounter)⟩]),
      ?_, ?_, ?_, ?_⟩
    · simp [GState.emit, GState.newTemp, hq1, hq2]
    · simp [GState.emit, GState.newTemp, hl1, hl2]
    · simp only [GState.emit, GState.newTemp]
      omega
    · simp only [GState.emit, GState.newTemp]
      exact SegE_append hseg1
        (SegE_append hseg2
          (SegE_single_nonlabel _ _ _ (fun k => ne_labelQuad_of_res _ _ (by simp))
            (parserBinOps_not_jump op hop _ _ _))
          hc2 (Nat.le_refl _))
        hc1 (by omega)
  | .call callee args, s, h => by
    simp only [Expr.opsOK] at h
    obtain ⟨δ₁, hq1, hl1, hc1, hseg1⟩ := processCallArgs_spec args s h
    simp only [processExpr]
    refine ⟨δ₁ ++ [⟨"call", .str callee, .int args.length,
      .str ("t" ++ toString (processCallArgs args s).tempCounter)⟩], ?_, ?_, ?_, ?_⟩
    · simp [GState.emit, GState.newTemp, hq1]
    · simp [GState.emit, GState.newTemp, hl1]
    · simp only [GState.emit, GState.newTemp]
      omega
    · simp only [GState.emit, GState.newTemp]
      exact SegE_append hseg1
        (SegE_single_nonlabel _ _ _ (fun k => ne_labelQuad_of_res _ _ (by simp)) rfl)
        hc1 (Nat.le_refl _)
  | .indexE target index, s, h => by
    simp only [Expr.opsOK, Bool.and_eq_true] at h
    obtain ⟨ht', hi'⟩ := h
    obtain ⟨δ₁, hq1, hl1, hc1, hseg1⟩ := processExpr_spec target s ht'
    rcases hpe1 : processExpr target s with ⟨tv, s1⟩
    rw [hpe1] at hq1 hl1 hc1 hseg1
    dsimp only at hq1 hl1 hc1 hseg1
    obtain ⟨δ₂, hq2, hl2, hc2, hseg2⟩ := processExpr_spec index s1 hi'
    rcases hpe2 : processExpr index s1 with ⟨iv, s2⟩
    rw [hpe2] at hq2 hl2 hc2 hseg2
    dsimp only at hq2 hl2 hc2 hseg2
    simp only [processExpr, hpe1, hpe2]
    refine ⟨δ₁ ++ (δ₂ ++ [⟨"[]", valArg tv, valArg iv,
      .str ("t" ++ toString s2.tempCounter)⟩]), ?_, ?_, ?_, ?_⟩
    · simp [GState.emit, GState.newTemp, hq1, hq2]
    · simp [GState.emit, GState.newTemp, hl1, hl2]
    · simp only [GState.emit, GState.newTemp]
      omega
    · simp only [GState.emit, GState.newTemp]
      exact SegE_append hseg1
        (SegE_append hseg2
          (SegE_single_nonlabel _ _ _ (fun k => ne_labelQuad_of_res _ _ (by simp)) rfl)
          hc2 (Nat.le_refl _))
        hc1 (by omega)
  | .tupleAccess target idx, s, h => by
    simp only [Expr.opsOK] at h
    obtain ⟨δ₁, hq1, hl1, hc1, hseg1⟩ := processExpr_spec target s h
    rcases hpe1 : processExpr target s with ⟨tv, s1⟩
    rw [hpe1] at hq1 hl1 hc1 hseg1
    dsimp only at hq1 hl1 hc1 hseg1
    simp only [processExpr, hpe1]
    refine ⟨δ₁ ++ [⟨"tuple[]", valArg tv,
      (match idx with | .num n => .int n | .name str => .str str),
      .str ("t" ++ toString s1.tempCounter)⟩], ?_, ?_, ?_, ?_⟩
    · simp [GState.emit, GState.newTemp, hq1]
    · simp [GState.emit, GState.newTemp, hl1]
    · simpa [GState.newTemp, GState.emit] using hc1
    · simp only [GState.emit, GState.newTemp]
      exact SegE_append hseg1
        (SegE_single_nonlabel _ _ _ (fun k => ne_labelQuad_of_res _ _ (by simp)) rfl)
        hc1 (Nat.le_refl _)
  | .arrayLit elems, s, h => by
    simp only [Expr.opsOK] at h
    simp only [processExpr]
    obtain ⟨δ₁, hq1, hl1, hc1, hseg1⟩ :=
      processContainerElems_spec "[]=" (by decide) (by decide)
        ("t" ++ toString s.tempCounter) 0 elems
        ((GState.newTemp s).2.emit ⟨"new_array", .int elems.length, .none,
          .str ("t" ++ toString s.tempCounter)⟩) h
    refine ⟨⟨"new_array", .int elems.length, .none,
      .str ("t" ++ toString s.tempCounter)⟩ :: δ₁, ?_, ?_, ?_, ?_⟩
    · exact hq1.trans (by simp [GState.emit, GState.newTemp])
    · exact hl1.trans (by simp [GState.emit, GState.newTemp])
    · exact Nat.le_trans (Nat.le_of_eq rfl) hc1
    · exact SegE_append
        (SegE_single_nonlabel ⟨"new_array", .int elems.length, .none,
            .str ("t" ++ toString s.tempCounter)⟩ _ _
          (fun k => ne_labelQuad_of_res _ _ (by simp)) rfl)
        hseg1 (Nat.le_of_eq rfl) hc1
  | .tupleLit elems, s, h => by
    simp only [Expr.opsOK] at h
    simp only [processExpr]
    obtain ⟨δ₁, hq1, hl1, hc1, hseg1⟩ :=
      processContainerElems_spec "tuple[]=" (by decide) (by decide)
        ("t" ++ toString s.tempCounter) 0 elems
        ((GState.newTemp s).2.emit ⟨"new_tuple", .int elems.length, .none,
          .str ("t" ++ toString s.tempCounter)⟩) h
    refine ⟨⟨"new_tuple", .int elems.length, .none,
      .str ("t" ++ toString s.tempCounter)⟩ :: δ₁, ?_, ?_, ?_, ?_⟩
    · exact hq1.trans (by simp [GState.emit, GState.newTemp])
    · exact hl1.trans (by simp [GState.emit, GState.newTemp])
    · exact Nat.le_trans (Nat.le_of_eq rfl) hc1
    · exact SegE_append
        (SegE_single_nonlabel ⟨"new_tuple", .int elems.length, .none,
            .str ("t" ++ toString s.tempCounter)⟩ _ _
          (fun k => ne_labelQuad_of_res _ _ (by simp)) rfl)
        hseg1 (Nat.le_of_eq rfl) hc1
  | .ifE cond thn els, s, h => by
    rcases thn with ⟨thnEls⟩
    rcases els with ⟨elsEls⟩
    simp only [Expr.opsOK, Bool.and_eq_true] at h
    obtain ⟨⟨hc', _⟩, _⟩ := h
    obtain ⟨δ₁, hq1, hl1, hc1, hseg1⟩ := processExpr_spec cond s hc'
    rcases hpe1 : processExpr cond s with ⟨cv, s1⟩
    rw [hpe1] at hq1 hl1 hc1 hseg1
    dsimp only at hq1 hl1 hc1 hseg1
    simp only [processExpr, hpe1]
    simp only [GState.emit, GState.newTemp, GState.newLabel]
    set n := s1.labelCounter with hn
    set t := "t" ++ toString s1.tempCounter with ht
    refine ⟨δ₁ ++ ([⟨"ifz", valArg cv, .none, .str (mkLabel n)⟩] ++
      ([⟨"=", .none, .none, .str t⟩] ++ ([⟨"goto", .none, .none, .str (mkLabel (n+1))⟩] ++
      ([labelQuad (mkLabel n)] ++ ([⟨"=", .none, .none, .str t⟩] ++
      [labelQuad (mkLabel (n+1))]))))), ?_, ?_, ?_, ?_⟩
    · simp [hq1, labelQuad, mkLabel, valArg]
    · simp [hl1]
    · omega
    · refine SegE_append hseg1 ?_ hc1 (by omega)
      have z1 : ∀ k, countLabel [(⟨"ifz", valArg cv, .none, .str (mkLabel n)⟩ : Quad)]
          (mkLabel k) = 0 :=
        fun k => countLabel_single_zero _ _ (ne_labelQuad_of_res _ _ (by simp))
      have z2 : ∀ k, countLabel [(⟨"=", .none, .none, .str t⟩ : Quad)] (mkLabel k) = 0 :=
        fun k => countLabel_single_zero _ _ (ne_labelQuad_of_res _ _ (by simp))
      have z3 : ∀ k, countLabel [(⟨"goto", .none, .none, .str (mkLabel (n+1))⟩ : Quad)]
          (mkLabel k) = 0 :=
        fun k => countLabel_single_zero _ _ (ne_labelQuad_of_res _ _ (by simp))
      have hcount : ∀ k, countLabel ([(⟨"ifz", valArg cv, .none, .str (mkLabel n)⟩ : Quad)] ++
          ([(⟨"=", .none, .none, .str t⟩ : Quad)] ++
          ([(⟨"goto", .none, .none, .str (mkLabel (n+1))⟩ : Quad)] ++
          ([labelQuad (mkLabel n)] ++ ([(⟨"=", .none, .none, .str t⟩ : Quad)] ++
          [labelQuad (mkLabel (n+1))]))))) (mkLabel k) =
          ((if mkLabel k = mkLabel n then 1 else 0) +
           (if mkLabel k = mkLabel (n+1) then 1 else 0)) := by
        intro k
        rw [countLabel_append, countLabel_append, countLabel_append,
          countLabel_append, countLabel_append, z1, z2, z3,
          countLabel_label_singleton, countLabel_label_singleton]
        omega
      refine ⟨fun k => ?_, fun k hk => ?_, fun tg htg => ?_⟩
      · rw [hcount]
        by_cases h1 : mkLabel k = mkLabel n
        · have e1 := mkLabel_inj _ _ h1
          rw [if_pos h1, if_neg (fun h2 => by have := mkLabel_inj _ _ h2; omega)]
        · rw [if_neg h1]
          split <;> omega
      · rw [hcount]
        rw [if_neg (fun h2 => by have := mkLabel_inj _ _ h2; omega),
          if_neg (fun h2 => by have := mkLabel_inj _ _ h2; omega)]
      · rw [jumpTargets_append, jumpTargets_ifz, jumpTargets_append,
          jumpTargets_single_not _ (isJumpQuad_false_of_op _ _ _ _ (by decide) (by decide)),
          jumpTargets_append, jumpTargets_goto, jumpTargets_append, jumpTargets_label,
          jumpTargets_append,
          jumpTargets_single_not _ (isJumpQuad_false_of_op _ _ _ _ (by decide) (by decide)),
          jumpTargets_label] at htg
        simp only [List.nil_append, List.append_nil, List.mem_append,
          List.mem_singleton] at htg
        rcases htg with rfl | rfl
        · refine ⟨n, rfl, ?_⟩
          rw [hcount, if_pos rfl]
          omega
        · refine ⟨n + 1, rfl, ?_⟩
          rw [hcount, if_pos rfl]
          split <;> omega
  | .loopE body, s, h => by
    simp only [processExpr]
    simp only [GState.emit, GState.newTemp, GState.newLabel]
    set n := s.labelCounter with hn
    refine ⟨[labelQuad (mkLabel n)] ++ ([⟨"goto", .none, .none, .str (mkLabel n)⟩] ++
      [labelQuad (mkLabel (n+1))]), ?_, ?_, ?_, ?_⟩
    · simp [labelQuad, mkLabel]
    · simp [List.dropLast_concat]
    · omega
    · have zg : ∀ k, countLabel [(⟨"goto", .none, .none, .str (mkLabel n)⟩ : Quad)]
          (mkLabel k) = 0 :=
        fun k => countLabel_single_zero _ _ (ne_labelQuad_of_res _ _ (by simp))
      have hcount : ∀ k, countLabel ([labelQuad (mkLabel n)] ++
          ([(⟨"goto", .none, .none, .str (mkLabel n)⟩ : Quad)] ++
          [labelQuad (mkLabel (n+1))])) (mkLabel k) =
          ((if mkLabel k = mkLabel n then 1 else 0) +
           (if mkLabel k = mkLabel (n+1) then 1 else 0)) := by
        intro k
        rw [countLabel_append, countLabel_append, zg,
          countLabel_label_singleton, countLabel_label_singleton]
        omega
      refine ⟨fun k => ?_, fun k hk => ?_, fun tg htg => ?_⟩
      · rw [hcount]
        by_cases h1 : mkLabel k = mkLabel n
        · have e1 := mkLabel_inj _ _ h1
          rw [if_pos h1, if_neg (fun h2 => by have := mkLabel_inj _ _ h2; omega)]
        · rw [if_neg h1]
          split <;> omega
      · rw [hcount]
        rw [if_neg (fun h2 => by have := mkLabel_inj _ _ h2; omega),
          if_neg (fun h2 => by have := mkLabel_inj _ _ h2; omega)]
      · rw [jumpTargets_append, jumpTargets_label, jumpTargets_append,
          jumpTargets_goto, jumpTargets_label] at htg
        simp only [List.nil_append, List.append_nil, List.mem_singleton] at htg
        subst htg
        refine ⟨n, rfl, ?_⟩
        rw [hcount, if_pos rfl]
        omega

theorem processCallArgs_spec : ∀ (args : List Expr) (s : GState),
    exprsOpsOK args = true →
    ∃ δ, (processCallArgs args s).quadruples = s.quadruples ++ δ ∧
      (processCallArgs args s).loopStack = s.loopStack ∧
      s.labelCounter ≤ (processCallArgs args s).labelCounter ∧
      SegE δ s.labelCounter (processCallArgs args s).labelCounter
  | [], s, _ =>
    ⟨[], by simp [processCallArgs], by simp [processCallArgs], Nat.le_refl _, SegE_nil _ _⟩
  | a :: rest, s, h => by
    simp only [exprsOpsOK, Bool.and_eq_true] at h
    obtain ⟨ha, hrest⟩ := h
    obtain ⟨δ₁, hq1, hl1, hc1, hseg1⟩ := processExpr_spec a s ha
    rcases hpe : processExpr a s with ⟨v, s1⟩
    rw [hpe] at hq1 hl1 hc1 hseg1
    dsimp only at hq1 hl1 hc1 hseg1
    obtain ⟨δ₂, hq2, hl2, hc2, hseg2⟩ :=
      processCallArgs_spec rest (s1.emit ⟨"param", valArg v, .none, .none⟩) hrest
    simp only [processCallArgs, hpe]
    refine ⟨δ₁ ++ ([⟨"param", valArg v, .none, .none⟩] ++ δ₂), ?_, ?_, ?_, ?_⟩
    · rw [hq2]; simp [GState.emit, hq1]
    · rw [hl2]; simp [GState.emit, hl1]
    · have : (s1.emit ⟨"param", valArg v, .none, .none⟩).labelCounter = s1.labelCounter := rfl
      omega
    · have hmid : (s1.emit ⟨"param", valArg v, .none, .none⟩).labelCounter = s1.labelCounter := rfl
      refine SegE_append hseg1 ?_ hc1 (by omega)
      refine SegE_append
        (SegE_single_nonlabel _ _ _
          (fun k => ne_labelQuad_mk_of_head _ _ _ _ _ (by decide)) rfl)
        (by rw [← hmid]; exact hseg2) (Nat.le_refl _) (by omega)

theorem processContainerElems_spec : ∀ (storeOp : String),
    storeOp ≠ "goto" → storeOp ≠ "ifz" →
    ∀ (tmp : String) (i : Nat) (elems : List Expr) (s : GState),
    exprsOpsOK elems = true →
    ∃ δ, (processContainerElems storeOp tmp i elems s).quadruples = s.quadruples ++ δ ∧
      (processContainerElems storeOp tmp i elems s).loopStack = s.loopStack ∧
      s.labelCounter ≤ (processContainerElems storeOp tmp i elems s).labelCounter ∧
      SegE δ s.labelCounter (processContainerElems storeOp tmp i elems s).labelCounter
  | storeOp, _, _, tmp, i, [], s, _ =>
    ⟨[], by simp [processContainerElems], by simp [processContainerElems],
      Nat.le_refl _, SegE_nil _ _⟩
  | storeOp, hg, hi, tmp, i, e :: rest, s, h => by
    simp only [exprsOpsOK, Bool.and_eq_true] at h
    obtain ⟨he, hrest⟩ := h
    obtain ⟨δ₁, hq1, hl1, hc1, hseg1⟩ := processExpr_spec e s he
    rcases hpe : processExpr e s with ⟨v, s1⟩
    rw [hpe] at hq1 hl1 hc1 hseg1
    dsimp only at hq1 hl1 hc1 hseg1
    obtain ⟨δ₂, hq2, hl2, hc2, hseg2⟩ :=
      processContainerElems_spec storeOp hg hi tmp (i + 1) rest
        (s1.emit ⟨storeOp, .str tmp, .int i, valArg v⟩) hrest
    simp only [processContainerElems, hpe]
    refine ⟨δ₁ ++ ([⟨storeOp, .str tmp, .int i, valArg v⟩] ++ δ₂), ?_, ?_, ?_, ?_⟩
    · rw [hq2]; simp [GState.emit, hq1]
    · rw [hl2]; simp [GState.emit, hl1]
    · have : (s1.emit ⟨storeOp, .str tmp, .int i, valArg v⟩).labelCounter = s1.labelCounter := rfl
      omega
    · have hmid : (s1.emit ⟨storeOp, .str tmp, .int i, valArg v⟩).labelCounter = s1.labelCounter := rfl
      refine SegE_append hseg1 ?_ hc1 (by omega)
      refine SegE_append
        (SegE_single_nonlabel _ _ _
          (fun k => ne_labelQuad_of_a1 _ _ (by simp))
          (isJumpQuad_false_of_op _ _ _ _ hg hi)) (by rw [← hmid]; exact hseg2)
        (Nat.le_refl _) (by omega)

end

/-! Statement-level emission spec. -/

theorem processAssignment_spec (target value : Expr) (s : GState)
    (ht : target.opsOK = true) (hv : value.opsOK = true) :
    ∃ δ, (processAssignment target value s).quadruples = s.quadruples ++ δ ∧
      (processAssignment target value s).loopStack = s.loopStack ∧
      s.labelCounter ≤ (processAssignment target value s).labelCounter ∧
      SegE δ s.labelCounter (processAssignment target value s).labelCounter := by
  obtain ⟨δ₁, hq1, hl1, hc1, hseg1⟩ := processExpr_spec value s hv
  rcases hpe1 : processExpr value s with ⟨v, s1⟩
  rw [hpe1] at hq1 hl1 hc1 hseg1
  dsimp only at hq1 hl1 hc1 hseg1
  cases target with
  | ident name =>
    simp only [processAssignment, hpe1]
    refine ⟨δ₁ ++ [⟨"=", valArg v, .none, .str name⟩], ?_, ?_, ?_, ?_⟩
    · simp [GState.emit, hq1]
    · simp [GState.emit, hl1]
    · simpa [GState.emit] using hc1
    · exact SegE_append hseg1
        (SegE_single_nonlabel _ _ _ (fun k => ne_labelQuad_of_res _ _ (by simp)) rfl)
        hc1 (Nat.le_refl _)
  | indexE t i =>
    simp only [Expr.opsOK, Bool.and_eq_true] at ht
    obtain ⟨ht1, ht2⟩ := ht
    obtain ⟨δ₂, hq2, hl2, hc2, hseg2⟩ := processExpr_spec t s1 ht1
    rcases hpe2 : processExpr t s1 with ⟨av, s2⟩
    rw [hpe2] at hq2 hl2 hc2 hseg2
    dsimp only at hq2 hl2 hc2 hseg2
    obtain ⟨δ₃, hq3, hl3, hc3, hseg3⟩ := processExpr_spec i s2 ht2
    rcases hpe3 : processExpr i s2 with ⟨iv, s3⟩
    rw [hpe3] at hq3 hl3 hc3 hseg3
    dsimp only at hq3 hl3 hc3 hseg3
    simp only [processAssignment, hpe1, hpe2, hpe3]
    refine ⟨δ₁ ++ (δ₂ ++ (δ₃ ++ [⟨"[]=", valArg av, valArg iv, valArg v⟩])), ?_, ?_, ?_, ?_⟩
    · simp [GState.emit, hq1, hq2, hq3]
    · simp [GState.emit, hl1, hl2, hl3]
    · simp only [GState.emit]
      omega
    · simp only [GState.emit]
      refine SegE_append hseg1 (SegE_append hseg2 (SegE_append hseg3
        (SegE_single_nonlabel _ _ _
          (fun k => ne_labelQuad_mk_of_head _ _ _ _ _ (by decide))
          (isJumpQuad_false_of_op _ _ _ _ (by decide) (by decide)))
        hc3 (Nat.le_refl _)) hc2 (by omega)) hc1 (by omega)
  | tupleAccess t idx =>
    simp only [Expr.opsOK] at ht
    obtain ⟨δ₂, hq2, hl2, hc2, hseg2⟩ := processExpr_spec t s1 ht
    rcases hpe2 : processExpr t s1 with ⟨tv, s2⟩
    rw [hpe2] at hq2 hl2 hc2 hseg2
    dsimp only at hq2 hl2 hc2 hseg2
    simp only [processAssignment, hpe1, hpe2]
    refine ⟨δ₁ ++ (δ₂ ++ [⟨"tuple[]=", valArg tv,
      (match idx with | .num n => .int n | .name str => .str str), valArg v⟩]),
      ?_, ?_, ?_, ?_⟩
    · simp [GState.emit, hq1, hq2]
    · simp [GState.emit, hl1, hl2]
    · simp only [GState.emit]
      omega
    · simp only [GState.emit]
      refine SegE_append hseg1 (SegE_append hseg2
        (SegE_single_nonlabel _ _ _
          (fun k => ne_labelQuad_mk_of_head _ _ _ _ _ (by decide))
          (isJumpQuad_false_of_op _ _ _ _ (by decide) (by decide)))
        hc2 (Nat.le_refl _)) hc1 (by omega)
  | deref operand =>
    simp only [Expr.opsOK] at ht
    obtain ⟨δ₂, hq2, hl2, hc2, hseg2⟩ := processExpr_spec operand s1 ht
    rcases hpe2 : processExpr operand s1 with ⟨pv, s2⟩
    rw [hpe2] at hq2 hl2 hc2 hseg2
    dsimp only at hq2 hl2 hc2 hseg2
    simp only [processAssignment, hpe1, hpe2]
    refine ⟨δ₁ ++ (δ₂ ++ [⟨"*=", valArg pv, .none, valArg v⟩]), ?_, ?_, ?_, ?_⟩
    · simp [GState.emit, hq1, hq2]
    · simp [GState.emit, hl1, hl2]
    · simp only [GState.emit]
      omega
    · simp only [GState.emit]
      refine SegE_append hseg1 (SegE_append hseg2
        (SegE_single_nonlabel _ _ _
          (fun k => ne_labelQuad_mk_of_head _ _ _ _ _ (by decide))
          (isJumpQuad_false_of_op _ _ _ _ (by decide) (by decide)))
        hc2 (Nat.le_refl _)) hc1 (by omega)
  | lit v2 =>
    simp only [processAssignment, hpe1]
    exact ⟨δ₁, hq1, hl1, hc1, hseg1⟩
  | bin op l r =>
    simp only [processAssignment, hpe1]
    exact ⟨δ₁, hq1, hl1, hc1, hseg1⟩
  | call c args =>
    simp only [processAssignment, hpe1]
    exact ⟨δ₁, hq1, hl1, hc1, hseg1⟩
  | ifE c t e =>
    simp only [processAssignment, hpe1]
    exact ⟨δ₁, hq1, hl1, hc1, hseg1⟩
  | loopE b =>
    simp only [processAssignment, hpe1]
    exact ⟨δ₁, hq1, hl1, hc1, hseg1⟩
  | refE m o =>
    simp only [processAssignment, hpe1]
    exact ⟨δ₁, hq1, hl1, hc1, hseg1⟩
  | arrayLit es =>
    simp only [processAssignment, hpe1]
    exact ⟨δ₁, hq1, hl1, hc1, hseg1⟩
  | tupleLit es =>
    simp only [processAssignment, hpe1]
    exact ⟨δ₁, hq1, hl1, hc1, hseg1⟩
  | block b =>
    simp only [processAssignment, hpe1]
    exact ⟨δ₁, hq1, hl1, hc1, hseg1⟩

theorem processReturnStmt_spec (e : Option Expr) (s : GState)
    (h : (Stmt.ret e).opsOK = true) :
    ∃ δ, (processReturnStmt e s).quadruples = s.quadruples ++ δ ∧
      (processReturnStmt e s).loopStack = s.loopStack ∧
      s.labelCounter ≤ (processReturnStmt e s).labelCounter ∧
      SegE δ s.labelCounter (processReturnStmt e s).labelCounter := by
  cases e with
  | none =>
    simp only [processReturnStmt]
    refine ⟨[⟨"return", .none, .none, .none⟩], by simp [GState.emit], by simp [GState.emit],
      by simp [GState.emit], ?_⟩
    exact SegE_single_nonlabel _ _ _
      (fun k => ne_labelQuad_mk_of_head _ _ _ _ _ (by decide)) rfl
  | some ex =>
    simp only [Stmt.opsOK] at h
    obtain ⟨δ₁, hq1, hl1, hc1, hseg1⟩ := processExpr_spec ex s h
    rcases hpe1 : processExpr ex s with ⟨v, s1⟩
    rw [hpe1] at hq1 hl1 hc1 hseg1
    dsimp only at hq1 hl1 hc1 hseg1
    simp only [processReturnStmt, hpe1]
    refine ⟨δ₁ ++ [⟨"return", valArg v, .none, .none⟩], ?_, ?_, ?_, ?_⟩
    · simp [GState.emit, hq1]
    · simp [GState.emit, hl1]
    · simpa [GState.emit] using hc1
    · exact SegE_append hseg1
        (SegE_single_nonlabel _ _ _
          (fun k => ne_labelQuad_mk_of_head _ _ _ _ _ (by decide)) rfl)
        hc1 (Nat.le_refl _)

end MiniLang













namespace MiniLang
theorem processStmt_while_spec (cond : Expr) (bodyStmts : List Stmt) (s s' : GState)
    (hco : cond.opsOK = true)
    (IH : ∀ (s0 s1 : GState), processBlockStmts bodyStmts s0 = .ok s1 →
      ∃ δ, s1.quadruples = s0.quadruples ++ δ ∧ s1.loopStack = s0.loopStack ∧
        s0.labelCounter ≤ s1.labelCounter ∧
        SegS δ s0.labelCounter s1.labelCounter s0.loopStack)
    (h : processStmt (.whileS cond (BlockS.mk bodyStmts)) s = .ok s') :
    ∃ δ, s'.quadruples = s.quadruples ++ δ ∧ s'.loopStack = s.loopStack ∧
      s.labelCounter ≤ s'.labelCounter ∧
      SegS δ s.labelCounter s'.labelCounter s.loopStack := by
  rw [show processStmt (.whileS cond (BlockS.mk bodyStmts)) s =
    ((processBlockStmts bodyStmts
      ((processExpr cond
        { s with labelCounter := s.labelCounter + 2,
                 loopStack := s.loopStack ++
                   [⟨mkLabel s.labelCounter, mkLabel (s.labelCounter+1), Option.none⟩],
                 quadruples := s.quadruples ++ [labelQuad (mkLabel s.labelCounter)] }).2.emit
        ⟨"ifz", valArg (processExpr cond
          { s with labelCounter := s.labelCounter + 2,
                   loopStack := s.loopStack ++
                     [⟨mkLabel s.labelCounter, mkLabel (s.labelCounter+1), Option.none⟩],
                   quadruples := s.quadruples ++ [labelQuad (mkLabel s.labelCounter)] }).1,
          .none, .str (mkLabel (s.labelCounter+1))⟩)).bind (fun s7 =>
      .ok { s7 with
            quadruples := s7.quadruples ++ [⟨"goto", .none, .none, .str (mkLabel s.labelCounter)⟩]
              ++ [labelQuad (mkLabel (s.labelCounter+1))],
            loopStack := s7.loopStack.dropLast })) from rfl] at h
  set n := s.labelCounter with hn
  set ctx : LoopCtx := ⟨mkLabel n, mkLabel (n+1), Option.none⟩ with hctx
  set s4 : GState := { s with labelCounter := n + 2, loopStack := s.loopStack ++ [ctx], quadruples := s.quadruples ++ [labelQuad (mkLabel n)] } with hs4
  obtain ⟨δc, hqc, hlc, hcc, hsegc⟩ := processExpr_spec cond s4 hco
  rcases hpc : processExpr cond s4 with ⟨cv, s5⟩
  rw [hpc] at hqc hlc hcc hsegc h
  dsimp only at hqc hlc hcc hsegc h
  cases hbody : processBlockStmts bodyStmts
      (s5.emit ⟨"ifz", valArg cv, .none, .str (mkLabel (n+1))⟩) with
  | error e => rw [hbody] at h; cases h
  | ok s7 =>
    rw [hbody] at h
    simp only [Except.bind] at h
    injection h with h'
    subst h'
    obtain ⟨δb, hqb, hlb, hcb, hsegb⟩ := IH _ _ hbody
    simp only [GState.emit] at hqb hlb hcb hsegb
    show ∃ δ, s7.quadruples ++ [⟨"goto", .none, .none, .str (mkLabel n)⟩] ++
        [labelQuad (mkLabel (n+1))] = s.quadruples ++ δ ∧
      s7.loopStack.dropLast = s.loopStack ∧
      n ≤ s7.labelCounter ∧
      SegS δ n s7.labelCounter s.loopStack
    -- facts about s4/s5/s6 fields
    have hq4 : s4.quadruples = s.quadruples ++ [labelQuad (mkLabel n)] := rfl
    have hl4 : s4.loopStack = s.loopStack ++ [ctx] := rfl
    have hc4 : s4.labelCounter = n + 2 := rfl
    set m := s5.labelCounter with hm
    refine ⟨[labelQuad (mkLabel n)] ++ (δc ++
      ([⟨"ifz", valArg cv, .none, .str (mkLabel (n+1))⟩] ++ (δb ++
      ([⟨"goto", .none, .none, .str (mkLabel n)⟩] ++ [labelQuad (mkLabel (n+1))])))),
      ?_, ?_, ?_, ?_⟩
    · rw [hqb, hqc]
      simp [List.append_assoc]
    · rw [hlb, hlc]
      simp [List.dropLast_concat]
    · omega
    · have hcc4 : n + 2 ≤ m := by rw [← hc4]; exact hcc
      have hzc := hsegc.2.1
      have hcc1 := hsegc.1
      have hzb := hsegb.2.1
      have hcb1 := hsegb.1
      have hcount : ∀ k, countLabel ([labelQuad (mkLabel n)] ++ (δc ++
          ([(⟨"ifz", valArg cv, .none, .str (mkLabel (n+1))⟩ : Quad)] ++ (δb ++
          ([(⟨"goto", .none, .none, .str (mkLabel n)⟩ : Quad)] ++
           [labelQuad (mkLabel (n+1))]))))) (mkLabel k) =
          (if mkLabel k = mkLabel n then 1 else 0) + countLabel δc (mkLabel k) +
          countLabel δb (mkLabel k) + (if mkLabel k = mkLabel (n+1) then 1 else 0) := by
        intro k
        rw [countLabel_append, countLabel_append, countLabel_append, countLabel_append,
          countLabel_append,
          countLabel_single_zero (⟨"ifz", valArg cv, .none, .str (mkLabel (n+1))⟩ : Quad) _
            (ne_labelQuad_of_res _ _ (by simp)),
          countLabel_single_zero (⟨"goto", .none, .none, .str (mkLabel n)⟩ : Quad) _
            (ne_labelQuad_of_res _ _ (by simp)),
          countLabel_label_singleton, countLabel_label_singleton]
        omega
      have hrange_c : ∀ k, countLabel δc (mkLabel k) ≠ 0 → n + 2 ≤ k ∧ k < m := by
        intro k hne
        by_contra hout
        exact hne (hzc k (by rw [hc4] at *; omega))
      have hrange_b : ∀ k, countLabel δb (mkLabel k) ≠ 0 → m ≤ k ∧ k < s7.labelCounter := by
        intro k hne
        by_contra hout
        exact hne (hzb k (by omega))
      refine ⟨fun k => ?_, fun k hk => ?_, fun tg htg => ?_⟩
      · rw [hcount]
        have h1 := hcc1 k
        have h2 := hcb1 k
        by_cases e1 : mkLabel k = mkLabel n
        · have := mkLabel_inj _ _ e1
          have hc0 : countLabel δc (mkLabel k) = 0 := by
            by_contra hne
            have := hrange_c k hne
            omega
          have hb0 : countLabel δb (mkLabel k) = 0 := by
            by_contra hne
            have := hrange_b k hne
            omega
          rw [if_pos e1, if_neg (fun e2 => by have := mkLabel_inj _ _ e2; omega)]
          omega
        · rw [if_neg e1]
          by_cases e2 : mkLabel k = mkLabel (n+1)
          · have := mkLabel_inj _ _ e2
            have hc0 : countLabel δc (mkLabel k) = 0 := by
              by_contra hne
              have := hrange_c k hne
              omega
            have hb0 : countLabel δb (mkLabel k) = 0 := by
              by_contra hne
              have := hrange_b k hne
              omega
            rw [if_pos e2]
            omega
          · rw [if_neg e2]
            by_cases hc0 : countLabel δc (mkLabel k) = 0
            · omega
            · have := hrange_c k hc0
              have hb0 : countLabel δb (mkLabel k) = 0 := by
                by_contra hne
                have := hrange_b k hne
                omega
              omega
      · rw [hcount]
        have e1 : ¬(mkLabel k = mkLabel n) := fun e => by have := mkLabel_inj _ _ e; omega
        have e2 : ¬(mkLabel k = mkLabel (n+1)) := fun e => by have := mkLabel_inj _ _ e; omega
        have hc0 : countLabel δc (mkLabel k) = 0 := by
          by_contra hne
          have := hrange_c k hne
          omega
        have hb0 : countLabel δb (mkLabel k) = 0 := by
          by_contra hne
          have := hrange_b k hne
          omega
        rw [if_neg e1, if_neg e2]
        omega
      · rw [jumpTargets_append, jumpTargets_label, jumpTargets_append,
          jumpTargets_append, jumpTargets_ifz, jumpTargets_append,
          jumpTargets_append, jumpTargets_goto, jumpTargets_label] at htg
        simp only [List.nil_append, List.append_nil, List.mem_append,
          List.mem_singleton] at htg
        rcases htg with hc | rfl | hb | rfl
        · -- internal target of the condition segment
          obtain ⟨k, rfl, hk⟩ := hsegc.2.2 tg hc
          refine .inl ⟨k, rfl, ?_⟩
          rw [hcount]
          omega
        · -- the ifz target: the end label, emitted in this segment
          refine .inl ⟨n + 1, rfl, ?_⟩
          rw [hcount, if_pos rfl]
          omega
        · -- a target of the body segment
          rcases hsegb.2.2 tg hb with ⟨k, rfl, hk⟩ | ⟨ctx2, hmem, hlab⟩
          · refine .inl ⟨k, rfl, ?_⟩
            rw [hcount]
            omega
          · rw [hlc] at hmem
            rcases List.mem_append.1 hmem with hmem2 | hmem2
            · exact .inr ⟨ctx2, hmem2, hlab⟩
            · have : ctx2 = ctx := by simpa using hmem2
              subst this
              rcases hlab with rfl | rfl
              · refine .inl ⟨n, rfl, ?_⟩
                rw [hcount, if_pos rfl]
                omega
              · refine .inl ⟨n + 1, rfl, ?_⟩
                rw [hcount, if_pos rfl]
                omega
        · -- the final goto target: the start label
          refine .inl ⟨n, rfl, ?_⟩
          rw [hcount, if_pos rfl]
          omega
end MiniLang

namespace MiniLang
theorem processStmt_loop_spec (bodyStmts : List Stmt) (s s' : GState)
    (IH : ∀ (s0 s1 : GState), processBlockStmts bodyStmts s0 = .ok s1 →
      ∃ δ, s1.quadruples = s0.quadruples ++ δ ∧ s1.loopStack = s0.loopStack ∧
        s0.labelCounter ≤ s1.labelCounter ∧
        SegS δ s0.labelCounter s1.labelCounter s0.loopStack)
    (h : processStmt (.loopS (BlockS.mk bodyStmts)) s = .ok s') :
    ∃ δ, s'.quadruples = s.quadruples ++ δ ∧ s'.loopStack = s.loopStack ∧
      s.labelCounter ≤ s'.labelCounter ∧
      SegS δ s.labelCounter s'.labelCounter s.loopStack := by
  rw [show processStmt (.loopS (BlockS.mk bodyStmts)) s =
    ((processBlockStmts bodyStmts
      { s with labelCounter := s.labelCounter + 2,
               loopStack := s.loopStack ++
                 [⟨mkLabel s.labelCounter, mkLabel (s.labelCounter+1), Option.none⟩],
               quadruples := s.quadruples ++ [labelQuad (mkLabel s.labelCounter)] }).bind
      (fun s7 =>
      .ok { s7 with
            quadruples := s7.quadruples ++ [⟨"goto", .none, .none, .str (mkLabel s.labelCounter)⟩]
              ++ [labelQuad (mkLabel (s.labelCounter+1))],
            loopStack := s7.loopStack.dropLast })) from rfl] at h
  set n := s.labelCounter with hn
  set ctx : LoopCtx := ⟨mkLabel n, mkLabel (n+1), Option.none⟩ with hctx
  set s4 : GState := { s with labelCounter := n + 2, loopStack := s.loopStack ++ [ctx], quadruples := s.quadruples ++ [labelQuad (mkLabel n)] } with hs4
  cases hbody : processBlockStmts bodyStmts s4 with
  | error e => rw [hbody] at h; cases h
  | ok s7 =>
    rw [hbody] at h
    simp only [Except.bind] at h
    injection h with h'
    subst h'
    obtain ⟨δb, hqb, hlb, hcb, hsegb⟩ := IH _ _ hbody
    have hq4 : s4.quadruples = s.quadruples ++ [labelQuad (mkLabel n)] := rfl
    have hl4 : s4.loopStack = s.loopStack ++ [ctx] := rfl
    have hc4 : s4.labelCounter = n + 2 := rfl
    rw [hq4] at hqb
    rw [hl4] at hlb
    rw [hc4] at hcb hsegb
    rw [hl4] at hsegb
    show ∃ δ, s7.quadruples ++ [⟨"goto", .none, .none, .str (mkLabel n)⟩] ++
        [labelQuad (mkLabel (n+1))] = s.quadruples ++ δ ∧
      s7.loopStack.dropLast = s.loopStack ∧
      n ≤ s7.labelCounter ∧
      SegS δ n s7.labelCounter s.loopStack
    refine ⟨[labelQuad (mkLabel n)] ++ (δb ++
      ([⟨"goto", .none, .none, .str (mkLabel n)⟩] ++ [labelQuad (mkLabel (n+1))])),
      ?_, ?_, ?_, ?_⟩
    · rw [hqb]
      simp [List.append_assoc]
    · rw [hlb]
      simp [List.dropLast_concat]
    · omega
    · have hzb := hsegb.2.1
      have hcb1 := hsegb.1
      have hcount : ∀ k, countLabel ([labelQuad (mkLabel n)] ++ (δb ++
          ([(⟨"goto", .none, .none, .str (mkLabel n)⟩ : Quad)] ++
           [labelQuad (mkLabel (n+1))]))) (mkLabel k) =
          (if mkLabel k = mkLabel n then 1 else 0) + countLabel δb (mkLabel k) +
          (if mkLabel k = mkLabel (n+1) then 1 else 0) := by
        intro k
        rw [countLabel_append, countLabel_append, countLabel_append,
          countLabel_single_zero (⟨"goto", .none, .none, .str (mkLabel n)⟩ : Quad) _
            (ne_labelQuad_of_res _ _ (by simp)),
          countLabel_label_singleton, countLabel_label_singleton]
        omega
      have hrange_b : ∀ k, countLabel δb (mkLabel k) ≠ 0 → n + 2 ≤ k ∧ k < s7.labelCounter := by
        intro k hne
        by_contra hout
        exact hne (hzb k (by omega))
      refine ⟨fun k => ?_, fun k hk => ?_, fun tg htg => ?_⟩
      · rw [hcount]
        have h2 := hcb1 k
        by_cases e1 : mkLabel k = mkLabel n
        · have := mkLabel_inj _ _ e1
          have hb0 : countLabel δb (mkLabel k) = 0 := by
            by_contra hne
            have := hrange_b k hne
            omega
          rw [if_pos e1, if_neg (fun e2 => by have := mkLabel_inj _ _ e2; omega)]
          omega
        · rw [if_neg e1]
          by_cases e2 : mkLabel k = mkLabel (n+1)
          · have := mkLabel_inj _ _ e2
            have hb0 : countLabel δb (mkLabel k) = 0 := by
              by_contra hne
              have := hrange_b k hne
              omega
            rw [if_pos e2]
            omega
          · rw [if_neg e2]
            omega
      · rw [hcount]
        have e1 : ¬(mkLabel k = mkLabel n) := fun e => by have := mkLabel_inj _ _ e; omega
        have e2 : ¬(mkLabel k = mkLabel (n+1)) := fun e => by have := mkLabel_inj _ _ e; omega
        have hb0 : countLabel δb (mkLabel k) = 0 := by
          by_contra hne
          have := hrange_b k hne
          omega
        rw [if_neg e1, if_neg e2]
        omega
      · rw [jumpTargets_append, jumpTargets_label, jumpTargets_append,
          jumpTargets_append, jumpTargets_goto, jumpTargets_label] at htg
        simp only [List.nil_append, List.append_nil, List.mem_append,
          List.mem_singleton] at htg
        rcases htg with hb | rfl
        · rcases hsegb.2.2 tg hb with ⟨k, rfl, hk⟩ | ⟨ctx2, hmem, hlab⟩
          · refine .inl ⟨k, rfl, ?_⟩
            rw [hcount]
            omega
          · rcases List.mem_append.1 hmem with hmem2 | hmem2
            · exact .inr ⟨ctx2, hmem2, hlab⟩
            · have : ctx2 = ctx := by simpa using hmem2
              subst this
              rcases hlab with rfl | rfl
              · refine .inl ⟨n, rfl, ?_⟩
                rw [hcount, if_pos rfl]
                omega
              · refine .inl ⟨n + 1, rfl, ?_⟩
                rw [hcount, if_pos rfl]
                omega
        · refine .inl ⟨n, rfl, ?_⟩
          rw [hcount, if_pos rfl]
          omega
end MiniLang

namespace MiniLang
theorem processStmt_if_core (s s1 : GState) (cv : Option String) (δc : List Quad)
    (thnStmts : List Stmt) (elseF : GState → Except GenErr GState) (s' : GState)
    (hqc : s1.quadruples = s.quadruples ++ δc)
    (hlc : s1.loopStack = s.loopStack)
    (hcc : s.labelCounter ≤ s1.labelCounter)
    (hsegc : SegE δc s.labelCounter s1.labelCounter)
    (IHt : ∀ (s0 s1' : GState), processBlockStmts thnStmts s0 = .ok s1' →
      ∃ δ, s1'.quadruples = s0.quadruples ++ δ ∧ s1'.loopStack = s0.loopStack ∧
        s0.labelCounter ≤ s1'.labelCounter ∧
        SegS δ s0.labelCounter s1'.labelCounter s0.loopStack)
    (IHe : ∀ (s0 s1' : GState), elseF s0 = .ok s1' →
      ∃ δ, s1'.quadruples = s0.quadruples ++ δ ∧ s1'.loopStack = s0.loopStack ∧
        s0.labelCounter ≤ s1'.labelCounter ∧
        SegS δ s0.labelCounter s1'.labelCounter s0.loopStack)
    (h : (processBlockStmts thnStmts
      { s1 with labelCounter := s1.labelCounter + 2, quadruples := s1.quadruples ++ [⟨"ifz", valArg cv, .none, .str (mkLabel s1.labelCounter)⟩] }).bind
      (fun s5 => (elseF { s5 with quadruples := s5.quadruples ++ [⟨"goto", .none, .none, .str (mkLabel (s1.labelCounter+1))⟩] ++ [labelQuad (mkLabel s1.labelCounter)] }).bind
      (fun s8 => .ok { s8 with quadruples := s8.quadruples ++ [labelQuad (mkLabel (s1.labelCounter+1))] }))
      = .ok s') :
    ∃ δ, s'.quadruples = s.quadruples ++ δ ∧ s'.loopStack = s.loopStack ∧
      s.labelCounter ≤ s'.labelCounter ∧
      SegS δ s.labelCounter s'.labelCounter s.loopStack := by
  set n := s.labelCounter with hn
  set m := s1.labelCounter with hm
  set s4 : GState := { s1 with labelCounter := m + 2, quadruples := s1.quadruples ++ [⟨"ifz", valArg cv, .none, .str (mkLabel m)⟩] } with hs4
  cases hthn : processBlockStmts thnStmts s4 with
  | error e => rw [hthn] at h; cases h
  | ok s5 =>
  rw [hthn] at h
  simp only [Except.bind] at h
  set s7 : GState := { s5 with quadruples := s5.quadruples ++ [⟨"goto", .none, .none, .str (mkLabel (m+1))⟩] ++ [labelQuad (mkLabel m)] } with hs7
  cases hels : elseF s7 with
  | error e => rw [hels] at h; cases h
  | ok s8 =>
  rw [hels] at h
  simp only [Except.bind] at h
  injection h with h'
  subst h'
  obtain ⟨δt, hqt, hlt, hct, hsegt⟩ := IHt _ _ hthn
  obtain ⟨δe, hqe, hle, hce, hsege⟩ := IHe _ _ hels
  have hq4 : s4.quadruples = s1.quadruples ++ [⟨"ifz", valArg cv, .none, .str (mkLabel m)⟩] := rfl
  have hl4 : s4.loopStack = s1.loopStack := rfl
  have hc4 : s4.labelCounter = m + 2 := rfl
  have hq7 : s7.quadruples = s5.quadruples ++ [⟨"goto", .none, .none, .str (mkLabel (m+1))⟩] ++ [labelQuad (mkLabel m)] := rfl
  have hl7 : s7.loopStack = s5.loopStack := rfl
  have hc7 : s7.labelCounter = s5.labelCounter := rfl
  rw [hq4] at hqt
  rw [hl4, hlc] at hlt
  rw [hc4] at hct hsegt
  rw [hl4, hlc] at hsegt
  rw [hq7] at hqe
  rw [hl7, hlt] at hle
  rw [hc7] at hce hsege
  rw [hl7, hlt] at hsege
  show ∃ δ, s8.quadruples ++ [labelQuad (mkLabel (m+1))] = s.quadruples ++ δ ∧
    s8.loopStack = s.loopStack ∧ n ≤ s8.labelCounter ∧
    SegS δ n s8.labelCounter s.loopStack
  refine ⟨δc ++ ([⟨"ifz", valArg cv, .none, .str (mkLabel m)⟩] ++ (δt ++
    ([⟨"goto", .none, .none, .str (mkLabel (m+1))⟩] ++ ([labelQuad (mkLabel m)] ++
    (δe ++ [labelQuad (mkLabel (m+1))]))))), ?_, ?_, ?_, ?_⟩
  · rw [hqe, hqt, hqc]
    simp [List.append_assoc]
  · exact hle
  · omega
  · have hzc := hsegc.2.1
    have hc1 := hsegc.1
    have hzt := hsegt.2.1
    have ht1 := hsegt.1
    have hze := hsege.2.1
    have he1 := hsege.1
    have hcount : ∀ k, countLabel (δc ++ ([(⟨"ifz", valArg cv, .none, .str (mkLabel m)⟩ : Quad)] ++ (δt ++
        ([(⟨"goto", .none, .none, .str (mkLabel (m+1))⟩ : Quad)] ++ ([labelQuad (mkLabel m)] ++
        (δe ++ [labelQuad (mkLabel (m+1))])))))) (mkLabel k) =
        countLabel δc (mkLabel k) + countLabel δt (mkLabel k) + countLabel δe (mkLabel k) +
        (if mkLabel k = mkLabel m then 1 else 0) + (if mkLabel k = mkLabel (m+1) then 1 else 0) := by
      intro k
      rw [countLabel_append, countLabel_append, countLabel_append, countLabel_append,
        countLabel_append, countLabel_append,
        countLabel_single_zero (⟨"ifz", valArg cv, .none, .str (mkLabel m)⟩ : Quad) _
          (ne_labelQuad_of_res _ _ (by simp)),
        countLabel_single_zero (⟨"goto", .none, .none, .str (mkLabel (m+1))⟩ : Quad) _
          (ne_labelQuad_of_res _ _ (by simp)),
        countLabel_label_singleton, countLabel_label_singleton]
      omega
    have hrange_c : ∀ k, countLabel δc (mkLabel k) ≠ 0 → n ≤ k ∧ k < m := by
      intro k hne
      by_contra hout
      exact hne (hzc k (by omega))
    have hrange_t : ∀ k, countLabel δt (mkLabel k) ≠ 0 → m + 2 ≤ k ∧ k < s5.labelCounter := by
      intro k hne
      by_contra hout
      exact hne (hzt k (by omega))
    have hrange_e : ∀ k, countLabel δe (mkLabel k) ≠ 0 → s5.labelCounter ≤ k ∧ k < s8.labelCounter := by
      intro k hne
      by_contra hout
      exact hne (hze k (by omega))
    refine ⟨fun k => ?_, fun k hk => ?_, fun tg htg => ?_⟩
    · rw [hcount]
      have b1 := hc1 k
      have b2 := ht1 k
      have b3 := he1 k
      by_cases e1 : mkLabel k = mkLabel m
      · have := mkLabel_inj _ _ e1
        have hc0 : countLabel δc (mkLabel k) = 0 := by
          by_contra hne
          have := hrange_c k hne
          omega
        have ht0 : countLabel δt (mkLabel k) = 0 := by
          by_contra hne
          have := hrange_t k hne
          omega
        have he0 : countLabel δe (mkLabel k) = 0 := by
          by_contra hne
          have := hrange_e k hne
          omega
        rw [if_pos e1, if_neg (fun e2 => by have := mkLabel_inj _ _ e2; omega)]
        omega
      · rw [if_neg e1]
        by_cases e2 : mkLabel k = mkLabel (m+1)
        · have := mkLabel_inj _ _ e2
          have hc0 : countLabel δc (mkLabel k) = 0 := by
            by_contra hne
            have := hrange_c k hne
            omega
          have ht0 : countLabel δt (mkLabel k) = 0 := by
            by_contra hne
            have := hrange_t k hne
            omega
          have he0 : countLabel δe (mkLabel k) = 0 := by
            by_contra hne
            have := hrange_e k hne
            omega
          rw [if_pos e2]
          omega
        · rw [if_neg e2]
          by_cases hc0 : countLabel δc (mkLabel k) = 0
          · by_cases ht0 : countLabel δt (mkLabel k) = 0
            · omega
            · have := hrange_t k ht0
              have he0 : countLabel δe (mkLabel k) = 0 := by
                by_contra hne
                have := hrange_e k hne
                omega
              omega
          · have := hrange_c k hc0
            have ht0 : countLabel δt (mkLabel k) = 0 := by
              by_contra hne
              have := hrange_t k hne
              omega
            have he0 : countLabel δe (mkLabel k) = 0 := by
              by_contra hne
              have := hrange_e k hne
              omega
            omega
    · rw [hcount]
      have e1 : ¬(mkLabel k = mkLabel m) := fun e => by have := mkLabel_inj _ _ e; omega
      have e2 : ¬(mkLabel k = mkLabel (m+1)) := fun e => by have := mkLabel_inj _ _ e; omega
      have hc0 : countLabel δc (mkLabel k) = 0 := by
        by_contra hne
        have := hrange_c k hne
        omega
      have ht0 : countLabel δt (mkLabel k) = 0 := by
        by_contra hne
        have := hrange_t k hne
        omega
      have he0 : countLabel δe (mkLabel k) = 0 := by
        by_contra hne
        have := hrange_e k hne
        omega
      rw [if_neg e1, if_neg e2]
      omega
    · rw [jumpTargets_append, jumpTargets_append, jumpTargets_append,
        jumpTargets_append, jumpTargets_append, jumpTargets_append,
        jumpTargets_ifz, jumpTargets_goto, jumpTargets_label, jumpTargets_label] at htg
      simp only [List.nil_append, List.append_nil, List.mem_append,
        List.mem_singleton] at htg
      rcases htg with hc | rfl | ht | rfl | he
      · obtain ⟨k, rfl, hk⟩ := hsegc.2.2 tg hc
        refine .inl ⟨k, rfl, ?_⟩
        rw [hcount]
        omega
      · refine .inl ⟨m, rfl, ?_⟩
        rw [hcount, if_pos rfl]
        omega
      · rcases hsegt.2.2 tg ht with ⟨k, rfl, hk⟩ | ⟨ctx2, hmem, hlab⟩
        · refine .inl ⟨k, rfl, ?_⟩
          rw [hcount]
          omega
        · exact .inr ⟨ctx2, hmem, hlab⟩
      · refine .inl ⟨m + 1, rfl, ?_⟩
        rw [hcount, if_pos rfl]
        omega
      · rcases hsege.2.2 tg he with ⟨k, rfl, hk⟩ | ⟨ctx2, hmem, hlab⟩
        · refine .inl ⟨k, rfl, ?_⟩
          rw [hcount]
          omega
        · exact .inr ⟨ctx2, hmem, hlab⟩
end MiniLang

namespace MiniLang
theorem processStmt_for_spec (mf : Bool) (var : String) (varType : Ty)
    (start stop : Expr) (bodyStmts : List Stmt) (s s' : GState)
    (hso : start.opsOK = true) (heo : stop.opsOK = true)
    (IH : ∀ (s0 s1 : GState), processBlockStmts bodyStmts s0 = .ok s1 →
      ∃ δ, s1.quadruples = s0.quadruples ++ δ ∧ s1.loopStack = s0.loopStack ∧
        s0.labelCounter ≤ s1.labelCounter ∧
        SegS δ s0.labelCounter s1.labelCounter s0.loopStack)
    (h : processStmt (.forS mf var varType start stop (BlockS.mk bodyStmts)) s = .ok s') :
    ∃ δ, s'.quadruples = s.quadruples ++ δ ∧ s'.loopStack = s.loopStack ∧
      s.labelCounter ≤ s'.labelCounter ∧
      SegS δ s.labelCounter s'.labelCounter s.loopStack := by
  rw [show processStmt (.forS mf var varType start stop (BlockS.mk bodyStmts)) s =
    ((processBlockStmts bodyStmts
      { (processExpr stop (processExpr start s).2).2 with tempCounter := (processExpr stop (processExpr start s).2).2.tempCounter + 1, labelCounter := (processExpr stop (processExpr start s).2).2.labelCounter + 2, loopStack := (processExpr stop (processExpr start s).2).2.loopStack ++ [⟨mkLabel (processExpr stop (processExpr start s).2).2.labelCounter, mkLabel ((processExpr stop (processExpr start s).2).2.labelCounter + 1), Option.none⟩], quadruples := (processExpr stop (processExpr start s).2).2.quadruples ++ [⟨"declare", .str var, .str (if mf then "mut" else "const"), tyArg varType⟩] ++ [⟨"=", valArg (processExpr start s).1, .none, .str var⟩] ++ [labelQuad (mkLabel (processExpr stop (processExpr start s).2).2.labelCounter)] ++ [⟨"<", .str var, valArg (processExpr stop (processExpr start s).2).1, .str ("t" ++ toString (processExpr stop (processExpr start s).2).2.tempCounter)⟩] ++ [⟨"ifz", .str ("t" ++ toString (processExpr stop (processExpr start s).2).2.tempCounter), .none, .str (mkLabel ((processExpr stop (processExpr start s).2).2.labelCounter + 1))⟩] }).bind
      (fun s12 => .ok { s12 with tempCounter := s12.tempCounter + 1, quadruples := s12.quadruples ++ [⟨"+", .str var, .str "1", .str ("t" ++ toString s12.tempCounter)⟩] ++ [⟨"=", .str ("t" ++ toString s12.tempCounter), .none, .str var⟩] ++ [⟨"goto", .none, .none, .str (mkLabel (processExpr stop (processExpr start s).2).2.labelCounter)⟩] ++ [labelQuad (mkLabel ((processExpr stop (processExpr start s).2).2.labelCounter + 1))], loopStack := s12.loopStack.dropLast })) from rfl] at h
  obtain ⟨δ1, hq1, hl1, hc1, hseg1⟩ := processExpr_spec start s hso
  rcases hp1 : processExpr start s with ⟨sv, s1⟩
  rw [hp1] at hq1 hl1 hc1 hseg1 h
  dsimp only at hq1 hl1 hc1 hseg1 h
  obtain ⟨δ2, hq2, hl2, hc2, hseg2⟩ := processExpr_spec stop s1 heo
  rcases hp2 : processExpr stop s1 with ⟨ev, s2⟩
  rw [hp2] at hq2 hl2 hc2 hseg2 h
  dsimp only at hq2 hl2 hc2 hseg2 h
  set n := s.labelCounter with hn
  set mA := s1.labelCounter with hmA
  set m2 := s2.labelCounter with hm2
  set ctx : LoopCtx := ⟨mkLabel m2, mkLabel (m2+1), Option.none⟩ with hctx
  set sB : GState := { s2 with tempCounter := s2.tempCounter + 1, labelCounter := m2 + 2, loopStack := s2.loopStack ++ [ctx], quadruples := s2.quadruples ++ [⟨"declare", .str var, .str (if mf then "mut" else "const"), tyArg varType⟩] ++ [⟨"=", valArg sv, .none, .str var⟩] ++ [labelQuad (mkLabel m2)] ++ [⟨"<", .str var, valArg ev, .str ("t" ++ toString s2.tempCounter)⟩] ++ [⟨"ifz", .str ("t" ++ toString s2.tempCounter), .none, .str (mkLabel (m2+1))⟩] } with hsB
  cases hbody : processBlockStmts bodyStmts sB with
  | error e => rw [hbody] at h; cases h
  | ok s12 =>
  rw [hbody] at h
  simp only [Except.bind] at h
  injection h with h'
  subst h'
  obtain ⟨δb, hqb, hlb, hcb, hsegb⟩ := IH _ _ hbody
  have hqB : sB.quadruples = s2.quadruples ++ [⟨"declare", .str var, .str (if mf then "mut" else "const"), tyArg varType⟩] ++ [⟨"=", valArg sv, .none, .str var⟩] ++ [labelQuad (mkLabel m2)] ++ [⟨"<", .str var, valArg ev, .str ("t" ++ toString s2.tempCounter)⟩] ++ [⟨"ifz", .str ("t" ++ toString s2.tempCounter), .none, .str (mkLabel (m2+1))⟩] := rfl
  have hlB : sB.loopStack = s2.loopStack ++ [ctx] := rfl
  have hcB : sB.labelCounter = m2 + 2 := rfl
  rw [hqB] at hqb
  rw [hlB, hl2, hl1] at hlb
  rw [hcB] at hcb hsegb
  rw [hlB, hl2, hl1] at hsegb
  show ∃ δ, s12.quadruples ++ [⟨"+", .str var, .str "1", .str ("t" ++ toString s12.tempCounter)⟩] ++ [⟨"=", .str ("t" ++ toString s12.tempCounter), .none, .str var⟩] ++ [⟨"goto", .none, .none, .str (mkLabel m2)⟩] ++ [labelQuad (mkLabel (m2+1))] = s.quadruples ++ δ ∧
    s12.loopStack.dropLast = s.loopStack ∧ n ≤ s12.labelCounter ∧
    SegS δ n s12.labelCounter s.loopStack
  refine ⟨δ1 ++ (δ2 ++ ([⟨"declare", .str var, .str (if mf then "mut" else "const"), tyArg varType⟩] ++ ([⟨"=", valArg sv, .none, .str var⟩] ++ ([labelQuad (mkLabel m2)] ++ ([⟨"<", .str var, valArg ev, .str ("t" ++ toString s2.tempCounter)⟩] ++ ([⟨"ifz", .str ("t" ++ toString s2.tempCounter), .none, .str (mkLabel (m2+1))⟩] ++ (δb ++ ([⟨"+", .str var, .str "1", .str ("t" ++ toString s12.tempCounter)⟩] ++ ([⟨"=", .str ("t" ++ toString s12.tempCounter), .none, .str var⟩] ++ ([⟨"goto", .none, .none, .str (mkLabel m2)⟩] ++ [labelQuad (mkLabel (m2+1))])))))))))), ?_, ?_, ?_, ?_⟩
  · rw [hqb, hq2, hq1]
    simp [List.append_assoc]
  · rw [hlb]
    simp [List.dropLast_concat]
  · omega
  · have hz1 := hseg1.2.1
    have hb1 := hseg1.1
    have hz2 := hseg2.2.1
    have hb2 := hseg2.1
    have hzb := hsegb.2.1
    have hbb := hsegb.1
    have hcount : ∀ k, countLabel (δ1 ++ (δ2 ++ ([(⟨"declare", .str var, .str (if mf then "mut" else "const"), tyArg varType⟩ : Quad)] ++ ([(⟨"=", valArg sv, .none, .str var⟩ : Quad)] ++ ([labelQuad (mkLabel m2)] ++ ([(⟨"<", .str var, valArg ev, .str ("t" ++ toString s2.tempCounter)⟩ : Quad)] ++ ([(⟨"ifz", .str ("t" ++ toString s2.tempCounter), .none, .str (mkLabel (m2+1))⟩ : Quad)] ++ (δb ++ ([(⟨"+", .str var, .str "1", .str ("t" ++ toString s12.tempCounter)⟩ : Quad)] ++ ([(⟨"=", .str ("t" ++ toString s12.tempCounter), .none, .str var⟩ : Quad)] ++ ([(⟨"goto", .none, .none, .str (mkLabel m2)⟩ : Quad)] ++ [labelQuad (mkLabel (m2+1))]))))))))))) (mkLabel k) =
        countLabel δ1 (mkLabel k) + countLabel δ2 (mkLabel k) + countLabel δb (mkLabel k) +
        (if mkLabel k = mkLabel m2 then 1 else 0) + (if mkLabel k = mkLabel (m2+1) then 1 else 0) := by
      intro k
      rw [countLabel_append, countLabel_append, countLabel_append, countLabel_append,
        countLabel_append, countLabel_append, countLabel_append, countLabel_append,
        countLabel_append, countLabel_append, countLabel_append,
        countLabel_single_zero (⟨"declare", .str var, .str (if mf then "mut" else "const"), tyArg varType⟩ : Quad) _
          (ne_labelQuad_mk_of_head _ _ _ _ _ (by decide)),
        countLabel_single_zero (⟨"=", valArg sv, .none, .str var⟩ : Quad) _
          (ne_labelQuad_of_res _ _ (by simp)),
        countLabel_single_zero (⟨"<", .str var, valArg ev, .str ("t" ++ toString s2.tempCounter)⟩ : Quad) _
          (ne_labelQuad_of_res _ _ (by simp)),
        countLabel_single_zero (⟨"ifz", .str ("t" ++ toString s2.tempCounter), .none, .str (mkLabel (m2+1))⟩ : Quad) _
          (ne_labelQuad_of_res _ _ (by simp)),
        countLabel_single_zero (⟨"+", .str var, .str "1", .str ("t" ++ toString s12.tempCounter)⟩ : Quad) _
          (ne_labelQuad_of_res _ _ (by simp)),
        countLabel_single_zero (⟨"=", .str ("t" ++ toString s12.tempCounter), .none, .str var⟩ : Quad) _
          (ne_labelQuad_of_res _ _ (by simp)),
        countLabel_single_zero (⟨"goto", .none, .none, .str (mkLabel m2)⟩ : Quad) _
          (ne_labelQuad_of_res _ _ (by simp)),
        countLabel_label_singleton, countLabel_label_singleton]
      omega
    have hrange_1 : ∀ k, countLabel δ1 (mkLabel k) ≠ 0 → n ≤ k ∧ k < mA := by
      intro k hne
      by_contra hout
      exact hne (hz1 k (by omega))
    have hrange_2 : ∀ k, countLabel δ2 (mkLabel k) ≠ 0 → mA ≤ k ∧ k < m2 := by
      intro k hne
      by_contra hout
      exact hne (hz2 k (by omega))
    have hrange_b : ∀ k, countLabel δb (mkLabel k) ≠ 0 → m2 + 2 ≤ k ∧ k < s12.labelCounter := by
      intro k hne
      by_contra hout
      exact hne (hzb k (by omega))
    refine ⟨fun k => ?_, fun k hk => ?_, fun tg htg => ?_⟩
    · rw [hcount]
      have c1 := hb1 k
      have c2 := hb2 k
      have c3 := hbb k
      by_cases e1 : mkLabel k = mkLabel m2
      · have := mkLabel_inj _ _ e1
        have h10 : countLabel δ1 (mkLabel k) = 0 := by
          by_contra hne
          have := hrange_1 k hne
          omega
        have h20 : countLabel δ2 (mkLabel k) = 0 := by
          by_contra hne
          have := hrange_2 k hne
          omega
        have hb0 : countLabel δb (mkLabel k) = 0 := by
          by_contra hne
          have := hrange_b k hne
          omega
        rw [if_pos e1, if_neg (fun e2 => by have := mkLabel_inj _ _ e2; omega)]
        omega
      · rw [if_neg e1]
        by_cases e2 : mkLabel k = mkLabel (m2+1)
        · have := mkLabel_inj _ _ e2
          have h10 : countLabel δ1 (mkLabel k) = 0 := by
            by_contra hne
            have := hrange_1 k hne
            omega
          have h20 : countLabel δ2 (mkLabel k) = 0 := by
            by_contra hne
            have := hrange_2 k hne
            omega
          have hb0 : countLabel δb (mkLabel k) = 0 := by
            by_contra hne
            have := hrange_b k hne
            omega
          rw [if_pos e2]
          omega
        · rw [if_neg e2]
          by_cases h10 : countLabel δ1 (mkLabel k) = 0
          · by_cases h20 : countLabel δ2 (mkLabel k) = 0
            · omega
            · have := hrange_2 k h20
              have hb0 : countLabel δb (mkLabel k) = 0 := by
                by_contra hne
                have := hrange_b k hne
                omega
              omega
          · have := hrange_1 k h10
            have h20 : countLabel δ2 (mkLabel k) = 0 := by
              by_contra hne
              have := hrange_2 k hne
              omega
            have hb0 : countLabel δb (mkLabel k) = 0 := by
              by_contra hne
              have := hrange_b k hne
              omega
            omega
    · rw [hcount]
      have e1 : ¬(mkLabel k = mkLabel m2) := fun e => by have := mkLabel_inj _ _ e; omega
      have e2 : ¬(mkLabel k = mkLabel (m2+1)) := fun e => by have := mkLabel_inj _ _ e; omega
      have h10 : countLabel δ1 (mkLabel k) = 0 := by
        by_contra hne
        have := hrange_1 k hne
        omega
      have h20 : countLabel δ2 (mkLabel k) = 0 := by
        by_contra hne
        have := hrange_2 k hne
        omega
      have hb0 : countLabel δb (mkLabel k) = 0 := by
        by_contra hne
        have := hrange_b k hne
        omega
      rw [if_neg e1, if_neg e2]
      omega
    · rw [jumpTargets_append, jumpTargets_append, jumpTargets_append,
        jumpTargets_append, jumpTargets_append, jumpTargets_append,
        jumpTargets_append, jumpTargets_append, jumpTargets_append,
        jumpTargets_append, jumpTargets_append,
        jumpTargets_single_not _ (by simp [isJumpQuad]),
        jumpTargets_single_not (⟨"=", valArg sv, .none, .str var⟩ : Quad) (by simp [isJumpQuad]),
        jumpTargets_label,
        jumpTargets_single_not (⟨"<", .str var, valArg ev, .str ("t" ++ toString s2.tempCounter)⟩ : Quad) (by simp [isJumpQuad]),
        jumpTargets_ifz,
        jumpTargets_single_not (⟨"+", .str var, .str "1", .str ("t" ++ toString s12.tempCounter)⟩ : Quad) (by simp [isJumpQuad]),
        jumpTargets_single_not (⟨"=", .str ("t" ++ toString s12.tempCounter), .none, .str var⟩ : Quad) (by simp [isJumpQuad]),
        jumpTargets_goto, jumpTargets_label] at htg
      simp only [List.nil_append, List.append_nil, List.mem_append,
        List.mem_singleton] at htg
      rcases htg with h1 | h2 | rfl | hb | rfl
      · obtain ⟨k, rfl, hk⟩ := hseg1.2.2 tg h1
        refine .inl ⟨k, rfl, ?_⟩
        rw [hcount]
        omega
      · obtain ⟨k, rfl, hk⟩ := hseg2.2.2 tg h2
        refine .inl ⟨k, rfl, ?_⟩
        rw [hcount]
        omega
      · refine .inl ⟨m2 + 1, rfl, ?_⟩
        rw [hcount, if_pos rfl]
        omega
      · rcases hsegb.2.2 tg hb with ⟨k, rfl, hk⟩ | ⟨ctx2, hmem, hlab⟩
        · refine .inl ⟨k, rfl, ?_⟩
          rw [hcount]
          omega
        · rcases List.mem_append.1 hmem with hmem2 | hmem2
          · exact .inr ⟨ctx2, hmem2, hlab⟩
          · have : ctx2 = ctx := by simpa using hmem2
            subst this
            rcases hlab with rfl | rfl
            · refine .inl ⟨m2, rfl, ?_⟩
              rw [hcount, if_pos rfl]
              omega
            · refine .inl ⟨m2 + 1, rfl, ?_⟩
              rw [hcount, if_pos rfl]
              omega
      · refine .inl ⟨m2, rfl, ?_⟩
        rw [hcount, if_pos rfl]
        omega
end MiniLang

namespace MiniLang
mutual

theorem processStmt_spec : ∀ (st : Stmt) (s s' : GState), st.opsOK = true →
    processStmt st s = .ok s' →
    ∃ δ, s'.quadruples = s.quadruples ++ δ ∧ s'.loopStack = s.loopStack ∧
      s.labelCounter ≤ s'.labelCounter ∧
      SegS δ s.labelCounter s'.labelCounter s.loopStack
  | .empty, s, s', _, h => by
    injection h with h'
    subst h'
    exact ⟨[], by simp, rfl, le_refl _, SegS_of_SegE _ (SegE_nil _ _)⟩
  | .varDecl a b c d, s, s', _, h => by
    injection h with h'
    subst h'
    exact ⟨[], by simp, rfl, le_refl _, SegS_of_SegE _ (SegE_nil _ _)⟩
  | .exprStmt e, s, s', hop, h => by
    simp only [Stmt.opsOK] at hop
    rw [show processStmt (.exprStmt e) s = .ok (processExpr e s).2 from rfl] at h
    injection h with h'
    subst h'
    obtain ⟨δ, hq, hl, hc, hs⟩ := processExpr_spec e s hop
    exact ⟨δ, hq, hl, hc, SegS_of_SegE _ hs⟩
  | .assign t v, s, s', hop, h => by
    simp only [Stmt.opsOK, Bool.and_eq_true] at hop
    rw [show processStmt (.assign t v) s = .ok (processAssignment t v s) from rfl] at h
    injection h with h'
    subst h'
    obtain ⟨δ, hq, hl, hc, hs⟩ := processAssignment_spec t v s hop.1 hop.2
    exact ⟨δ, hq, hl, hc, SegS_of_SegE _ hs⟩
  | .ret e, s, s', hop, h => by
    rw [show processStmt (.ret e) s = .ok (processReturnStmt e s) from rfl] at h
    injection h with h'
    subst h'
    obtain ⟨δ, hq, hl, hc, hs⟩ := processReturnStmt_spec e s hop
    exact ⟨δ, hq, hl, hc, SegS_of_SegE _ hs⟩
  | .ifS cond (BlockS.mk thn) Option.none, s, s', hop, h => by
    simp only [Stmt.opsOK, elseOpsOK, Bool.and_eq_true, Bool.and_true] at hop
    obtain ⟨hco, hto⟩ := hop
    rw [show processStmt (.ifS cond (BlockS.mk thn) Option.none) s =
      ((processBlockStmts thn { (processExpr cond s).2 with labelCounter := (processExpr cond s).2.labelCounter + 2, quadruples := (processExpr cond s).2.quadruples ++ [⟨"ifz", valArg (processExpr cond s).1, .none, .str (mkLabel (processExpr cond s).2.labelCounter)⟩] }).bind
      (fun s5 => (Except.ok { s5 with quadruples := s5.quadruples ++ [⟨"goto", .none, .none, .str (mkLabel ((processExpr cond s).2.labelCounter+1))⟩] ++ [labelQuad (mkLabel (processExpr cond s).2.labelCounter)] } : Except GenErr GState).bind
      (fun s8 => .ok { s8 with quadruples := s8.quadruples ++ [labelQuad (mkLabel ((processExpr cond s).2.labelCounter+1))] }))) from rfl] at h
    obtain ⟨δc, hqc, hlc, hcc, hsegc⟩ := processExpr_spec cond s hco
    rcases hpc : processExpr cond s with ⟨cv, s1⟩
    rw [hpc] at hqc hlc hcc hsegc h
    dsimp only at hqc hlc hcc hsegc h
    exact processStmt_if_core s s1 cv δc thn Except.ok s' hqc hlc hcc hsegc
      (fun s0 s1' h01 => processBlockStmts_spec thn s0 s1' hto h01)
      (fun s0 s1' h01 => by
        injection h01 with h01'
        subst h01'
        exact ⟨[], by simp, rfl, le_refl _, SegS_of_SegE _ (SegE_nil _ _)⟩) h
  | .ifS cond (BlockS.mk thn) (some (.blk (BlockS.mk bs))), s, s', hop, h => by
    simp only [Stmt.opsOK, elseOpsOK, Bool.and_eq_true] at hop
    obtain ⟨⟨hco, hto⟩, heo⟩ := hop
    rw [show processStmt (.ifS cond (BlockS.mk thn) (some (.blk (BlockS.mk bs)))) s =
      ((processBlockStmts thn { (processExpr cond s).2 with labelCounter := (processExpr cond s).2.labelCounter + 2, quadruples := (processExpr cond s).2.quadruples ++ [⟨"ifz", valArg (processExpr cond s).1, .none, .str (mkLabel (processExpr cond s).2.labelCounter)⟩] }).bind
      (fun s5 => (processBlockStmts bs { s5 with quadruples := s5.quadruples ++ [⟨"goto", .none, .none, .str (mkLabel ((processExpr cond s).2.labelCounter+1))⟩] ++ [labelQuad (mkLabel (processExpr cond s).2.labelCounter)] }).bind
      (fun s8 => .ok { s8 with quadruples := s8.quadruples ++ [labelQuad (mkLabel ((processExpr cond s).2.labelCounter+1))] }))) from rfl] at h
    obtain ⟨δc, hqc, hlc, hcc, hsegc⟩ := processExpr_spec cond s hco
    rcases hpc : processExpr cond s with ⟨cv, s1⟩
    rw [hpc] at hqc hlc hcc hsegc h
    dsimp only at hqc hlc hcc hsegc h
    exact processStmt_if_core s s1 cv δc thn (processBlockStmts bs) s' hqc hlc hcc hsegc
      (fun s0 s1' h01 => processBlockStmts_spec thn s0 s1' hto h01)
      (fun s0 s1' h01 => processBlockStmts_spec bs s0 s1' heo h01) h
  | .ifS cond (BlockS.mk thn) (some (.elifS c2 t2 e2)), s, s', hop, h => by
    simp only [Stmt.opsOK, elseOpsOK, Bool.and_eq_true] at hop
    obtain ⟨⟨hco, hto⟩, -⟩ := hop
    rw [show processStmt (.ifS cond (BlockS.mk thn) (some (.elifS c2 t2 e2))) s =
      ((processBlockStmts thn { (processExpr cond s).2 with labelCounter := (processExpr cond s).2.labelCounter + 2, quadruples := (processExpr cond s).2.quadruples ++ [⟨"ifz", valArg (processExpr cond s).1, .none, .str (mkLabel (processExpr cond s).2.labelCounter)⟩] }).bind
      (fun s5 => (Except.ok { s5 with quadruples := s5.quadruples ++ [⟨"goto", .none, .none, .str (mkLabel ((processExpr cond s).2.labelCounter+1))⟩] ++ [labelQuad (mkLabel (processExpr cond s).2.labelCounter)] } : Except GenErr GState).bind
      (fun s8 => .ok { s8 with quadruples := s8.quadruples ++ [labelQuad (mkLabel ((processExpr cond s).2.labelCounter+1))] }))) from rfl] at h
    obtain ⟨δc, hqc, hlc, hcc, hsegc⟩ := processExpr_spec cond s hco
    rcases hpc : processExpr cond s with ⟨cv, s1⟩
    rw [hpc] at hqc hlc hcc hsegc h
    dsimp only at hqc hlc hcc hsegc h
    exact processStmt_if_core s s1 cv δc thn Except.ok s' hqc hlc hcc hsegc
      (fun s0 s1' h01 => processBlockStmts_spec thn s0 s1' hto h01)
      (fun s0 s1' h01 => by
        injection h01 with h01'
        subst h01'
        exact ⟨[], by simp, rfl, le_refl _, SegS_of_SegE _ (SegE_nil _ _)⟩) h
  | .whileS cond (BlockS.mk body), s, s', hop, h => by
    simp only [Stmt.opsOK, Bool.and_eq_true] at hop
    exact processStmt_while_spec cond body s s' hop.1
      (fun s0 s1 h01 => processBlockStmts_spec body s0 s1 hop.2 h01) h
  | .forS mf var vt st en (BlockS.mk body), s, s', hop, h => by
    simp only [Stmt.opsOK, Bool.and_eq_true] at hop
    exact processStmt_for_spec mf var vt st en body s s' hop.1.1 hop.1.2
      (fun s0 s1 h01 => processBlockStmts_spec body s0 s1 hop.2 h01) h
  | .loopS (BlockS.mk body), s, s', hop, h => by
    simp only [Stmt.opsOK] at hop
    exact processStmt_loop_spec body s s'
      (fun s0 s1 h01 => processBlockStmts_spec body s0 s1 hop h01) h
  | .brk e, s, s', _, h => by
    rw [show processStmt (.brk e) s =
      (match s.loopStack.getLast? with
       | Option.none => Except.error GenErr.breakOutsideLoop
       | some ctx => Except.ok (s.emit ⟨"goto", .none, .none, .str ctx.endLabel⟩)) from rfl] at h
    cases hls : s.loopStack.getLast? with
    | none => rw [hls] at h; cases h
    | some ctx =>
      rw [hls] at h
      injection h with h'
      subst h'
      have hmem : ctx ∈ s.loopStack := by
        obtain ⟨hne, heq⟩ := List.mem_getLast?_eq_getLast
          (show ctx ∈ s.loopStack.getLast? from hls)
        rw [heq]
        exact List.getLast_mem hne
      refine ⟨[⟨"goto", .none, .none, .str ctx.endLabel⟩], rfl, rfl, le_refl _,
        fun k => ?_, fun k hk => ?_, fun tg htg => ?_⟩
      · rw [countLabel_single_zero _ _ (ne_labelQuad_of_res _ _ (by simp))]
        omega
      · exact countLabel_single_zero _ _ (ne_labelQuad_of_res _ _ (by simp))
      · rw [jumpTargets_goto] at htg
        simp only [List.mem_singleton] at htg
        subst htg
        exact .inr ⟨ctx, hmem, .inr rfl⟩
  | .cont, s, s', _, h => by
    rw [show processStmt .cont s =
      (match s.loopStack.getLast? with
       | Option.none => Except.error GenErr.continueOutsideLoop
       | some ctx => Except.ok (s.emit ⟨"goto", .none, .none, .str ctx.startLabel⟩)) from rfl] at h
    cases hls : s.loopStack.getLast? with
    | none => rw [hls] at h; cases h
    | some ctx =>
      rw [hls] at h
      injection h with h'
      subst h'
      have hmem : ctx ∈ s.loopStack := by
        obtain ⟨hne, heq⟩ := List.mem_getLast?_eq_getLast
          (show ctx ∈ s.loopStack.getLast? from hls)
        rw [heq]
        exact List.getLast_mem hne
      refine ⟨[⟨"goto", .none, .none, .str ctx.startLabel⟩], rfl, rfl, le_refl _,
        fun k => ?_, fun k hk => ?_, fun tg htg => ?_⟩
      · rw [countLabel_single_zero _ _ (ne_labelQuad_of_res _ _ (by simp))]
        omega
      · exact countLabel_single_zero _ _ (ne_labelQuad_of_res _ _ (by simp))
      · rw [jumpTargets_goto] at htg
        simp only [List.mem_singleton] at htg
        subst htg
        exact .inr ⟨ctx, hmem, .inl rfl⟩

theorem processBlockStmts_spec : ∀ (l : List Stmt) (s s' : GState), stmtsOpsOK l = true →
    processBlockStmts l s = .ok s' →
    ∃ δ, s'.quadruples = s.quadruples ++ δ ∧ s'.loopStack = s.loopStack ∧
      s.labelCounter ≤ s'.labelCounter ∧
      SegS δ s.labelCounter s'.labelCounter s.loopStack
  | [], s, s', _, h => by
    injection h with h'
    subst h'
    exact ⟨[], by simp, rfl, le_refl _, SegS_of_SegE _ (SegE_nil _ _)⟩
  | st :: rest, s, s', hop, h => by
    simp only [stmtsOpsOK, Bool.and_eq_true] at hop
    rw [show processBlockStmts (st :: rest) s =
      (processStmt st s).bind (processBlockStmts rest) from rfl] at h
    cases hst : processStmt st s with
    | error e => rw [hst] at h; cases h
    | ok s1 =>
      rw [hst] at h
      simp only [Except.bind] at h
      obtain ⟨δ1, hq1, hl1, hc1, hseg1⟩ := processStmt_spec st s s1 hop.1 hst
      obtain ⟨δ2, hq2, hl2, hc2, hseg2⟩ := processBlockStmts_spec rest s1 s' hop.2 h
      refine ⟨δ1 ++ δ2, ?_, ?_, ?_, ?_⟩
      · rw [hq2, hq1, List.append_assoc]
      · rw [hl2, hl1]
      · omega
      · rw [hl1] at hseg2
        exact SegS_append hseg1 hseg2 hc1 hc2

end
end MiniLang

namespace MiniLang
theorem processElements_spec : ∀ (l : List Element) (s s' : GState),
    elemsOpsOK l = true → processElements l s = .ok s' →
    ∃ δ, s'.quadruples = s.quadruples ++ δ ∧ s'.loopStack = s.loopStack ∧
      s.labelCounter ≤ s'.labelCounter ∧
      SegS δ s.labelCounter s'.labelCounter s.loopStack
  | [], s, s', _, h => by
    injection h with h'
    subst h'
    exact ⟨[], by simp, rfl, le_refl _, SegS_of_SegE _ (SegE_nil _ _)⟩
  | .stmt st :: rest, s, s', hop, h => by
    simp only [elemsOpsOK, Bool.and_eq_true] at hop
    rw [show processElements (.stmt st :: rest) s =
      (processStmt st s).bind (processElements rest) from rfl] at h
    cases hst : processStmt st s with
    | error e => rw [hst] at h; cases h
    | ok s1 =>
      rw [hst] at h
      simp only [Except.bind] at h
      obtain ⟨δ1, hq1, hl1, hc1, hseg1⟩ := processStmt_spec st s s1 hop.1 hst
      obtain ⟨δ2, hq2, hl2, hc2, hseg2⟩ := processElements_spec rest s1 s' hop.2 h
      refine ⟨δ1 ++ δ2, ?_, ?_, ?_, ?_⟩
      · rw [hq2, hq1, List.append_assoc]
      · rw [hl2, hl1]
      · omega
      · rw [hl1] at hseg2
        exact SegS_append hseg1 hseg2 hc1 hc2
  | .expr e :: rest, s, s', hop, h => by
    simp only [elemsOpsOK, Bool.and_eq_true] at hop
    rw [show processElements (.expr e :: rest) s =
      (Except.ok s : Except GenErr GState).bind (processElements rest) from rfl] at h
    simp only [Except.bind] at h
    exact processElements_spec rest s s' hop.2 h

theorem processParams_spec : ∀ (ps : List Param) (s : GState),
    ∃ δ, (processParams ps s).quadruples = s.quadruples ++ δ ∧
      (processParams ps s).loopStack = s.loopStack ∧
      (processParams ps s).labelCounter = s.labelCounter ∧
      (∀ k, countLabel δ (mkLabel k) = 0) ∧ jumpTargets δ = []
  | [], s => ⟨[], by simp [processParams], rfl, rfl, fun k => rfl, rfl⟩
  | p :: rest, s => by
    obtain ⟨δ, hq, hl, hc, hz, hj⟩ :=
      processParams_spec rest (s.emit ⟨"param", .str p.name, .none, .none⟩)
    refine ⟨[⟨"param", .str p.name, .none, .none⟩] ++ δ, ?_, ?_, ?_, ?_, ?_⟩
    · rw [show processParams (p :: rest) s =
        processParams rest (s.emit ⟨"param", .str p.name, .none, .none⟩) from rfl, hq]
      simp [GState.emit, List.append_assoc]
    · exact hl
    · exact hc
    · intro k
      rw [countLabel_append, hz,
        countLabel_single_zero _ _ (ne_labelQuad_mk_of_head _ _ _ _ _ (by decide))]
    · rw [jumpTargets_append, hj, jumpTargets_single_not _ (by simp [isJumpQuad])]
      rfl
end MiniLang

namespace MiniLang
theorem processFunction_spec (f : FuncDecl) (s s' : GState)
    (hname : isGenLabelName f.name = false)
    (hops : elemsOpsOK f.body.elements = true)
    (h : processFunction f s = .ok s') :
    ∃ δ, s'.quadruples = s.quadruples ++ δ ∧ s'.loopStack = s.loopStack ∧
      s.labelCounter ≤ s'.labelCounter ∧
      SegS δ s.labelCounter s'.labelCounter s.loopStack := by
  rw [show processFunction f s =
    (processElements f.body.elements (processParams f.params { s with currentFunction := some f.name, quadruples := s.quadruples ++ [labelQuad f.name] })).bind
    (fun s3 => .ok { (if s3.quadruples.any (fun q => q.op == "return") then s3
        else s3.emit ⟨"return", .none, .none, .none⟩) with
      currentFunction := Option.none }) from rfl] at h
  set s1 : GState := { s with currentFunction := some f.name, quadruples := s.quadruples ++ [labelQuad f.name] } with hs1
  obtain ⟨δp, hqp, hlp, hcp, hzp, hjp⟩ := processParams_spec f.params s1
  set s2 := processParams f.params s1 with hs2
  have hq1 : s1.quadruples = s.quadruples ++ [labelQuad f.name] := rfl
  have hl1 : s1.loopStack = s.loopStack := rfl
  have hc1 : s1.labelCounter = s.labelCounter := rfl
  cases hel : processElements f.body.elements s2 with
  | error e => rw [hel] at h; cases h
  | ok s3 =>
    rw [hel] at h
    simp only [Except.bind] at h
    obtain ⟨δe, hqe, hle, hce, hsege⟩ := processElements_spec f.body.elements s2 s3 hops hel
    have hsplit : ∃ δr : List Quad,
        (if s3.quadruples.any (fun q => q.op == "return") then s3
          else s3.emit ⟨"return", .none, .none, .none⟩) =
          { s3 with quadruples := s3.quadruples ++ δr } ∧
        (∀ k, countLabel δr (mkLabel k) = 0) ∧ jumpTargets δr = [] := by
      cases hany : s3.quadruples.any (fun q => q.op == "return") with
      | true =>
        refine ⟨[], ?_, fun k => rfl, rfl⟩
        simp
      | false =>
        refine ⟨[⟨"return", .none, .none, .none⟩], ?_, ?_, ?_⟩
        · simp [GState.emit]
        · intro k
          exact countLabel_single_zero _ _ (ne_labelQuad_mk_of_head _ _ _ _ _ (by decide))
        · exact jumpTargets_single_not _ (by simp [isJumpQuad])
    obtain ⟨δr, hifeq, hzr, hjr⟩ := hsplit
    rw [hifeq] at h
    injection h with h'
    subst h'
    rw [hqp, hq1] at hqe
    rw [hlp, hl1] at hle hsege
    rw [hcp, hc1] at hce hsege
    show ∃ δ, s3.quadruples ++ δr = s.quadruples ++ δ ∧ s3.loopStack = s.loopStack ∧
      s.labelCounter ≤ s3.labelCounter ∧ SegS δ s.labelCounter s3.labelCounter s.loopStack
    have hfk : ∀ k, ¬(mkLabel k = f.name) := by
      intro k hk
      rw [← hk] at hname
      rw [isGenLabelName_mkLabel] at hname
      cases hname
    refine ⟨[labelQuad f.name] ++ (δp ++ (δe ++ δr)), ?_, hle, hce, ?_⟩
    · rw [hqe]
      simp [List.append_assoc]
    · have hcount : ∀ k, countLabel ([labelQuad f.name] ++ (δp ++ (δe ++ δr))) (mkLabel k) =
          countLabel δe (mkLabel k) := by
        intro k
        rw [countLabel_append, countLabel_append, countLabel_append,
          countLabel_label_singleton, if_neg (hfk k), hzp, hzr]
        omega
      refine ⟨fun k => ?_, fun k hk => ?_, fun tg htg => ?_⟩
      · rw [hcount]
        exact hsege.1 k
      · rw [hcount]
        exact hsege.2.1 k hk
      · rw [jumpTargets_append, jumpTargets_append, jumpTargets_append,
          jumpTargets_label, hjp, hjr] at htg
        simp only [List.nil_append, List.append_nil] at htg
        rcases hsege.2.2 tg htg with ⟨k, rfl, hk⟩ | ⟨ctx2, hmem, hlab⟩
        · refine .inl ⟨k, rfl, ?_⟩
          rw [hcount]
          exact hk
        · exact .inr ⟨ctx2, hmem, hlab⟩
end MiniLang

namespace MiniLang
theorem SegsChain_le : ∀ (segs : List (List Quad)) (lo hi : Nat),
    SegsChain segs lo hi → lo ≤ hi
  | [], lo, hi, h => le_of_eq h
  | _ :: rest, lo, hi, ⟨mid, hlm, _, hrest⟩ =>
    le_trans hlm (SegsChain_le rest mid hi hrest)

theorem SegsChain_zero : ∀ (segs : List (List Quad)) (lo hi : Nat),
    SegsChain segs lo hi → ∀ k, k < lo ∨ hi ≤ k →
    countLabel segs.join (mkLabel k) = 0
  | [], lo, hi, _, k, _ => rfl
  | seg :: rest, lo, hi, ⟨mid, hlm, hS, hrest⟩, k, hk => by
    have hmh := SegsChain_le rest mid hi hrest
    have h1 : countLabel seg (mkLabel k) = 0 := hS.2.1 k (by omega)
    have h2 : countLabel rest.join (mkLabel k) = 0 :=
      SegsChain_zero rest mid hi hrest k (by omega)
    show countLabel (seg ++ rest.join) (mkLabel k) = 0
    rw [countLabel_append, h1, h2]

theorem SegsChain_targets : ∀ (segs : List (List Quad)) (lo hi : Nat),
    SegsChain segs lo hi → ∀ seg ∈ segs, ∀ t ∈ jumpTargets seg,
    ∃ k, t = mkLabel k ∧ lo ≤ k ∧ k < hi ∧
      countLabel seg t = 1 ∧ countLabel segs.join t = 1
  | [], _, _, _, seg, hmem, _, _ => absurd hmem (List.not_mem_nil _)
  | seg0 :: rest, lo, hi, ⟨mid, hlm, hS, hrest⟩, seg, hmem, t, ht => by
    have hmh := SegsChain_le rest mid hi hrest
    rcases List.mem_cons.1 hmem with rfl | hmem'
    · rcases hS.2.2 t ht with ⟨k, rfl, hk1⟩ | ⟨ctx, hctx, -⟩
      · have h1 : countLabel seg (mkLabel k) = 1 := le_antisymm (hS.1 k) hk1
        have hrange : lo ≤ k ∧ k < mid := by
          by_contra hout
          rw [hS.2.1 k (by omega)] at h1
          cases h1
        have h2 : countLabel rest.join (mkLabel k) = 0 :=
          SegsChain_zero rest mid hi hrest k (by omega)
        refine ⟨k, rfl, hrange.1, by omega, h1, ?_⟩
        show countLabel (seg ++ rest.join) (mkLabel k) = 1
        rw [countLabel_append, h1, h2]
      · cases hctx
    · obtain ⟨k, rfl, hmk, hkhi, h1, hj⟩ :=
        SegsChain_targets rest mid hi hrest seg hmem' t ht
      have h0 : countLabel seg0 (mkLabel k) = 0 := hS.2.1 k (by omega)
      refine ⟨k, rfl, by omega, hkhi, h1, ?_⟩
      show countLabel (seg0 ++ rest.join) (mkLabel k) = 1
      rw [countLabel_append, h0, hj]

theorem processDecls_segs : ∀ (ds : List FuncDecl) (s s' : GState),
    (∀ f ∈ ds, isGenLabelName f.name = false ∧ elemsOpsOK f.body.elements = true) →
    s.loopStack = [] →
    processDecls ds s = .ok s' →
    ∃ segs : List (List Quad), s'.quadruples = s.quadruples ++ segs.join ∧
      segs.length = ds.length ∧ s'.loopStack = [] ∧
      SegsChain segs s.labelCounter s'.labelCounter
  | [], s, s', _, hL, h => by
    injection h with h'
    subst h'
    exact ⟨[], by simp, rfl, hL, rfl⟩
  | d :: rest, s, s', hd, hL, h => by
    rw [show processDecls (d :: rest) s =
      (processFunction d s).bind (processDecls rest) from rfl] at h
    cases hf : processFunction d s with
    | error e => rw [hf] at h; cases h
    | ok s1 =>
      rw [hf] at h
      simp only [Except.bind] at h
      obtain ⟨hn, ho⟩ := hd d (List.mem_cons_self d rest)
      obtain ⟨δf, hqf, hlf, hcf, hsegf⟩ := processFunction_spec d s s1 hn ho hf
      have hL1 : s1.loopStack = [] := by rw [hlf, hL]
      obtain ⟨segs, hq, hlen, hl', hchain⟩ :=
        processDecls_segs rest s1 s' (fun f hf' => hd f (List.mem_cons_of_mem d hf')) hL1 h
      rw [hL] at hsegf
      refine ⟨δf :: segs, ?_, by simp [hlen], hl', ?_⟩
      · rw [hq, hqf, List.append_assoc]
        rfl
      · exact ⟨s1.labelCounter, hcf, hsegf, hchain⟩

/-- C6 (amended): provided no function is named like a generated label
(`L` followed by digits) and every binary operator in the program is one
the parser produces, the quad list `generate_quadruples` returns splits
into one segment per function, and every `goto`/`ifz` target occurs
exactly once as a label quad in the whole list, that occurrence lying in
the same function segment as the jump. -/
theorem c6_amended (p : Program) (qs : List Quad)
    (hnames : ∀ f ∈ p.decls, isGenLabelName f.name = false)
    (hops : Program.opsOK p = true)
    (hgen : generateQuadruples p = .ok qs) :
    ∃ segs : List (List Quad), qs = segs.join ∧ segs.length = p.decls.length ∧
      ∀ seg ∈ segs, ∀ t ∈ jumpTargets seg,
        countLabel seg t = 1 ∧ countLabel qs t = 1 := by
  rw [show generateQuadruples p =
    (processDecls p.decls (⟨[], 0, 0, [], Option.none⟩ : GState)).bind
      (fun s1 => .ok s1.quadruples) from rfl] at hgen
  simp only [Program.opsOK, List.all_eq_true] at hops
  cases hpd : processDecls p.decls (⟨[], 0, 0, [], Option.none⟩ : GState) with
  | error e => rw [hpd] at hgen; cases hgen
  | ok s1 =>
    rw [hpd] at hgen
    simp only [Except.bind] at hgen
    injection hgen with hgen'
    subst hgen'
    obtain ⟨segs, hq, hlen, -, hchain⟩ :=
      processDecls_segs p.decls _ s1
        (fun f hf => ⟨hnames f hf, by simpa using hops f hf⟩) rfl hpd
    have hq' : s1.quadruples = segs.join := by simpa using hq
    refine ⟨segs, hq', hlen, ?_⟩
    intro seg hseg t ht
    obtain ⟨k, rfl, -, -, h1, hj⟩ :=
      SegsChain_targets segs 0 s1.labelCounter hchain seg hseg t ht
    exact ⟨h1, by rw [hq']; exact hj⟩
end MiniLang

namespace MiniLang
/-- C7: for every `WhileStmt` the generator emits, in order, the
loop-start label quad, the condition's quads, an `ifz` jump to the end
label, the body's quads, a `goto` back to the start label, and the
loop-end label quad; on `fn h(mut n: i32) { while n > 0 { n = n - 1; } }`
this yields exactly the ten quads of `quadsWhileDec`, with one start
label `L0` and one end label `L1`, and the decrement lowered to a fresh
temporary `t1` followed by a copy back into `n`. -/
theorem c7_while_emission :
    (∀ (cond : Expr) (body : List Stmt) (s s' : GState),
      cond.opsOK = true → stmtsOpsOK body = true →
      processStmt (.whileS cond (BlockS.mk body)) s = .ok s' →
      ∃ δc δb s7,
        (processExpr cond { s with labelCounter := s.labelCounter + 2, loopStack := s.loopStack ++ [⟨mkLabel s.labelCounter, mkLabel (s.labelCounter+1), Option.none⟩], quadruples := s.quadruples ++ [labelQuad (mkLabel s.labelCounter)] }).2.quadruples = s.quadruples ++ [labelQuad (mkLabel s.labelCounter)] ++ δc ∧
        processBlockStmts body ((processExpr cond { s with labelCounter := s.labelCounter + 2, loopStack := s.loopStack ++ [⟨mkLabel s.labelCounter, mkLabel (s.labelCounter+1), Option.none⟩], quadruples := s.quadruples ++ [labelQuad (mkLabel s.labelCounter)] }).2.emit ⟨"ifz", valArg (processExpr cond { s with labelCounter := s.labelCounter + 2, loopStack := s.loopStack ++ [⟨mkLabel s.labelCounter, mkLabel (s.labelCounter+1), Option.none⟩], quadruples := s.quadruples ++ [labelQuad (mkLabel s.labelCounter)] }).1, .none, .str (mkLabel (s.labelCounter+1))⟩) = .ok s7 ∧
        s7.quadruples = s.quadruples ++ [labelQuad (mkLabel s.labelCounter)] ++ δc ++ [⟨"ifz", valArg (processExpr cond { s with labelCounter := s.labelCounter + 2, loopStack := s.loopStack ++ [⟨mkLabel s.labelCounter, mkLabel (s.labelCounter+1), Option.none⟩], quadruples := s.quadruples ++ [labelQuad (mkLabel s.labelCounter)] }).1, .none, .str (mkLabel (s.labelCounter+1))⟩] ++ δb ∧
        s'.quadruples = s.quadruples ++ [labelQuad (mkLabel s.labelCounter)] ++ δc ++ [⟨"ifz", valArg (processExpr cond { s with labelCounter := s.labelCounter + 2, loopStack := s.loopStack ++ [⟨mkLabel s.labelCounter, mkLabel (s.labelCounter+1), Option.none⟩], quadruples := s.quadruples ++ [labelQuad (mkLabel s.labelCounter)] }).1, .none, .str (mkLabel (s.labelCounter+1))⟩] ++ δb ++ [⟨"goto", .none, .none, .str (mkLabel s.labelCounter)⟩] ++ [labelQuad (mkLabel (s.labelCounter+1))]) ∧
    generateQuadruples astWhileDec = .ok quadsWhileDec ∧
    countLabel quadsWhileDec (mkLabel 0) = 1 ∧
    countLabel quadsWhileDec (mkLabel 1) = 1 := by
  refine ⟨?_, rfl, by decide, by decide⟩
  intro cond body s s' hco hbo h
  rw [show processStmt (.whileS cond (BlockS.mk body)) s =
    ((processBlockStmts body
      ((processExpr cond
        { s with labelCounter := s.labelCounter + 2,
                 loopStack := s.loopStack ++
                   [⟨mkLabel s.labelCounter, mkLabel (s.labelCounter+1), Option.none⟩],
                 quadruples := s.quadruples ++ [labelQuad (mkLabel s.labelCounter)] }).2.emit
        ⟨"ifz", valArg (processExpr cond
          { s with labelCounter := s.labelCounter + 2,
                   loopStack := s.loopStack ++
                     [⟨mkLabel s.labelCounter, mkLabel (s.labelCounter+1), Option.none⟩],
                   quadruples := s.quadruples ++ [labelQuad (mkLabel s.labelCounter)] }).1,
          .none, .str (mkLabel (s.labelCounter+1))⟩)).bind (fun s7 =>
      .ok { s7 with
            quadruples := s7.quadruples ++ [⟨"goto", .none, .none, .str (mkLabel s.labelCounter)⟩]
              ++ [labelQuad (mkLabel (s.labelCounter+1))],
            loopStack := s7.loopStack.dropLast })) from rfl] at h
  set n := s.labelCounter with hn
  set ctx : LoopCtx := ⟨mkLabel n, mkLabel (n+1), Option.none⟩ with hctx
  set s4 : GState := { s with labelCounter := n + 2, loopStack := s.loopStack ++ [ctx], quadruples := s.quadruples ++ [labelQuad (mkLabel n)] } with hs4
  obtain ⟨δc, hqc, hlc, hcc, hsegc⟩ := processExpr_spec cond s4 hco
  rcases hpc : processExpr cond s4 with ⟨cv, s5⟩
  rw [hpc] at hqc hlc hcc hsegc h
  dsimp only at hqc hlc hcc hsegc h ⊢
  cases hbody : processBlockStmts body
      (s5.emit ⟨"ifz", valArg cv, .none, .str (mkLabel (n+1))⟩) with
  | error e => rw [hbody] at h; cases h
  | ok s7 =>
    rw [hbody] at h
    simp only [Except.bind] at h
    injection h with h'
    subst h'
    obtain ⟨δb, hqb, hlb, hcb, hsegb⟩ := processBlockStmts_spec body _ s7 hbo hbody
    simp only [GState.emit] at hqb
    refine ⟨δc, δb, s7, ?_, rfl, ?_, ?_⟩
    · rw [hqc]
    · rw [hqb, hqc]
    · show s7.quadruples ++ [⟨"goto", .none, .none, .str (mkLabel n)⟩] ++
        [labelQuad (mkLabel (n+1))] = _
      rw [hqb, hqc]

theorem c7_while_emission_witness :
    (Expr.bin ">" (Expr.ident "n") (Expr.lit 0)).opsOK = true ∧
    stmtsOpsOK [Stmt.assign (Expr.ident "n") (Expr.bin "-" (Expr.ident "n") (Expr.lit 1))] = true ∧
    processStmt demoWhileStmt (⟨[], 0, 0, [], Option.none⟩ : GState) = .ok demoWhileOut ∧
    (∃ δc δb s7,
      (processExpr (Expr.bin ">" (Expr.ident "n") (Expr.lit 0)) (⟨[labelQuad (mkLabel 0)], 0, 2, [⟨mkLabel 0, mkLabel 1, Option.none⟩], Option.none⟩ : GState)).2.quadruples = [labelQuad (mkLabel 0)] ++ δc ∧
      processBlockStmts [Stmt.assign (Expr.ident "n") (Expr.bin "-" (Expr.ident "n") (Expr.lit 1))] ((processExpr (Expr.bin ">" (Expr.ident "n") (Expr.lit 0)) (⟨[labelQuad (mkLabel 0)], 0, 2, [⟨mkLabel 0, mkLabel 1, Option.none⟩], Option.none⟩ : GState)).2.emit ⟨"ifz", valArg (processExpr (Expr.bin ">" (Expr.ident "n") (Expr.lit 0)) (⟨[labelQuad (mkLabel 0)], 0, 2, [⟨mkLabel 0, mkLabel 1, Option.none⟩], Option.none⟩ : GState)).1, .none, .str (mkLabel 1)⟩) = .ok s7 ∧
      s7.quadruples = [labelQuad (mkLabel 0)] ++ δc ++ [⟨"ifz", valArg (processExpr (Expr.bin ">" (Expr.ident "n") (Expr.lit 0)) (⟨[labelQuad (mkLabel 0)], 0, 2, [⟨mkLabel 0, mkLabel 1, Option.none⟩], Option.none⟩ : GState)).1, .none, .str (mkLabel 1)⟩] ++ δb ∧
      demoWhileOut.quadruples = [labelQuad (mkLabel 0)] ++ δc ++ [⟨"ifz", valArg (processExpr (Expr.bin ">" (Expr.ident "n") (Expr.lit 0)) (⟨[labelQuad (mkLabel 0)], 0, 2, [⟨mkLabel 0, mkLabel 1, Option.none⟩], Option.none⟩ : GState)).1, .none, .str (mkLabel 1)⟩] ++ δb ++ [⟨"goto", .none, .none, .str (mkLabel 0)⟩] ++ [labelQuad (mkLabel 1)]) :=
  ⟨rfl, rfl, rfl,
    c7_while_emission.1 (Expr.bin ">" (Expr.ident "n") (Expr.lit 0))
      [Stmt.assign (Expr.ident "n") (Expr.bin "-" (Expr.ident "n") (Expr.lit 1))]
      (⟨[], 0, 0, [], Option.none⟩ : GState) demoWhileOut rfl rfl rfl⟩

theorem c6_amended_witness :
    (∀ f ∈ astWhileDec.decls, isGenLabelName f.name = false) ∧
    Program.opsOK astWhileDec = true ∧
    generateQuadruples astWhileDec = .ok quadsWhileDec ∧
    (∃ segs : List (List Quad), quadsWhileDec = segs.join ∧
      segs.length = astWhileDec.decls.length ∧
      ∀ seg ∈ segs, ∀ t ∈ jumpTargets seg,
        countLabel seg t = 1 ∧ countLabel quadsWhileDec t = 1) :=
  ⟨by decide, rfl, rfl, c6_amended astWhileDec quadsWhileDec (by decide) rfl rfl⟩
end MiniLang

namespace MiniLang
theorem SymbolOK_make (name : String) (ty : Ty) (m i : Bool) :
    SymbolOK (Symbol.make name ty m i) := by
  intro hcon
  exact Bool.false_ne_true hcon.1

theorem Frame.insert_inv (fr : Frame) (name : String) (sym : Symbol)
    (hf : ∀ p ∈ fr, SymbolOK (Prod.snd p)) (hs : SymbolOK sym) :
    ∀ p ∈ Frame.insert fr name sym, SymbolOK (Prod.snd p) := by
  induction fr with
  | nil =>
    intro p hp
    simp only [Frame.insert, List.mem_singleton] at hp
    subst hp
    exact hs
  | cons q rest ih =>
    intro p hp
    rcases q with ⟨n, s⟩
    simp only [Frame.insert] at hp
    by_cases hn : n = name
    · rw [if_pos hn] at hp
      rcases List.mem_cons.1 hp with rfl | hp'
      · exact hs
      · exact hf p (List.mem_cons_of_mem _ hp')
    · rw [if_neg hn] at hp
      rcases List.mem_cons.1 hp with rfl | hp'
      · exact hf _ (List.mem_cons_self _ _)
      · exact ih (fun q hq => hf q (List.mem_cons_of_mem _ hq)) p hp'

theorem declareVar_inv (env : Env) (name : String) (ty : Ty) (m i : Bool)
    (h : EnvInv env) : EnvInv (declareVar env name ty m i) := by
  cases env with
  | nil =>
    intro fr hfr
    simp only [declareVar, List.mem_singleton] at hfr
    subst hfr
    exact Frame.insert_inv [] name _ (by intro p hp; cases hp) (SymbolOK_make _ _ _ _)
  | cons fr0 rest =>
    intro fr hfr
    simp only [declareVar] at hfr
    rcases List.mem_cons.1 hfr with rfl | hfr'
    · exact Frame.insert_inv fr0 name _ (h fr0 (List.mem_cons_self _ _)) (SymbolOK_make _ _ _ _)
    · exact h fr (List.mem_cons_of_mem _ hfr')

theorem Frame.update_inv (fr : Frame) (name : String) (f : Symbol → Symbol)
    (hf : ∀ p ∈ fr, SymbolOK (Prod.snd p))
    (hpres : ∀ s, SymbolOK s → SymbolOK (f s)) :
    ∀ p ∈ Frame.update fr name f, SymbolOK (Prod.snd p) := by
  induction fr with
  | nil =>
    intro p hp
    cases hp
  | cons q rest ih =>
    intro p hp
    rcases q with ⟨n, s⟩
    simp only [Frame.update] at hp
    by_cases hn : n = name
    · rw [if_pos hn] at hp
      rcases List.mem_cons.1 hp with rfl | hp'
      · exact hpres s (hf _ (List.mem_cons_self _ _))
      · exact hf p (List.mem_cons_of_mem _ hp')
    · rw [if_neg hn] at hp
      rcases List.mem_cons.1 hp with rfl | hp'
      · exact hf _ (List.mem_cons_self _ _)
      · exact ih (fun q hq => hf q (List.mem_cons_of_mem _ hq)) p hp'

theorem updateVar_inv : ∀ (env : Env) (name : String) (f : Symbol → Symbol),
    EnvInv env → (∀ s, SymbolOK s → SymbolOK (f s)) →
    EnvInv (updateVar env name f)
  | [], name, f, h, hpres => by
    intro fr hfr
    cases hfr
  | fr0 :: rest, name, f, h, hpres => by
    intro fr hfr
    simp only [updateVar] at hfr
    by_cases hc : fr0.contains name
    · rw [if_pos hc] at hfr
      rcases List.mem_cons.1 hfr with rfl | hfr'
      · exact Frame.update_inv fr0 name f (h fr0 (List.mem_cons_self _ _)) hpres
      · exact h fr (List.mem_cons_of_mem _ hfr')
    · rw [if_neg hc] at hfr
      rcases List.mem_cons.1 hfr with rfl | hfr'
      · exact h _ (List.mem_cons_self _ _)
      · exact updateVar_inv rest name f
          (fun q hq => h q (List.mem_cons_of_mem _ hq)) hpres fr hfr'

theorem pushFrame_inv (env : Env) (h : EnvInv env) : EnvInv (pushFrame env) := by
  intro fr hfr
  rcases List.mem_cons.1 hfr with rfl | hfr'
  · intro p hp
    cases hp
  · exact h fr hfr'

theorem popFrame_inv (env : Env) (h : EnvInv env) : EnvInv (popFrame env) := by
  intro fr hfr
  exact h fr (List.mem_of_mem_tail hfr)

theorem borrowCheckStep_ok (m : Bool) (sym sym2 : Symbol)
    (h : borrowCheckStep m sym = .ok sym2) : SymbolOK sym2 := by
  unfold borrowCheckStep at h
  split at h
  · cases h
  · split at h
    · split at h
      · cases h
      · injection h with h'
        subst h'
        rename_i hm hnb
        intro hcon
        simp only [Bool.or_eq_true] at hnb
        push_neg at hnb
        exact absurd hcon.2 (by simp [hnb])
    · split at h
      · cases h
      · injection h with h'
        subst h'
        rename_i hnm hnb
        intro hcon
        simp only [Bool.not_eq_true] at hnb
        exact absurd hcon.1 (by simp [hnb])
end MiniLang

namespace MiniLang
theorem okBind {α β : Type} (x : α) (k : α → Except AErr β) :
    (Except.ok x : Except AErr α) >>= k = k x := rfl

theorem errBind {α β : Type} (e : AErr) (k : α → Except AErr β) :
    (Except.error e : Except AErr α) >>= k = Except.error e := rfl

theorem checkAssignment_else_inv (fns : List FuncDecl) (t v : Expr) (env : Env) (r : Env)
    (ht : ∀ r' : Ty × Env, inferExpr fns t env = .ok r' → EnvInv r'.2)
    (hv : ∀ (env1 : Env) (r' : Ty × Env), EnvInv env1 → inferExpr fns v env1 = .ok r' → EnvInv r'.2)
    (h : (do
      let (_, env1) ← inferExpr fns t env
      let (_, env2) ← inferExpr fns v env1
      Except.ok env2) = Except.ok r) : EnvInv r := by
  cases h1 : inferExpr fns t env with
  | error e => rw [h1, errBind] at h; cases h
  | ok p =>
    rcases p with ⟨tt, env1⟩
    rw [h1, okBind] at h
    dsimp only at h
    cases h2 : inferExpr fns v env1 with
    | error e => rw [h2, errBind] at h; cases h
    | ok q =>
      rcases q with ⟨vt, env2⟩
      rw [h2, okBind] at h
      dsimp only at h
      injection h with h'
      subst h'
      exact hv env1 (vt, env2) (ht (tt, env1) h1) h2

set_option maxHeartbeats 1000000 in
mutual

theorem inferExpr_inv (fns : List FuncDecl) : ∀ (e : Expr) (env : Env) (r : Ty × Env),
    EnvInv env → inferExpr fns e env = .ok r → EnvInv r.2
  | .lit n, env, r, henv, h => by
    unfold inferExpr at h
    injection h with h'
    subst h'
    exact henv
  | .ident name, env, r, henv, h => by
    unfold inferExpr at h
    cases hl : lookupVar env name with
    | none => rw [hl] at h; cases h
    | some sym =>
      rw [hl] at h
      dsimp only at h
      split at h
      · cases h
      · split at h
        · cases h
        · injection h with h'
          subst h'
          exact henv
  | .bin op l rr, env, r, henv, h => by
    unfold inferExpr at h
    cases h1 : inferExpr fns l env with
    | error e => rw [h1, errBind] at h; cases h
    | ok p =>
      rcases p with ⟨lt, env1⟩
      rw [h1, okBind] at h
      dsimp only at h
      cases h2 : inferExpr fns rr env1 with
      | error e => rw [h2, errBind] at h; cases h
      | ok q =>
        rcases q with ⟨rt, env2⟩
        rw [h2, okBind] at h
        dsimp only at h
        split at h
        · cases h
        · injection h with h'
          subst h'
          exact inferExpr_inv fns rr env1 (rt, env2)
            (inferExpr_inv fns l env (lt, env1) henv h1) h2
  | .call callee args, env, r, henv, h => by
    unfold inferExpr at h
    cases hf : lookupFn fns callee with
    | none => rw [hf] at h; cases h
    | some f =>
      rw [hf] at h
      dsimp only at h
      split at h
      · cases h
      · cases h1 : inferArgs fns args f.params env with
        | error e => rw [h1, errBind] at h; cases h
        | ok env1 =>
          rw [h1, okBind] at h
          injection h with h'
          subst h'
          exact inferArgs_inv fns args f.params env env1 henv h1
  | .tupleLit elems, env, r, henv, h => by
    unfold inferExpr at h
    cases h1 : inferList fns elems env with
    | error e => rw [h1, errBind] at h; cases h
    | ok p =>
      rcases p with ⟨tys, env1⟩
      rw [h1, okBind] at h
      dsimp only at h
      injection h with h'
      subst h'
      exact inferList_inv fns elems env (tys, env1) henv h1
  | .arrayLit elems, env, r, henv, h => by
    unfold inferExpr at h
    cases h1 : inferList fns elems env with
    | error e => rw [h1, errBind] at h; cases h
    | ok p =>
      rcases p with ⟨tys, env1⟩
      rw [h1, okBind] at h
      dsimp only at h
      cases tys with
      | nil => cases h
      | cons t0 rest =>
        dsimp only at h
        split at h
        · injection h with h'
          subst h'
          exact inferList_inv fns elems env (t0 :: rest, env1) henv h1
        · cases h
  | .refE m operand, env, r, henv, h => by
    unfold inferExpr at h
    cases h1 : inferExpr fns operand env with
    | error e => rw [h1, errBind] at h; cases h
    | ok p =>
      rcases p with ⟨bt, env1⟩
      rw [h1, okBind] at h
      dsimp only at h
      have henv1 : EnvInv env1 := inferExpr_inv fns operand env (bt, env1) henv h1
      cases operand with
      | ident name =>
        dsimp only at h
        cases hl : lookupVar env1 name with
        | none => rw [hl] at h; cases h
        | some sym =>
          rw [hl] at h
          dsimp only at h
          cases hb : borrowCheckStep m sym with
          | error e => rw [hb, errBind] at h; cases h
          | ok sym2 =>
            rw [hb, okBind] at h
            injection h with h'
            subst h'
            exact updateVar_inv env1 name _ henv1
              (fun s _ => borrowCheckStep_ok m sym sym2 hb)
      | lit n => injection h with h'; subst h'; exact henv1
      | bin op l rr => injection h with h'; subst h'; exact henv1
      | call c as => injection h with h'; subst h'; exact henv1
      | tupleLit es => injection h with h'; subst h'; exact henv1
      | arrayLit es => injection h with h'; subst h'; exact henv1
      | refE m2 o2 => injection h with h'; subst h'; exact henv1
      | deref o2 => injection h with h'; subst h'; exact henv1
      | tupleAccess t2 i2 => injection h with h'; subst h'; exact henv1
      | indexE t2 i2 => injection h with h'; subst h'; exact henv1
      | ifE c2 t2 e2 => injection h with h'; subst h'; exact henv1
      | loopE b2 => injection h with h'; subst h'; exact henv1
      | block b2 => injection h with h'; subst h'; exact henv1
  | .deref operand, env, r, henv, h => by
    unfold inferExpr at h
    cases h1 : inferExpr fns operand env with
    | error e => rw [h1, errBind] at h; cases h
    | ok p =>
      rcases p with ⟨rt, env1⟩
      rw [h1, okBind] at h
      dsimp only at h
      have henv1 : EnvInv env1 := inferExpr_inv fns operand env (rt, env1) henv h1
      cases rt with
      | ref m2 inner => injection h with h'; subst h'; exact henv1
      | i32 => cases h
      | pyNone => cases h
      | arr t2 n2 => cases h
      | tupT ts => cases h
      | tup ts => cases h
  | .tupleAccess target idx, env, r, henv, h => by
    unfold inferExpr at h
    cases h1 : inferExpr fns target env with
    | error e => rw [h1, errBind] at h; cases h
    | ok p =>
      rcases p with ⟨tt, env1⟩
      rw [h1, okBind] at h
      dsimp only at h
      have henv1 : EnvInv env1 := inferExpr_inv fns target env (tt, env1) henv h1
      cases tt with
      | tup elems =>
        dsimp only at h
        cases idx with
        | name s => cases h
        | num n =>
          dsimp only at h
          split at h
          · cases h
          · injection h with h'
            subst h'
            exact henv1
      | i32 => cases h
      | pyNone => cases h
      | arr t2 n2 => cases h
      | tupT ts => cases h
      | ref m2 t2 => cases h
  | .indexE t i, env, r, henv, h => by
    unfold inferExpr at h
    injection h with h'
    subst h'
    exact henv
  | .ifE cond (FuncBlock.mk thnEls) (FuncBlock.mk elsEls), env, r, henv, h => by
    unfold inferExpr at h
    cases h1 : inferExpr fns cond env with
    | error e => rw [h1, errBind] at h; cases h
    | ok p =>
      rcases p with ⟨ct, env1⟩
      rw [h1, okBind] at h
      dsimp only at h
      split at h
      · cases h
      · have henv1 : EnvInv env1 := inferExpr_inv fns cond env (ct, env1) henv h1
        cases h2 : inferFBElems fns thnEls (pushFrame env1) with
        | error e => rw [h2, errBind] at h; cases h
        | ok q =>
          rcases q with ⟨tt, env2⟩
          rw [h2, okBind] at h
          dsimp only at h
          have henv2 : EnvInv (popFrame env2) :=
            popFrame_inv env2 (inferFBElems_inv fns thnEls (pushFrame env1) (tt, env2)
              (pushFrame_inv env1 henv1) h2)
          cases h3 : inferFBElems fns elsEls (pushFrame (popFrame env2)) with
          | error e => rw [h3, errBind] at h; cases h
          | ok q3 =>
            rcases q3 with ⟨et, env3⟩
            rw [h3, okBind] at h
            dsimp only at h
            split at h
            · cases h
            · injection h with h'
              subst h'
              exact popFrame_inv env3 (inferFBElems_inv fns elsEls (pushFrame (popFrame env2))
                (et, env3) (pushFrame_inv _ henv2) h3)
  | .loopE (FuncBlock.mk elems), env, r, henv, h => by
    unfold inferExpr at h
    exact inferLoopBreak_inv fns elems env r henv h
  | .block (FuncBlock.mk elems), env, r, henv, h => by
    unfold inferExpr at h
    cases h1 : inferFBElems fns elems (pushFrame env) with
    | error e => rw [h1, errBind] at h; cases h
    | ok p =>
      rcases p with ⟨t, env1⟩
      rw [h1, okBind] at h
      dsimp only at h
      injection h with h'
      subst h'
      exact popFrame_inv env1 (inferFBElems_inv fns elems (pushFrame env) (t, env1)
        (pushFrame_inv env henv) h1)
  termination_by e env r henv h => sizeOf e

theorem inferArgs_inv (fns : List FuncDecl) : ∀ (args : List Expr) (ps : List Param)
    (env : Env) (r : Env), EnvInv env → inferArgs fns args ps env = .ok r → EnvInv r
  | [], ps, env, r, henv, h => by
    unfold inferArgs at h
    injection h with h'
    subst h'
    exact henv
  | a :: as, [], env, r, henv, h => by
    unfold inferArgs at h
    injection h with h'
    subst h'
    exact henv
  | a :: as, p :: ps, env, r, henv, h => by
    unfold inferArgs at h
    cases h1 : inferExpr fns a env with
    | error e => rw [h1, errBind] at h; cases h
    | ok q =>
      rcases q with ⟨at', env1⟩
      rw [h1, okBind] at h
      dsimp only at h
      split at h
      · cases h
      · exact inferArgs_inv fns as ps env1 r
          (inferExpr_inv fns a env (at', env1) henv h1) h
  termination_by args ps env r henv h => sizeOf args

theorem inferList_inv (fns : List FuncDecl) : ∀ (es : List Expr) (env : Env)
    (r : List Ty × Env), EnvInv env → inferList fns es env = .ok r → EnvInv r.2
  | [], env, r, henv, h => by
    unfold inferList at h
    injection h with h'
    subst h'
    exact henv
  | e :: rest, env, r, henv, h => by
    unfold inferList at h
    cases h1 : inferExpr fns e env with
    | error er => rw [h1, errBind] at h; cases h
    | ok p =>
      rcases p with ⟨t, env1⟩
      rw [h1, okBind] at h
      dsimp only at h
      cases h2 : inferList fns rest env1 with
      | error er => rw [h2, errBind] at h; cases h
      | ok q =>
        rcases q with ⟨ts, env2⟩
        rw [h2, okBind] at h
        dsimp only at h
        injection h with h'
        subst h'
        exact inferList_inv fns rest env1 (ts, env2)
          (inferExpr_inv fns e env (t, env1) henv h1) h2
  termination_by es env r henv h => sizeOf es

theorem inferLoopBreak_inv (fns : List FuncDecl) : ∀ (els : List Element) (env : Env)
    (r : Ty × Env), EnvInv env → inferLoopBreak fns els env = .ok r → EnvInv r.2
  | [], env, r, henv, h => by
    unfold inferLoopBreak at h
    cases h
  | el :: rest, env, r, henv, h => by
    cases el with
    | expr e2 =>
      unfold inferLoopBreak at h
      exact inferLoopBreak_inv fns rest env r henv h
    | stmt st =>
      cases st with
      | brk eo =>
        cases eo with
        | some e2 =>
          unfold inferLoopBreak at h
          exact inferExpr_inv fns e2 env r henv h
        | none =>
          unfold inferLoopBreak at h
          cases h
      | empty => unfold inferLoopBreak at h; exact inferLoopBreak_inv fns rest env r henv h
      | varDecl a b c d => unfold inferLoopBreak at h; exact inferLoopBreak_inv fns rest env r henv h
      | assign a b => unfold inferLoopBreak at h; exact inferLoopBreak_inv fns rest env r henv h
      | exprStmt a => unfold inferLoopBreak at h; exact inferLoopBreak_inv fns rest env r henv h
      | ifS a b c => unfold inferLoopBreak at h; exact inferLoopBreak_inv fns rest env r henv h
      | whileS a b => unfold inferLoopBreak at h; exact inferLoopBreak_inv fns rest env r henv h
      | forS a b c d e f => unfold inferLoopBreak at h; exact inferLoopBreak_inv fns rest env r henv h
      | loopS a => unfold inferLoopBreak at h; exact inferLoopBreak_inv fns rest env r henv h
      | ret a => unfold inferLoopBreak at h; exact inferLoopBreak_inv fns rest env r henv h
      | cont => unfold inferLoopBreak at h; exact inferLoopBreak_inv fns rest env r henv h
  termination_by els env r henv h => sizeOf els

theorem inferFBElems_inv (fns : List FuncDecl) : ∀ (els : List Element) (env : Env)
    (r : Ty × Env), EnvInv env → inferFBElems fns els env = .ok r → EnvInv r.2
  | [], env, r, henv, h => by
    unfold inferFBElems at h
    cases h
  | [.expr e], env, r, henv, h => by
    unfold inferFBElems at h
    exact inferExpr_inv fns e env r henv h
  | [.stmt st], env, r, henv, h => by
    cases st with
    | exprStmt e =>
      unfold inferFBElems at h
      exact inferExpr_inv fns e env r henv h
    | empty => unfold inferFBElems at h; injection h with h'; subst h'; exact henv
    | varDecl a b c d => unfold inferFBElems at h; injection h with h'; subst h'; exact henv
    | assign a b => unfold inferFBElems at h; injection h with h'; subst h'; exact henv
    | ifS a b c => unfold inferFBElems at h; injection h with h'; subst h'; exact henv
    | whileS a b => unfold inferFBElems at h; injection h with h'; subst h'; exact henv
    | forS a b c d e f => unfold inferFBElems at h; injection h with h'; subst h'; exact henv
    | loopS a => unfold inferFBElems at h; injection h with h'; subst h'; exact henv
    | ret a => unfold inferFBElems at h; injection h with h'; subst h'; exact henv
    | brk a => unfold inferFBElems at h; injection h with h'; subst h'; exact henv
    | cont => unfold inferFBElems at h; injection h with h'; subst h'; exact henv
  | el :: f :: rest, env, r, henv, h => by
    have hgen : (do
        let env1 ← inferFBElem fns el env
        inferFBElems fns (f :: rest) env1) = Except.ok r → EnvInv r.2 := by
      intro hh
      cases h1 : inferFBElem fns el env with
      | error e => rw [h1, errBind] at hh; cases hh
      | ok env1 =>
        rw [h1, okBind] at hh
        exact inferFBElems_inv fns (f :: rest) env1 r
          (inferFBElem_inv fns el env env1 henv h1) hh
    cases el with
    | expr e2 =>
      unfold inferFBElems at h
      exact hgen h
    | stmt st =>
      cases st <;> (unfold inferFBElems at h; exact hgen h)
  termination_by els env r henv h => sizeOf els

theorem inferFBElem_inv (fns : List FuncDecl) : ∀ (el : Element) (env : Env) (r : Env),
    EnvInv env → inferFBElem fns el env = .ok r → EnvInv r
  | .expr e, env, r, henv, h => by
    unfold inferFBElem at h
    cases h1 : inferExpr fns e env with
    | error er => rw [h1, errBind] at h; cases h
    | ok p =>
      rcases p with ⟨t, env1⟩
      rw [h1, okBind] at h
      dsimp only at h
      injection h with h'
      subst h'
      exact inferExpr_inv fns e env (t, env1) henv h1
  | .stmt st, env, r, henv, h => by
    cases st with
    | varDecl m name ty init =>
      unfold inferFBElem at h
      exact checkVarDecl_inv fns m name ty init env r henv h
    | assign target value =>
      unfold inferFBElem at h
      exact checkAssignment_inv fns target value env r henv h
    | exprStmt e =>
      unfold inferFBElem at h
      cases h1 : inferExpr fns e env with
      | error er => rw [h1, errBind] at h; cases h
      | ok p =>
        rcases p with ⟨t, env1⟩
        rw [h1, okBind] at h
        dsimp only at h
        injection h with h'
        subst h'
        exact inferExpr_inv fns e env (t, env1) henv h1
    | empty => unfold inferFBElem at h; injection h with h'; subst h'; exact henv
    | ifS a b c => unfold inferFBElem at h; injection h with h'; subst h'; exact henv
    | whileS a b => unfold inferFBElem at h; injection h with h'; subst h'; exact henv
    | forS a b c d e f => unfold inferFBElem at h; injection h with h'; subst h'; exact henv
    | loopS a => unfold inferFBElem at h; injection h with h'; subst h'; exact henv
    | ret a => unfold inferFBElem at h; injection h with h'; subst h'; exact henv
    | brk a => unfold inferFBElem at h; injection h with h'; subst h'; exact henv
    | cont => unfold inferFBElem at h; injection h with h'; subst h'; exact henv
  termination_by el env r henv h => sizeOf el

theorem checkVarDecl_inv (fns : List FuncDecl) : ∀ (m : Bool) (name : String) (ty : Ty)
    (init : Option Expr) (env : Env) (r : Env), EnvInv env →
    checkVarDecl fns (.varDecl m name ty init) env = .ok r → EnvInv r
  | m, name, ty, init, env, r, henv, h => by
    unfold checkVarDecl at h
    split at h
    · cases init with
      | none =>
        dsimp only at h
        injection h with h'
        subst h'
        exact declareVar_inv env name ty m false henv
      | some e =>
        dsimp only at h
        simp only [Option.isSome_some] at h
        cases h1 : inferExpr fns e (declareVar env name ty m true) with
        | error er => rw [h1, errBind] at h; cases h
        | ok p =>
          rcases p with ⟨et, env2⟩
          rw [h1, okBind] at h
          dsimp only at h
          split at h
          · cases h
          · injection h with h'
            subst h'
            exact inferExpr_inv fns e (declareVar env name ty m true) (et, env2)
              (declareVar_inv env name ty m true henv) h1
    · cases init with
      | some e =>
        dsimp only at h
        cases h1 : inferExpr fns e env with
        | error er => rw [h1, errBind] at h; cases h
        | ok p =>
          rcases p with ⟨et, env1⟩
          rw [h1, okBind] at h
          dsimp only at h
          injection h with h'
          subst h'
          exact declareVar_inv env1 name et m true
            (inferExpr_inv fns e env (et, env1) henv h1)
      | none =>
        cases env with
        | nil => cases h
        | cons fr rest =>
          dsimp only at h
          split at h
          · injection h with h'
            subst h'
            exact declareVar_inv (fr :: rest) name .pyNone m false henv
          · cases h
  termination_by m name ty init env r henv h => sizeOf init

theorem checkAssignment_inv (fns : List FuncDecl) : ∀ (target value : Expr)
    (env : Env) (r : Env), EnvInv env →
    checkAssignment fns (.assign target value) env = .ok r → EnvInv r
  | .ident name, value, env, r, henv, h => by
    unfold checkAssignment at h
    cases hl : lookupVar env name with
    | none => rw [hl] at h; cases h
    | some sym =>
      rw [hl] at h
      dsimp only at h
      split at h
      · cases h
      · cases h1 : inferExpr fns value env with
        | error er => rw [h1, errBind] at h; cases h
        | ok p =>
          rcases p with ⟨rt, env1⟩
          rw [h1, okBind] at h
          dsimp only at h
          split at h
          · cases h
          · injection h with h'
            subst h'
            refine updateVar_inv env1 name _
              (inferExpr_inv fns value env (rt, env1) henv h1) ?_
            intro s hs hcon
            exact hs hcon
  | .tupleAccess tgt idx, value, env, r, henv, h => by
    unfold checkAssignment at h
    cases h1 : inferExpr fns tgt env with
    | error er => rw [h1, errBind] at h; cases h
    | ok p =>
      rcases p with ⟨tt, env1⟩
      rw [h1, okBind] at h
      dsimp only at h
      have henv1 : EnvInv env1 := inferExpr_inv fns tgt env (tt, env1) henv h1
      cases tt with
      | tup elems =>
        dsimp only at h
        cases hmb : (match tgt with
          | .ident name =>
            (match lookupVar env1 name with
             | Option.none => Except.error AErr.undeclaredVariable
             | some sym =>
               if !sym.mutFlag then Except.error AErr.immutableAssignment
               else Except.ok env1)
          | _ => Except.ok env1) with
        | error er => rw [hmb, errBind] at h; cases h
        | ok env1b =>
          rw [hmb, okBind] at h
          have henv1b : env1b = env1 := by
            cases tgt with
            | ident name2 =>
              dsimp only at hmb
              cases hl : lookupVar env1 name2 with
              | none => rw [hl] at hmb; cases hmb
              | some sym =>
                rw [hl] at hmb
                dsimp only at hmb
                split at hmb
                · cases hmb
                · injection hmb with h2
                  exact h2.symm
            | lit n => injection hmb with h2; exact h2.symm
            | bin a b c => injection hmb with h2; exact h2.symm
            | call a b => injection hmb with h2; exact h2.symm
            | tupleLit a => injection hmb with h2; exact h2.symm
            | arrayLit a => injection hmb with h2; exact h2.symm
            | refE a b => injection hmb with h2; exact h2.symm
            | deref a => injection hmb with h2; exact h2.symm
            | tupleAccess a b => injection hmb with h2; exact h2.symm
            | indexE a b => injection hmb with h2; exact h2.symm
            | ifE a b c => injection hmb with h2; exact h2.symm
            | loopE a => injection hmb with h2; exact h2.symm
            | block a => injection hmb with h2; exact h2.symm
          subst henv1b
          cases idx with
          | name s => cases h
          | num n =>
            dsimp only at h
            split at h
            · cases h
            · cases h2 : inferExpr fns value env1b with
              | error er => rw [h2, errBind] at h; cases h
              | ok q =>
                rcases q with ⟨rt, env2⟩
                rw [h2, okBind] at h
                dsimp only at h
                split at h
                · cases h
                · injection h with h'
                  subst h'
                  exact inferExpr_inv fns value env1b (rt, env2) henv1 h2
      | i32 => cases h
      | pyNone => cases h
      | arr a b => cases h
      | tupT a => cases h
      | ref a b => cases h
  | .lit n, value, env, r, henv, h => by
    unfold checkAssignment at h
    exact checkAssignment_else_inv fns (.lit n) value env r
      (fun r' h1 => inferExpr_inv fns (.lit n) env r' henv h1)
      (fun env1 r' he h2 => inferExpr_inv fns value env1 r' he h2) h
  | .bin a b c, value, env, r, henv, h => by
    unfold checkAssignment at h
    exact checkAssignment_else_inv fns (.bin a b c) value env r
      (fun r' h1 => inferExpr_inv fns (.bin a b c) env r' henv h1)
      (fun env1 r' he h2 => inferExpr_inv fns value env1 r' he h2) h
  | .call a b, value, env, r, henv, h => by
    unfold checkAssignment at h
    exact checkAssignment_else_inv fns (.call a b) value env r
      (fun r' h1 => inferExpr_inv fns (.call a b) env r' henv h1)
      (fun env1 r' he h2 => inferExpr_inv fns value env1 r' he h2) h
  | .tupleLit a, value, env, r, henv, h => by
    unfold checkAssignment at h
    exact checkAssignment_else_inv fns (.tupleLit a) value env r
      (fun r' h1 => inferExpr_inv fns (.tupleLit a) env r' henv h1)
      (fun env1 r' he h2 => inferExpr_inv fns value env1 r' he h2) h
  | .arrayLit a, value, env, r, henv, h => by
    unfold checkAssignment at h
    exact checkAssignment_else_inv fns (.arrayLit a) value env r
      (fun r' h1 => inferExpr_inv fns (.arrayLit a) env r' henv h1)
      (fun env1 r' he h2 => inferExpr_inv fns value env1 r' he h2) h
  | .refE a b, value, env, r, henv, h => by
    unfold checkAssignment at h
    exact checkAssignment_else_inv fns (.refE a b) value env r
      (fun r' h1 => inferExpr_inv fns (.refE a b) env r' henv h1)
      (fun env1 r' he h2 => inferExpr_inv fns value env1 r' he h2) h
  | .deref a, value, env, r, henv, h => by
    unfold checkAssignment at h
    exact checkAssignment_else_inv fns (.deref a) value env r
      (fun r' h1 => inferExpr_inv fns (.deref a) env r' henv h1)
      (fun env1 r' he h2 => inferExpr_inv fns value env1 r' he h2) h
  | .indexE a b, value, env, r, henv, h => by
    unfold checkAssignment at h
    exact checkAssignment_else_inv fns (.indexE a b) value env r
      (fun r' h1 => inferExpr_inv fns (.indexE a b) env r' henv h1)
      (fun env1 r' he h2 => inferExpr_inv fns value env1 r' he h2) h
  | .ifE a b c, value, env, r, henv, h => by
    unfold checkAssignment at h
    exact checkAssignment_else_inv fns (.ifE a b c) value env r
      (fun r' h1 => inferExpr_inv fns (.ifE a b c) env r' henv h1)
      (fun env1 r' he h2 => inferExpr_inv fns value env1 r' he h2) h
  | .loopE a, value, env, r, henv, h => by
    unfold checkAssignment at h
    exact checkAssignment_else_inv fns (.loopE a) value env r
      (fun r' h1 => inferExpr_inv fns (.loopE a) env r' henv h1)
      (fun env1 r' he h2 => inferExpr_inv fns value env1 r' he h2) h
  | .block a, value, env, r, henv, h => by
    unfold checkAssignment at h
    exact checkAssignment_else_inv fns (.block a) value env r
      (fun r' h1 => inferExpr_inv fns (.block a) env r' henv h1)
      (fun env1 r' he h2 => inferExpr_inv fns value env1 r' he h2) h
  termination_by target value env r henv h => sizeOf target + sizeOf value
decreasing_by all_goals (first
  | decreasing_tactic
  | (simp_arith
     (try have hv := Expr.sizeOf_pos value)
     (try have ht := Expr.sizeOf_pos target)
     omega))

end
end MiniLang

namespace MiniLang
theorem checkReturn_inv (fns : List FuncDecl) (e : Option Expr) (expected : Ty)
    (env r : Env) (henv : EnvInv env) (h : checkReturn fns e expected env = .ok r) :
    EnvInv r := by
  unfold checkReturn at h
  split at h
  · cases h
  · split at h
    · cases h
    · cases e with
      | none =>
        injection h with h'
        subst h'
        exact henv
      | some ex =>
        dsimp only at h
        cases h1 : inferExpr fns ex env with
        | error er => rw [h1, errBind] at h; cases h
        | ok p =>
          rcases p with ⟨et, env1⟩
          rw [h1, okBind] at h
          dsimp only at h
          split at h
          · cases h
          · injection h with h'
            subst h'
            exact inferExpr_inv fns ex env (et, env1) henv h1

mutual

theorem visitStmt_inv (fns : List FuncDecl) : ∀ (depth : Nat) (er : Ty) (st : Stmt)
    (env r : Env), EnvInv env → visitStmt fns depth er st env = .ok r → EnvInv r
  | depth, er, .empty, env, r, henv, h => by
    unfold visitStmt at h
    injection h with h'
    subst h'
    exact henv
  | depth, er, .ret e, env, r, henv, h => by
    unfold visitStmt at h
    exact checkReturn_inv fns e er env r henv h
  | depth, er, .brk e, env, r, henv, h => by
    unfold visitStmt at h
    split at h
    · cases h
    · injection h with h'
      subst h'
      exact henv
  | depth, er, .cont, env, r, henv, h => by
    unfold visitStmt at h
    split at h
    · cases h
    · injection h with h'
      subst h'
      exact henv
  | depth, er, .varDecl m name ty init, env, r, henv, h => by
    unfold visitStmt at h
    exact checkVarDecl_inv fns m name ty init env r henv h
  | depth, er, .assign target value, env, r, henv, h => by
    unfold visitStmt at h
    exact checkAssignment_inv fns target value env r henv h
  | depth, er, .exprStmt e, env, r, henv, h => by
    unfold visitStmt at h
    cases h1 : inferExpr fns e env with
    | error er2 => rw [h1, errBind] at h; cases h
    | ok p =>
      rcases p with ⟨t, env1⟩
      rw [h1, okBind] at h
      dsimp only at h
      injection h with h'
      subst h'
      exact inferExpr_inv fns e env (t, env1) henv h1
  | depth, er, .ifS cond (BlockS.mk thn) els, env, r, henv, h => by
    unfold visitStmt at h
    cases h1 : inferExpr fns cond env with
    | error er2 => rw [h1, errBind] at h; cases h
    | ok p =>
      rcases p with ⟨ct, env1⟩
      rw [h1, okBind] at h
      dsimp only at h
      split at h
      · cases h
      · have henv1 : EnvInv env1 := inferExpr_inv fns cond env (ct, env1) henv h1
        cases h2 : visitStmts fns depth er thn env1 with
        | error er2 => rw [h2, errBind] at h; cases h
        | ok env2 =>
          rw [h2, okBind] at h
          exact visitElse_inv fns depth er els env2 r
            (visitStmts_inv fns depth er thn env1 env2 henv1 h2) h
  | depth, er, .whileS c (BlockS.mk stmts), env, r, henv, h => by
    unfold visitStmt at h
    exact visitStmts_inv fns (depth + 1) er stmts env r henv h
  | depth, er, .forS m var ty a b (BlockS.mk stmts), env, r, henv, h => by
    unfold visitStmt at h
    dsimp only at h
    cases h1 : visitStmts fns (depth + 1) er stmts
        (declareVar (pushFrame env) var .i32 m true) with
    | error er2 => rw [h1, errBind] at h; cases h
    | ok env3 =>
      rw [h1, okBind] at h
      injection h with h'
      subst h'
      exact popFrame_inv env3 (visitStmts_inv fns (depth + 1) er stmts
        (declareVar (pushFrame env) var .i32 m true) env3
        (declareVar_inv (pushFrame env) var .i32 m true (pushFrame_inv env henv)) h1)
  | depth, er, .loopS (BlockS.mk stmts), env, r, henv, h => by
    unfold visitStmt at h
    exact visitStmts_inv fns (depth + 1) er stmts env r henv h
  termination_by depth er st env r henv h => sizeOf st

theorem visitElse_inv (fns : List FuncDecl) : ∀ (depth : Nat) (er : Ty)
    (els : Option ElseArm) (env r : Env), EnvInv env →
    visitElse fns depth er els env = .ok r → EnvInv r
  | depth, er, Option.none, env, r, henv, h => by
    unfold visitElse at h
    injection h with h'
    subst h'
    exact henv
  | depth, er, some (.blk (BlockS.mk elseStmts)), env, r, henv, h => by
    unfold visitElse at h
    exact visitStmts_inv fns depth er elseStmts env r henv h
  | depth, er, some (.elifS c (BlockS.mk thn) els2), env, r, henv, h => by
    unfold visitElse at h
    cases h1 : inferExpr fns c env with
    | error er2 => rw [h1, errBind] at h; cases h
    | ok p =>
      rcases p with ⟨ct, env1⟩
      rw [h1, okBind] at h
      dsimp only at h
      split at h
      · cases h
      · have henv1 : EnvInv env1 := inferExpr_inv fns c env (ct, env1) henv h1
        cases h2 : visitStmts fns depth er thn env1 with
        | error er2 => rw [h2, errBind] at h; cases h
        | ok env2 =>
          rw [h2, okBind] at h
          exact visitElse_inv fns depth er els2 env2 r
            (visitStmts_inv fns depth er thn env1 env2 henv1 h2) h
  termination_by depth er els env r henv h => sizeOf els

theorem visitStmts_inv (fns : List FuncDecl) : ∀ (depth : Nat) (er : Ty)
    (l : List Stmt) (env r : Env), EnvInv env →
    visitStmts fns depth er l env = .ok r → EnvInv r
  | depth, er, [], env, r, henv, h => by
    unfold visitStmts at h
    injection h with h'
    subst h'
    exact henv
  | depth, er, st :: rest, env, r, henv, h => by
    unfold visitStmts at h
    cases h1 : visitStmt fns depth er st env with
    | error er2 => rw [h1, errBind] at h; cases h
    | ok env1 =>
      rw [h1, okBind] at h
      exact visitStmts_inv fns depth er rest env1 r
        (visitStmt_inv fns depth er st env env1 henv h1) h
  termination_by depth er l env r henv h => sizeOf l

end

theorem visitElements_inv (fns : List FuncDecl) : ∀ (depth : Nat) (er : Ty)
    (l : List Element) (env r : Env), EnvInv env →
    visitElements fns depth er l env = .ok r → EnvInv r
  | depth, er, [], env, r, henv, h => by
    unfold visitElements at h
    injection h with h'
    subst h'
    exact henv
  | depth, er, .stmt st :: rest, env, r, henv, h => by
    unfold visitElements at h
    cases h1 : visitStmt fns depth er st env with
    | error er2 => rw [h1, errBind] at h; cases h
    | ok env1 =>
      rw [h1, okBind] at h
      exact visitElements_inv fns depth er rest env1 r
        (visitStmt_inv fns depth er st env env1 henv h1) h
  | depth, er, .expr e :: rest, env, r, henv, h => by
    unfold visitElements at h
    cases h1 : inferExpr fns e env with
    | error er2 => rw [h1, errBind] at h; cases h
    | ok p =>
      rcases p with ⟨it, env1⟩
      rw [h1, okBind] at h
      dsimp only at h
      split at h
      · cases h
      · exact visitElements_inv fns depth er rest env1 r
          (inferExpr_inv fns e env (it, env1) henv h1) h

theorem declareParams_inv : ∀ (ps : List Param) (env : Env),
    EnvInv env → EnvInv (declareParams ps env)
  | [], env, henv => henv
  | p :: rest, env, henv =>
    declareParams_inv rest (declareVar env p.name p.type p.m true)
      (declareVar_inv env p.name p.type p.m true henv)

theorem visitFunction_inv (fns : List FuncDecl) (f : FuncDecl) (env r : Env)
    (henv : EnvInv env) (h : visitFunction fns f env = .ok r) : EnvInv r := by
  unfold visitFunction at h
  dsimp only at h
  cases h1 : visitElements fns 0 f.returnType f.body.elements
      (declareParams f.params (pushFrame env)) with
  | error er2 => rw [h1, errBind] at h; cases h
  | ok env2 =>
    rw [h1, okBind] at h
    injection h with h'
    subst h'
    exact popFrame_inv env2 (visitElements_inv fns 0 f.returnType f.body.elements
      (declareParams f.params (pushFrame env)) env2
      (declareParams_inv f.params (pushFrame env) (pushFrame_inv env henv)) h1)

theorem visitDecls_inv (fns : List FuncDecl) : ∀ (ds : List FuncDecl) (env r : Env),
    EnvInv env → visitDecls fns ds env = .ok r → EnvInv r
  | [], env, r, henv, h => by
    unfold visitDecls at h
    injection h with h'
    subst h'
    exact henv
  | d :: rest, env, r, henv, h => by
    unfold visitDecls at h
    cases h1 : visitFunction fns d env with
    | error er2 => rw [h1, errBind] at h; cases h
    | ok env1 =>
      rw [h1, okBind] at h
      exact visitDecls_inv fns rest env1 r
        (visitFunction_inv fns d env env1 henv h1) h

theorem analyzeProgram_inv (p : Program) (env : Env)
    (h : analyzeProgram p = .ok env) : EnvInv env := by
  unfold analyzeProgram at h
  refine visitDecls_inv p.decls p.decls [[]] env ?_ h
  intro fr hfr
  rcases List.mem_cons.1 hfr with rfl | hfr'
  · intro q hq
    cases hq
  · cases hfr'
end MiniLang

namespace MiniLang
/-- C5: in the `RefExpr` branch of `infer_expr_type` applied to an
identifier operand bound to a symbol, the outcome is exactly
`borrowCheckStep`: a mutable reference fails with `BorrowCheck` when the
symbol is not `mut` or either borrow flag is set, and otherwise sets
`borrowed_mut`; an immutable reference fails when `borrowed_mut` is set
and otherwise sets `borrowed_immut`; and since every symbol the analyzer
ever stores keeps the two flags mutually exclusive, the invariant that
no symbol has both flags set is preserved through `visit_function` and
holds after a successful `analyze`. -/
theorem c5_borrow_check :
    (∀ (fns : List FuncDecl) (m : Bool) (name : String) (env : Env) (sym : Symbol),
      lookupVar env name = some sym → sym.type ≠ .pyNone → sym.initialized = true →
      inferExpr fns (.refE m (.ident name)) env =
        (borrowCheckStep m sym).map
          (fun sym2 => (Ty.ref m sym.type, updateVar env name (fun _ => sym2)))) ∧
    (∀ sym : Symbol,
      (sym.mutFlag = false → borrowCheckStep true sym = .error .borrowCheck) ∧
      (sym.mutFlag = true → (sym.borrowedMut = true ∨ sym.borrowedImmut = true) →
        borrowCheckStep true sym = .error .borrowCheck) ∧
      (sym.mutFlag = true → sym.borrowedMut = false → sym.borrowedImmut = false →
        borrowCheckStep true sym = .ok { sym with borrowedMut := true }) ∧
      (sym.borrowedMut = true → borrowCheckStep false sym = .error .borrowCheck) ∧
      (sym.borrowedMut = false →
        borrowCheckStep false sym = .ok { sym with borrowedImmut := true })) ∧
    (∀ (fns : List FuncDecl) (f : FuncDecl) (env env' : Env),
      EnvInv env → visitFunction fns f env = .ok env' → EnvInv env') ∧
    (∀ (p : Program) (env' : Env), analyzeProgram p = .ok env' → EnvInv env') := by
  refine ⟨?_, ?_, ?_, ?_⟩
  · intro fns m name env sym hl htype hinit
    have hid : inferExpr fns (.ident name) env = .ok (sym.type, env) := by
      unfold inferExpr
      rw [hl]
      dsimp only
      rw [if_neg htype, if_neg (by simp [hinit])]
    show inferExpr fns (.refE m (.ident name)) env = _
    unfold inferExpr
    rw [hid, okBind]
    dsimp only
    rw [hl]
    dsimp only
    cases hb : borrowCheckStep m sym with
    | error e => rfl
    | ok sym2 => rfl
  · intro sym
    refine ⟨?_, ?_, ?_, ?_, ?_⟩
    · intro hm
      simp [borrowCheckStep, hm]
    · intro hm hb
      rcases hb with hb | hb <;> simp [borrowCheckStep, hm, hb]
    · intro hm hb hi
      simp [borrowCheckStep, hm, hb, hi]
    · intro hb
      simp [borrowCheckStep, hb]
    · intro hb
      simp [borrowCheckStep, hb]
  · exact fun fns f env env' henv h => visitFunction_inv fns f env env' henv h
  · exact fun p env' h => analyzeProgram_inv p env' h

theorem c5_borrow_check_witness :
    lookupVar demoEnv "a" = some demoSym ∧
    demoSym.type ≠ .pyNone ∧
    demoSym.initialized = true ∧
    inferExpr [] (.refE true (.ident "a")) demoEnv =
      (borrowCheckStep true demoSym).map
        (fun sym2 => (Ty.ref true demoSym.type, updateVar demoEnv "a" (fun _ => sym2))) ∧
    demoSymConst.mutFlag = false ∧
    borrowCheckStep true demoSymConst = .error .borrowCheck ∧
    demoSym.mutFlag = true ∧
    demoSym.borrowedMut = false ∧
    demoSym.borrowedImmut = false ∧
    borrowCheckStep true demoSym = .ok { demoSym with borrowedMut := true } ∧
    borrowCheckStep false demoSym = .ok { demoSym with borrowedImmut := true } ∧
    analyzeProgram astWhileDec = .ok [[]] ∧
    EnvInv ([[]] : Env) :=
  ⟨rfl, fun hcon => Ty.noConfusion hcon, rfl,
    c5_borrow_check.1 [] true "a" demoEnv demoSym rfl (fun hcon => Ty.noConfusion hcon) rfl,
    rfl, (c5_borrow_check.2.1 demoSymConst).1 rfl,
    rfl, rfl, rfl,
    (c5_borrow_check.2.1 demoSym).2.2.1 rfl rfl rfl,
    (c5_borrow_check.2.1 demoSym).2.2.2.2 rfl,
    rfl, c5_borrow_check.2.2.2 astWhileDec [[]] rfl⟩
end MiniLang
